import Mathlib

/-!
# Gradient kernels of the CESE solver: calc_dsoln_w3 and calcs_dsoln_w3

A shallow embedding of `src/cuse/calc_dsoln_w3.c` (generic cells) and
`src/cuse/calcs_dsoln_w3.c` (simplex cells), followed by the no-slip wall boundary
condition `src/eulerb/bound_nonslipwall.c` (namespace `eulerb`).

* `double` is an ordered field `K` (exact arithmetic); `fabs`, `fmin`, `fmax` are
  `|.|`, `min`, `max`.  Division follows the field convention `x / 0 = 0`.
* Where the code would divide by `0.0`, or `pow` would leave the range of the doubles, its
  values are infinities or NaN and the field values say nothing about them: statements
  that depend on such a division carry the hypotheses `calcDefined`, `calcsDefined`,
  `wgtFinite` or `cfl[icl] != 0`.  Rounding is not modelled.
* The two libm calls `sqrt` and `pow` are the fields of `Libm`.
* `int` is `Int`; flat C arrays are functions `Int → _` addressed with the pointer
  arithmetic of the source (ghost cells have negative indices).
* The compile-time constants of `cuse.h` (`NDIM`, `NEQ`, `CLMFC`, `FCREL`,
  `SOLVCON_ALMOST_ZERO`) are the fields of `Build`; `#if NDIM == 3` is `Build.dim3`.
* Entries of the scratch arrays `xps` and `dsp` that the cell did not write read as `0`.
-/

set_option linter.unusedSectionVars false

namespace Solvcon

/-- The libm functions called by the kernels (`sqrt`, `pow`). -/
structure Libm (K : Type) where
  sqrt : K → K
  pow : K → K → K

/-- Compile-time constants from `cuse.h`.  `dim3` is true for the build with
`NDIM == 3` and false for the build with `NDIM == 2`. -/
structure Build (K : Type) where
  dim3 : Bool
  NEQ : Nat
  CLMFC : Int
  FCREL : Int
  SOLVCON_ALMOST_ZERO : K

/-- The spatial dimension `NDIM` of the build. -/
def Build.NDIM {K : Type} (B : Build K) : Int := if B.dim3 then 3 else 2

/-- The fields of `exedata` read or written by the two kernels. -/
structure exedata (K : Type) where
  ncell : Int
  time_increment : K
  taumin : K
  tauscale : K
  cnbfac : K
  sftfac : K
  taylor : K
  sigma0 : K
  alpha : K
  cltpn : Int → Int
  clfcs : Int → Int
  fccls : Int → Int
  cecnd : Int → K
  cfl : Int → K
  sol : Int → K
  soln : Int → K
  solt : Int → K
  dsol : Int → K
  dsoln : Int → K

/-- Rows of the table `ggefcs[31][3]`. -/
def ggefcsRows : List (List Int) :=
  [ -- quadrilaterals.
    [1, 2, -1], [2, 3, -1], [3, 4, -1], [4, 1, -1],
    -- triangles.
    [1, 2, -1], [2, 3, -1], [3, 1, -1],
    -- hexahedra.
    [2, 3, 5], [6, 3, 2], [4, 3, 6], [5, 3, 4],
    [5, 1, 2], [2, 1, 6], [6, 1, 4], [4, 1, 5],
    -- tetrahedra.
    [3, 1, 2], [2, 1, 4], [4, 1, 3], [2, 4, 3],
    -- prisms.
    [5, 2, 4], [3, 2, 5], [4, 2, 3],
    [4, 1, 5], [5, 1, 3], [3, 1, 4],
    -- pyramids
    [1, 5, 2], [2, 5, 3], [3, 5, 4], [4, 5, 1],
    [1, 3, 4], [3, 1, 2] ]

/-- Table lookup `ggefcs[ig][ivx]`; an index outside the table reads `0`. -/
def ggefcs (ig ivx : Int) : Int :=
  if 0 ≤ ig ∧ 0 ≤ ivx then (ggefcsRows.getD ig.toNat []).getD ivx.toNat 0 else 0

/-- Rows of the table `ggerng[8][2]`. -/
def ggerngRows : List (List Int) :=
  [[-1, -1], [-2, -1], [0, 4], [4, 7], [7, 15], [15, 19], [19, 25], [25, 31]]

/-- Table lookup `ggerng[tp][c]`; an index outside the table reads `0`. -/
def ggerng (tp c : Int) : Int :=
  if 0 ≤ tp ∧ 0 ≤ c then (ggerngRows.getD tp.toNat []).getD c.toNat 0 else 0

section Kernel

variable {K : Type} [LinearOrderedField K]

/-- Lower end `ig0 = ggerng[cltpn[icl]][0]` of the sub-element range of a cell. -/
def ig0 (exd : exedata K) (icl : Int) : Int := ggerng (exd.cltpn icl) 0

/-- Upper end `ig1 = ggerng[cltpn[icl]][1]` of the sub-element range of a cell. -/
def ig1 (exd : exedata K) (icl : Int) : Int := ggerng (exd.cltpn icl) 1

/-- Number of iterations of `for (ig=ig0; ig<ig1; ig++)`. -/
def nsub (exd : exedata K) (icl : Int) : Nat := (ig1 exd icl - ig0 exd icl).toNat

/-- The equal-weight base `ofg1 = 1.0/(ig1-ig0)` of the generic kernel. -/
def ofg1 (exd : exedata K) (icl : Int) : K := 1 / ((ig1 exd icl - ig0 exd icl : Int) : K)

/-- The cell ceiling `sgm0 = sigma0 / fabs(cfl[icl])`.  For `cfl[icl] = 0` the field
quotient is 0 where the code has `inf` or NaN; `sgm0Checked` is the checked quotient. -/
def sgm0 (exd : exedata K) (icl : Int) : K := exd.sigma0 / |exd.cfl icl|

/-- The decentering parameter `tau = taumin + fabs(cfl[icl]) * tauscale`. -/
def tau (exd : exedata K) (icl : Int) : K := exd.taumin + |exd.cfl icl| * exd.tauscale

/-- The neighbour `jcl = pfccls[0] + pfccls[1] - icl` across face `ifc`. -/
def jcl (B : Build K) (exd : exedata K) (icl ifc : Int) : Int :=
  exd.fccls (ifc * B.FCREL) + exd.fccls (ifc * B.FCREL + 1) - icl

/-- Face count `clnfc = pclfcs[0]` read by the generic kernel. -/
def clnfc (B : Build K) (exd : exedata K) (icl : Int) : Int :=
  exd.clfcs (icl * (B.CLMFC + 1))

/-- Face count `CLNFC = NDIM+1` fixed by the simplex kernel. -/
def CLNFC (B : Build K) : Int := B.NDIM + 1

/-- The neighbour cell across the face stored at position `ifl` (1-based) of the face
list of `icl`. -/
def jclOf (B : Build K) (exd : exedata K) (icl ifl : Int) : Int :=
  jcl B exd icl (exd.clfcs (icl * (B.CLMFC + 1) + ifl))

/-- The per-face value of `sft[d]` in the dual-point loop:
`sft = (picecnd[d] + pjcecnd[d])/2; sft += cnbfac*(pcecnd[d] - sft)`, for the face at
0-based position `ifl1`. -/
def sftfc (B : Build K) (exd : exedata K) (icl ifl1 d : Int) : K :=
  let pj := exd.cecnd (jclOf B exd icl (ifl1 + 1) * (B.CLMFC + 1) * B.NDIM + d)
  let pc := exd.cecnd (icl * (B.CLMFC + 1) * B.NDIM + (ifl1 + 1) * B.NDIM + d)
  let sft := (exd.cecnd (icl * (B.CLMFC + 1) * B.NDIM + d) + pj) / 2
  sft + exd.cnbfac * (pc - sft)

/-- The dual-region vertex `xps[ifl1][d] = (pjcecnd[d] - sft[d])*tau + sft[d]`, written
for `0 <= ifl1 < nf` where `nf` is the face count used by the loop. -/
def xps (B : Build K) (exd : exedata K) (nf icl ifl1 d : Int) : K :=
  if 0 ≤ ifl1 ∧ ifl1 < nf then
    let pj := exd.cecnd (jclOf B exd icl (ifl1 + 1) * (B.CLMFC + 1) * B.NDIM + d)
    (pj - sftfc B exd icl ifl1 d) * tau exd icl + sftfc B exd icl ifl1 d
  else 0

/-- The displacement `dsp[ifl1][d] = xps[ifl1][d] - pjcecnd[d]` before the GGE shift. -/
def dsp0 (B : Build K) (exd : exedata K) (nf icl ifl1 d : Int) : K :=
  if 0 ≤ ifl1 ∧ ifl1 < nf then
    xps B exd nf icl ifl1 d
      - exd.cecnd (jclOf B exd icl (ifl1 + 1) * (B.CLMFC + 1) * B.NDIM + d)
  else 0

/-- The sum `acc = 0; for (k=0; k<n; k++) acc += f(k)` of an accumulation loop. -/
def accum (n : Nat) (f : Nat → K) : K := (List.range n).foldl (fun s k => s + f k) 0

/-! ### Generic kernel: average point and GGE centroid -/

/-- The average point `crd[d]` of the generic kernel. -/
def crd (B : Build K) (exd : exedata K) (icl d : Int) : K :=
  accum (clnfc B exd icl).toNat (fun ifl => xps B exd (clnfc B exd icl) icl ifl d)
    / ((clnfc B exd icl : Int) : K)

/-- The rows `dst[ivx][d] = xps[ifl][d] - crd[d]` of the centroid loop, with
`ifl = ggefcs[ig][ivx]-1`. -/
def dstc (B : Build K) (exd : exedata K) (icl ig ivx d : Int) : K :=
  xps B exd (clnfc B exd icl) icl (ggefcs ig ivx - 1) d - crd B exd icl d

/-- The sub-element centroid `cnd[d]`: `crd[d]` plus its `NDIM` vertices, over `NDIM+1`. -/
def cnd (B : Build K) (exd : exedata K) (icl ig d : Int) : K :=
  let x : Int → K := fun ivx => xps B exd (clnfc B exd icl) icl (ggefcs ig ivx - 1) d
  (if B.dim3 then crd B exd icl d + x 0 + x 1 + x 2 else crd B exd icl d + x 0 + x 1)
    / ((B.NDIM + 1 : Int) : K)

/-- The sub-element volume `vob`. -/
def vob (B : Build K) (exd : exedata K) (icl ig : Int) : K :=
  let dst := dstc B exd icl ig
  if B.dim3 then
    let s0 := dst 0 1 * dst 1 2 - dst 0 2 * dst 1 1
    let s1 := dst 0 2 * dst 1 0 - dst 0 0 * dst 1 2
    let s2 := dst 0 0 * dst 1 1 - dst 0 1 * dst 1 0
    |s0 * dst 2 0 + s1 * dst 2 1 + s2 * dst 2 2| / 6
  else
    |dst 0 0 * dst 1 1 - dst 0 1 * dst 1 0| / 2

/-- The GGE volume: `voc` after the centroid loop (`voc += vob`). -/
def vocge (B : Build K) (exd : exedata K) (icl : Int) : K :=
  accum (nsub exd icl) (fun k => vob B exd icl (ig0 exd icl + k))

/-- The GGE centroid `cndge[d]` of the generic kernel
(`cndge[d] += cnd[d]*vob` over the sub-elements, then `cndge[d] /= voc`). -/
def cndge (B : Build K) (exd : exedata K) (icl d : Int) : K :=
  accum (nsub exd icl)
      (fun k => cnd B exd icl (ig0 exd icl + k) d * vob B exd icl (ig0 exd icl + k))
    / vocge B exd icl

/-! ### Simplex kernel: GGE centroid -/

/-- The GGE centroid `cndge[d]` of the simplex kernel: the mean of the `CLNFC` vertices. -/
def cndges (B : Build K) (exd : exedata K) (icl d : Int) : K :=
  accum (CLNFC B).toNat (fun ifl => xps B exd (CLNFC B) icl ifl d) / ((CLNFC B : Int) : K)

/-! ### Both kernels: GGE shift, per-sub-element gradient, weight

These loops are the same text in the two files; `nf` is the face count in use
(`clnfc` or `CLNFC`) and `cg` the GGE centroid computed before (`cndge`). -/

/-- The GGE shift `sft[d] = sftfac * (pcecnd[d] - cndge[d])`. -/
def sft (B : Build K) (exd : exedata K) (cg : Int → K) (icl d : Int) : K :=
  exd.sftfac * (exd.cecnd (icl * (B.CLMFC + 1) * B.NDIM + d) - cg d)

/-- The displacement `dsp[ifl][d]` after `dsp[ifl][d] += sft[d]` for `0 <= ifl < nf`. -/
def dsp (B : Build K) (exd : exedata K) (nf : Int) (cg : Int → K) (icl ifl d : Int) : K :=
  if 0 ≤ ifl ∧ ifl < nf then dsp0 B exd nf icl ifl d + sft B exd cg icl d
  else dsp0 B exd nf icl ifl d

/-- The distance rows `dst[ivx][d] = xps[ifl][d] - cndge[d]` of sub-element `ig`, with
`ifl = ggefcs[ig][ivx] - 1`. -/
def dst (B : Build K) (exd : exedata K) (nf : Int) (cg : Int → K) (icl ig ivx d : Int) : K :=
  xps B exd nf icl (ggefcs ig ivx - 1) d - cg d

/-- The solution difference `udf[ieq][ivx]` of sub-element `ig`:
`voc = pjsol[ieq] + hdt*pjsolt[ieq] - pjsoln[ieq]` scaled by `taylor`, then
`pjsoln[ieq] + voc - pisoln[ieq]` plus `dsp[ifl][d]*pdsol[d]` for each `d`
(`calcs_dsoln_w3` writes the same sum as one expression). -/
def udf (B : Build K) (exd : exedata K) (nf : Int) (cg : Int → K)
    (icl ig : Int) (ieq : Nat) (ivx : Int) : K :=
  let ifl := ggefcs ig ivx
  let j := jclOf B exd icl ifl
  let ifl := ifl - 1
  let hdt := exd.time_increment * (1 / 2)
  let voc := exd.sol (j * B.NEQ + ieq) + hdt * exd.solt (j * B.NEQ + ieq)
    - exd.soln (j * B.NEQ + ieq)
  let voc := voc * exd.taylor
  let u := exd.soln (j * B.NEQ + ieq) + voc - exd.soln (icl * B.NEQ + ieq)
  let u := u + dsp B exd nf cg icl ifl 0 * exd.dsol (j * B.NEQ * B.NDIM + ieq * B.NDIM + 0)
  let u := u + dsp B exd nf cg icl ifl 1 * exd.dsol (j * B.NEQ * B.NDIM + ieq * B.NDIM + 1)
  if B.dim3 then
    u + dsp B exd nf cg icl ifl 2 * exd.dsol (j * B.NEQ * B.NDIM + ieq * B.NDIM + 2)
  else u

/-- The matrix `dnv` built from the rows `dst` ("prepare inverse matrix for gradient"). -/
def dnv (dim3 : Bool) (dst : Int → Int → K) (i j : Int) : K :=
  if dim3 then
    if i = 0 then
      if j = 0 then dst 1 1 * dst 2 2 - dst 1 2 * dst 2 1
      else if j = 1 then dst 0 2 * dst 2 1 - dst 0 1 * dst 2 2
      else dst 0 1 * dst 1 2 - dst 0 2 * dst 1 1
    else if i = 1 then
      if j = 0 then dst 1 2 * dst 2 0 - dst 1 0 * dst 2 2
      else if j = 1 then dst 0 0 * dst 2 2 - dst 0 2 * dst 2 0
      else dst 0 2 * dst 1 0 - dst 0 0 * dst 1 2
    else
      if j = 0 then dst 1 0 * dst 2 1 - dst 1 1 * dst 2 0
      else if j = 1 then dst 0 1 * dst 2 0 - dst 0 0 * dst 2 1
      else dst 0 0 * dst 1 1 - dst 0 1 * dst 1 0
  else
    if i = 0 then
      if j = 0 then dst 1 1 else -dst 0 1
    else
      if j = 0 then -dst 1 0 else dst 0 0

/-- The scalar `voc` computed next to `dnv`. -/
def voc (dim3 : Bool) (dst : Int → Int → K) : K :=
  if dim3 then
    dnv dim3 dst 0 2 * dst 2 0 + dnv dim3 dst 1 2 * dst 2 1 + dnv dim3 dst 2 2 * dst 2 2
  else
    dst 0 0 * dst 1 1 - dst 0 1 * dst 1 0

/-- The gradient component `grd<d>`: row `d` of `dnv` times `udf[ieq]`, over `voc`.  For
`voc = 0` the field quotient is 0 where the code has `inf` or NaN; `divisorsDefined` holds
the condition `voc != 0`. -/
def grd (dim3 : Bool) (dst : Int → Int → K) (u : Int → K) (d : Int) : K :=
  (if dim3 then dnv dim3 dst d 0 * u 0 + dnv dim3 dst d 1 * u 1 + dnv dim3 dst d 2 * u 2
   else dnv dim3 dst d 0 * u 0 + dnv dim3 dst d 1 * u 1) / voc dim3 dst

/-- The stored gradient `gfd[ifg][ieq][d]` of sub-element `ig = ig0 + ifg`. -/
def gfd (B : Build K) (exd : exedata K) (nf : Int) (cg : Int → K)
    (icl : Int) (ifg ieq : Nat) (d : Int) : K :=
  grd B.dim3 (dst B exd nf cg icl (ig0 exd icl + ifg))
    (udf B exd nf cg icl (ig0 exd icl + ifg) ieq) d

/-- The W-1/2 weight `wgt = 1.0 / pow(sqrt(wgt+SOLVCON_ALMOST_ZERO), alpha)` stored in
`dlt[ifg][ieq]`, with `wgt = grd0*grd0 + grd1*grd1 (+ grd2*grd2)`.  The value is the exact
one; `wgtFinite` says when the double of the code is finite and positive, and `wgtChecked`
is the checked weight. -/
def wgt (B : Build K) (m : Libm K) (exd : exedata K) (nf : Int) (cg : Int → K)
    (icl : Int) (ifg ieq : Nat) : K :=
  let g := gfd B exd nf cg icl ifg ieq
  let w := g 0 * g 0 + g 1 * g 1
  let w := if B.dim3 then w + g 2 * g 2 else w
  1 / m.pow (m.sqrt (w + B.SOLVCON_ALMOST_ZERO)) exd.alpha

/-- The weight sum `dla[ieq]` (`dla[ieq] += wgt` over the sub-elements). -/
def dla (B : Build K) (m : Libm K) (exd : exedata K) (nf : Int) (cg : Int → K)
    (icl : Int) (ieq : Nat) : K :=
  accum (nsub exd icl) (fun ifg => wgt B m exd nf cg icl ifg ieq)

/-! ### Both kernels: W-3/4 deviation and its bound; `base` is `ofg1` or `1.0/CLNFC` -/

/-- The normalised deviation `dlt[ifg][ieq] = dlt[ifg][ieq] / dla[ieq] - base`. -/
def dlt (B : Build K) (m : Libm K) (exd : exedata K) (nf : Int) (cg : Int → K) (base : K)
    (icl : Int) (ifg ieq : Nat) : K :=
  wgt B m exd nf cg icl ifg ieq / dla B m exd nf cg icl ieq - base

/-- The running maximum `udf[ieq][0] = fmax(udf[ieq][0], wgt)` seeded at `0.0`. -/
def udfmax (B : Build K) (m : Libm K) (exd : exedata K) (nf : Int) (cg : Int → K) (base : K)
    (icl : Int) (ieq : Nat) : K :=
  (List.range (nsub exd icl)).foldl (fun s ifg => max s (dlt B m exd nf cg base icl ifg ieq)) 0

/-- The running minimum `udf[ieq][1] = fmin(udf[ieq][1], wgt)` seeded at `0.0`. -/
def udfmin (B : Build K) (m : Libm K) (exd : exedata K) (nf : Int) (cg : Int → K) (base : K)
    (icl : Int) (ieq : Nat) : K :=
  (List.range (nsub exd icl)).foldl (fun s ifg => min s (dlt B m exd nf cg base icl ifg ieq)) 0

/-- The bound `fmin((1.0-base)/(udf[ieq][0]+SOLVCON_ALMOST_ZERO),
-base/(udf[ieq][1]-SOLVCON_ALMOST_ZERO))`. -/
def sigmax (B : Build K) (m : Libm K) (exd : exedata K) (nf : Int) (cg : Int → K) (base : K)
    (icl : Int) (ieq : Nat) : K :=
  min ((1 - base) / (udfmax B m exd nf cg base icl ieq + B.SOLVCON_ALMOST_ZERO))
    (-base / (udfmin B m exd nf cg base icl ieq - B.SOLVCON_ALMOST_ZERO))

/-! ### Writing `dsoln` -/

/-- The assignment `a[i] = v`. -/
def store (a : Int → K) (i : Int) (v : K) : Int → K := fun j => if j = i then v else a j

/-- The loop `pdsoln[0] = pdsoln[1] = 0.0; (pdsoln[2] = 0.0;) pdsoln += NDIM` over `ieq`,
starting at `pdsoln = dsoln + icl*NEQ*NDIM`. -/
def zeroLoop (B : Build K) (ds : Int → K) (icl : Int) : Int → K :=
  (List.range B.NEQ).foldl (fun (ds : Int → K) (ieq : Nat) =>
    let p := icl * B.NEQ * B.NDIM + (ieq : Int) * B.NDIM
    let ds := store ds (p + 1) 0
    let ds := store ds (p + 0) 0
    if B.dim3 then store ds (p + 2) 0 else ds) ds

/-- The loop `pdsoln[d] += wgt*gfd[ifg][ieq][d]; pdsoln += NDIM` over `ieq` for one
sub-element, with `w ieq` the value of `wgt` and `g ieq d` the value of
`gfd[ifg][ieq][d]`. -/
def addLoop (B : Build K) (w : Nat → K) (g : Nat → Int → K) (ds : Int → K) (icl : Int) :
    Int → K :=
  (List.range B.NEQ).foldl (fun (ds : Int → K) (ieq : Nat) =>
    let p := icl * B.NEQ * B.NDIM + (ieq : Int) * B.NDIM
    let ds := store ds (p + 0) (ds (p + 0) + w ieq * g ieq 0)
    let ds := store ds (p + 1) (ds (p + 1) + w ieq * g ieq 1)
    if B.dim3 then store ds (p + 2) (ds (p + 2) + w ieq * g ieq 2) else ds) ds

/-- The cell indices visited by `for (icl=a; icl<b; icl++)`. -/
def cells (a b : Int) : List Int :=
  (List.range (b - a).toNat).map (fun (k : Nat) => a + (k : Int))

/-! ### The generic kernel `calc_dsoln_w3` -/

/-- The limiter `dla[ieq]` of the generic kernel after
`dla[ieq] = fmin(dla[ieq], sgm0)`. -/
def dlaSigma (B : Build K) (m : Libm K) (exd : exedata K) (icl : Int) (ieq : Nat) : K :=
  min (sigmax B m exd (clnfc B exd icl) (cndge B exd icl) (ofg1 exd icl) icl ieq)
    (sgm0 exd icl)

/-- The final weight `wgt = ofg1 + dla[ieq]*dlt[ifg][ieq]` of the generic kernel, in exact
arithmetic (the code rounds every operation to a double). -/
def wfin (B : Build K) (m : Libm K) (exd : exedata K) (icl : Int) (ifg ieq : Nat) : K :=
  ofg1 exd icl + dlaSigma B m exd icl ieq
    * dlt B m exd (clnfc B exd icl) (cndge B exd icl) (ofg1 exd icl) icl ifg ieq

/-- The body of the cell loop of `calc_dsoln_w3` for cell `icl`: the state after the
"weight and update gradient" block. -/
def calc_cell (B : Build K) (m : Libm K) (exd : exedata K) (icl : Int) : exedata K :=
  let ds := zeroLoop B exd.dsoln icl
  let ds := (List.range (nsub exd icl)).foldl (fun ds ifg =>
    addLoop B (fun ieq => wfin B m exd icl ifg ieq)
      (fun ieq d => gfd B exd (clnfc B exd icl) (cndge B exd icl) icl ifg ieq d) ds icl) ds
  { exd with dsoln := ds }

/-- The host function `calc_dsoln_w3(exd)`: the cell loop `for (icl=0; icl<ncell; icl++)`. -/
def calc_dsoln_w3 (B : Build K) (m : Libm K) (exd : exedata K) : exedata K :=
  (cells 0 exd.ncell).foldl (calc_cell B m) exd

/-- The device function `cuda_calc_dsoln_w3` run by the thread with index `istart`. -/
def cuda_calc_dsoln_w3 (B : Build K) (m : Libm K) (exd : exedata K) (istart : Int) :
    exedata K :=
  if istart < exd.ncell then calc_cell B m exd istart else exd

/-! ### The simplex kernel `calcs_dsoln_w3` -/

/-- The clamped limiter `wgt = fmin(udf[ieq][0], sgm0)` of the simplex kernel, where
`udf[ieq][0]` holds the bound computed after the deviation loop. -/
def sgms (B : Build K) (m : Libm K) (exd : exedata K) (icl : Int) (ieq : Nat) : K :=
  min (sigmax B m exd (CLNFC B) (cndges B exd icl) (1 / ((CLNFC B : Int) : K)) icl ieq)
    (sgm0 exd icl)

/-- The final weight `wgt = (1.0/CLNFC) + wgt*dlt[ifg][ieq]` of the simplex kernel. -/
def wfins (B : Build K) (m : Libm K) (exd : exedata K) (icl : Int) (ifg ieq : Nat) : K :=
  1 / ((CLNFC B : Int) : K)
    + sgms B m exd icl ieq
      * dlt B m exd (CLNFC B) (cndges B exd icl) (1 / ((CLNFC B : Int) : K)) icl ifg ieq

/-- The body of the cell loop of `calcs_dsoln_w3` for cell `icl`. -/
def calcs_cell (B : Build K) (m : Libm K) (exd : exedata K) (icl : Int) : exedata K :=
  let ds := zeroLoop B exd.dsoln icl
  let ds := (List.range (nsub exd icl)).foldl (fun ds ifg =>
    addLoop B (fun ieq => wfins B m exd icl ifg ieq)
      (fun ieq d => gfd B exd (CLNFC B) (cndges B exd icl) icl ifg ieq d) ds icl) ds
  { exd with dsoln := ds }

/-- The host function `calcs_dsoln_w3(exd, istart, iend)`: the cell loop
`for (icl=istart; icl<iend; icl++)` (the returned CPU-time figure is not part of the
state). -/
def calcs_dsoln_w3 (B : Build K) (m : Libm K) (exd : exedata K) (istart iend : Int) :
    exedata K :=
  (cells istart iend).foldl (calcs_cell B m) exd

/-- The device function `cuda_calcs_dsoln_w3` run by the thread with index `istart`. -/
def cuda_calcs_dsoln_w3 (B : Build K) (m : Libm K) (exd : exedata K) (istart : Int) :
    exedata K :=
  if istart < exd.ncell then calcs_cell B m exd istart else exd

/-! ### Vocabulary of the statements -/

/-- Index `j` lies in the `dsoln` block of cell `icl`, the `NEQ*NDIM` entries starting at
`icl*NEQ*NDIM`. -/
def inCell (B : Build K) (icl j : Int) : Prop :=
  icl * B.NEQ * B.NDIM ≤ j ∧ j < icl * B.NEQ * B.NDIM + B.NEQ * B.NDIM

instance (B : Build K) (icl j : Int) : Decidable (inCell B icl j) := by
  unfold inCell; infer_instance

/-- Equation number of the `dsoln` entry `j` of cell `icl`. -/
def eqOf (B : Build K) (icl j : Int) : Nat := ((j - icl * B.NEQ * B.NDIM) / B.NDIM).toNat

/-- Component number of the `dsoln` entry `j` of cell `icl`. -/
def dimOf (B : Build K) (icl j : Int) : Int := (j - icl * B.NEQ * B.NDIM) % B.NDIM

/-- The weighted sum `sum over ifg of wgt * gfd[ifg][ieq][d]` that `calc_cell` leaves in
`dsoln` for equation `ieq` and component `d`. -/
def calc_val (B : Build K) (m : Libm K) (exd : exedata K) (icl : Int) (ieq : Nat) (d : Int) :
    K :=
  accum (nsub exd icl) (fun ifg => wfin B m exd icl ifg ieq
    * gfd B exd (clnfc B exd icl) (cndge B exd icl) icl ifg ieq d)

/-- The weighted sum that `calcs_cell` leaves in `dsoln` for equation `ieq` and
component `d`. -/
def calcs_val (B : Build K) (m : Libm K) (exd : exedata K) (icl : Int) (ieq : Nat) (d : Int) :
    K :=
  accum (nsub exd icl) (fun ifg => wfins B m exd icl ifg ieq
    * gfd B exd (CLNFC B) (cndges B exd icl) icl ifg ieq d)

/-- The state `exd` with its `dsoln` array replaced. -/
def withDsoln (exd : exedata K) (ds : Int → K) : exedata K := { exd with dsoln := ds }

/-- Overwrite the block of cell `icl` in a `dsoln` array with the values `val icl ieq d`. -/
def overDs (B : Build K) (val : Int → Nat → Int → K) (ds : Int → K) (icl : Int) : Int → K :=
  fun j => if inCell B icl j then val icl (eqOf B icl j) (dimOf B icl j) else ds j

/-- The determinant of the edge vectors `xps[k] - xps[0]`, `k = 1..NDIM`, of the dual-region
simplex of a simplex cell: twice (2-D) or six times (3-D) its signed volume. -/
def dualDet (B : Build K) (exd : exedata K) (icl : Int) : K :=
  let x := xps B exd (CLNFC B) icl
  if B.dim3 then
    ((x 1 1 - x 0 1) * (x 2 2 - x 0 2) - (x 1 2 - x 0 2) * (x 2 1 - x 0 1)) * (x 3 0 - x 0 0)
      + ((x 1 2 - x 0 2) * (x 2 0 - x 0 0) - (x 1 0 - x 0 0) * (x 2 2 - x 0 2))
        * (x 3 1 - x 0 1)
      + ((x 1 0 - x 0 0) * (x 2 1 - x 0 1) - (x 1 1 - x 0 1) * (x 2 0 - x 0 0))
        * (x 3 2 - x 0 2)
  else
    (x 1 0 - x 0 0) * (x 2 1 - x 0 1) - (x 1 1 - x 0 1) * (x 2 0 - x 0 0)

/-- The rows `dst[i][j]`, `i, j < n`, as a matrix. -/
def dstMat (n : Nat) (dst : Int → Int → K) : Matrix (Fin n) (Fin n) K :=
  Matrix.of (fun i j => dst ((i : Nat) : Int) ((j : Nat) : Int))

/-- The entries `u[i]`, `i < n`, as a vector. -/
def vecOf (n : Nat) (u : Int → K) : Fin n → K := fun i => u ((i : Nat) : Int)

end Kernel

/-! ### Concrete inputs -/

/-- The libm calls in exact real arithmetic: `sqrt` is the real square root and `pow` the
real power function (neither is computable). -/
noncomputable def realLibm : Libm ℝ := ⟨Real.sqrt, fun x a => x ^ a⟩

/-- A two-dimensional build with four equations. -/
def exB (K : Type) [LinearOrderedField K] : Build K :=
  { dim3 := false, NEQ := 4, CLMFC := 6, FCREL := 4, SOLVCON_ALMOST_ZERO := 1 / 10 ^ 200 }

/-- One triangle (cell 0, centroid `(0, 1/2)`, face centroids `(3/2, 1/4)`, `(0, 7/4)`,
`(-3/2, -1/2)`) whose faces 1, 2, 3 lead to the cells 1, 2, 3 with centroids `(3, 0)`,
`(0, 3)`, `(-3, -3/2)`.  Every cell holds `soln = sol = [1, 0, 0, 2]`,
`solt = [st, 0, 0, 0]` and `dsol = 0`; `cfl = 1`, so `tau = 1` and `sgm0 = 3`. -/
def exTri (K : Type) [LinearOrderedField K] (st : K) : exedata K where
  ncell := 1
  time_increment := 2
  taumin := 0
  tauscale := 1
  cnbfac := 1
  sftfac := 1
  taylor := 1
  sigma0 := 3
  alpha := 2
  cltpn := fun _ => 3
  clfcs := fun i => if i = 0 then 3 else if i = 1 then 1 else if i = 2 then 2
    else if i = 3 then 3 else 0
  fccls := fun i => if i = 5 then 1 else if i = 9 then 2 else if i = 13 then 3 else 0
  cecnd := fun i => if i = 1 then 1 / 2 else if i = 2 then 3 / 2 else if i = 3 then 1 / 4
    else if i = 5 then 7 / 4 else if i = 6 then -3 / 2 else if i = 7 then -1 / 2
    else if i = 14 then 3 else if i = 29 then 3 else if i = 42 then -3
    else if i = 43 then -3 / 2 else 0
  cfl := fun _ => 1
  sol := fun i => if i % 4 = 0 then 1 else if i % 4 = 3 then 2 else 0
  soln := fun i => if i % 4 = 0 then 1 else if i % 4 = 3 then 2 else 0
  solt := fun i => if i % 4 = 0 then st else 0
  dsol := fun _ => 0
  dsoln := fun _ => 0

/-- A three-dimensional build with five equations. -/
def exB3 (K : Type) [LinearOrderedField K] : Build K :=
  { dim3 := true, NEQ := 5, CLMFC := 6, FCREL := 4, SOLVCON_ALMOST_ZERO := 1 / 10 ^ 200 }

/-- One tetrahedron (cell 0, centroid at the origin) whose faces 1, 2, 3, 4 lead to the
cells 1, 2, 3, 4 with centroids `(1, 0, 0)`, `(0, 1, 0)`, `(0, 0, 1)`, `(-1, -1, -1)`.
Every cell holds `soln = sol = [1, 0, 0, 0, 2]`, `solt = 0` and `dsol = 0`; `cfl = 1`. -/
def exTet (K : Type) [LinearOrderedField K] : exedata K where
  ncell := 1
  time_increment := 2
  taumin := 0
  tauscale := 1
  cnbfac := 1
  sftfac := 1
  taylor := 1
  sigma0 := 3
  alpha := 2
  cltpn := fun _ => 5
  clfcs := fun i => if i = 0 then 4 else if i = 1 then 1 else if i = 2 then 2
    else if i = 3 then 3 else if i = 4 then 4 else 0
  fccls := fun i => if i = 5 then 1 else if i = 9 then 2 else if i = 13 then 3
    else if i = 17 then 4 else 0
  cecnd := fun i => if i = 21 then 1 else if i = 43 then 1 else if i = 65 then 1
    else if i = 84 then -1 else if i = 85 then -1 else if i = 86 then -1 else 0
  cfl := fun _ => 1
  sol := fun i => if i % 5 = 0 then 1 else if i % 5 = 4 then 2 else 0
  soln := fun i => if i % 5 = 0 then 1 else if i % 5 = 4 then 2 else 0
  solt := fun _ => 0
  dsol := fun _ => 0
  dsoln := fun _ => 0

/-! ### Cell types -/

/-- Number of faces of the cell shape with tag `tp`, a fact of geometry that the code does
not store: quadrilateral 4, triangle 3, hexahedron 6, tetrahedron 4, prism 5, pyramid 5
(other tags: 0). -/
def cellFaces (tp : Int) : Int :=
  if tp = 2 then 4 else if tp = 3 then 3 else if tp = 4 then 6 else if tp = 5 then 4
  else if tp = 6 then 5 else if tp = 7 then 5 else 0

/-- Spatial dimension of the cell shape with tag `tp`, a fact of geometry that the code
does not store: 2 for quadrilaterals and triangles, 3 for hexahedra, tetrahedra, prisms and
pyramids (other tags: 0). -/
def cellDim (tp : Int) : Int :=
  if tp = 2 ∨ tp = 3 then 2 else if 4 ≤ tp ∧ tp ≤ 7 then 3 else 0

/-! ### The dual-point loop, statement by statement -/

/-- The assignment `a[i][d] = v` to a two-dimensional scratch array. -/
def store2 {K : Type} (a : Int → Int → K) (i d : Int) (v : K) : Int → Int → K :=
  fun j e => if j = i ∧ e = d then v else a j e

/-- The statements of one component `d` in the body of the dual-point loop, for the face at
position `ifl` with neighbour `jcl`, acting on the scratch arrays `(xps, dsp)`:
`sft[d] = (picecnd[d] + pjcecnd[d])/2; sft[d] += cnbfac*(pcecnd[d] - sft[d]);
xps[ifl1][d] = (pjcecnd[d] - sft[d])*tau + sft[d]; dsp[ifl1][d] = xps[ifl1][d] - pjcecnd[d]`. -/
def dualComp {K : Type} [LinearOrderedField K] (B : Build K) (exd : exedata K)
    (icl ifl jcl d : Int) (s : (Int → Int → K) × (Int → Int → K)) :
    (Int → Int → K) × (Int → Int → K) :=
  let ifl1 := ifl - 1
  let pj := exd.cecnd (jcl * (B.CLMFC + 1) * B.NDIM + d)
  let sft := (exd.cecnd (icl * (B.CLMFC + 1) * B.NDIM + d) + pj) / 2
  let sft := sft + exd.cnbfac * (exd.cecnd (icl * (B.CLMFC + 1) * B.NDIM + ifl * B.NDIM + d) - sft)
  let x := store2 s.1 ifl1 d ((pj - sft) * tau exd icl + sft)
  (x, store2 s.2 ifl1 d (x ifl1 d - pj))

/-- The first `n` iterations of the loop `for (ifl=1; ifl<=nf; ifl++)` that fills the
scratch arrays `xps` and `dsp` ("calculate the vertices of GGE with the tau parameter"),
started on the contents `s`. -/
def dualIter {K : Type} [LinearOrderedField K] (B : Build K) (exd : exedata K)
    (icl : Int) (n : Nat) (s : (Int → Int → K) × (Int → Int → K)) :
    (Int → Int → K) × (Int → Int → K) :=
  (List.range n).foldl (fun s (k : Nat) =>
    let ifl : Int := (k : Int) + 1
    let ifc := exd.clfcs (icl * (B.CLMFC + 1) + ifl)
    let jcl := exd.fccls (ifc * B.FCREL) + exd.fccls (ifc * B.FCREL + 1) - icl
    let s := dualComp B exd icl ifl jcl 0 s
    let s := dualComp B exd icl ifl jcl 1 s
    if B.dim3 then dualComp B exd icl ifl jcl 2 s else s) s

/-- The whole loop `for (ifl=1; ifl<=nf; ifl++)` over the `nf` faces of the cell. -/
def dualPoints {K : Type} [LinearOrderedField K] (B : Build K) (exd : exedata K)
    (nf icl : Int) (s : (Int → Int → K) × (Int → Int → K)) :
    (Int → Int → K) × (Int → Int → K) :=
  dualIter B exd icl nf.toNat s

/-- The squared Euclidean norm `grd0*grd0 + grd1*grd1 (+ grd2*grd2)` of a gradient. -/
def gradSq {K : Type} [LinearOrderedField K] (B : Build K) (g : Int → K) : K :=
  if B.dim3 then g 0 * g 0 + g 1 * g 1 + g 2 * g 2 else g 0 * g 0 + g 1 * g 1

/-! ### Affine fields -/

namespace eulerb

/-- Compile-time constants from `euler.h`.  `dim3` is true for the build with
`NDIM == 3` and false for the build with `NDIM == 2`. -/
structure Build where
  dim3 : Bool
  NEQ : Nat
  FCMND : Int
  FCREL : Int
  BFREL : Int

/-- The spatial dimension `NDIM` of the build. -/
def Build.NDIM (B : Build) : Int := if B.dim3 then 3 else 2

/-- The fields of `exedata` read or written by the two boundary functions. -/
structure exedata (K : Type) where
  fccls : Int → Int
  fcnds : Int → Int
  ndcrd : Int → K
  fccnd : Int → K
  fcnml : Int → K
  soln : Int → K
  dsoln : Int → K

section Boundary

variable {K : Type} [LinearOrderedField K]

/-- The interior cell `icl = pfccls[0]` of face `ifc`. -/
def icl (B : Build) (exd : exedata K) (ifc : Int) : Int := exd.fccls (ifc * B.FCREL)

/-- The ghost cell `jcl = pfccls[1]` of face `ifc`. -/
def jcl (B : Build) (exd : exedata K) (ifc : Int) : Int := exd.fccls (ifc * B.FCREL + 1)

/-- The face normal `pfcnml[d]`. -/
def nml (B : Build) (exd : exedata K) (ifc d : Int) : K := exd.fcnml (ifc * B.NDIM + d)

/-- The vector `pndcrd[d] - pfccnd[d]` from the face centroid to the first node
`pfcnds[1]` of the face (`NDIM == 3` only). -/
def tvec (B : Build) (exd : exedata K) (ifc d : Int) : K :=
  exd.ndcrd (exd.fcnds (ifc * (B.FCMND + 1) + 1) * B.NDIM + d) - exd.fccnd (ifc * B.NDIM + d)

/-- The length `len = sqrt(mat[1][0]*mat[1][0] + mat[1][1]*mat[1][1] + mat[1][2]*mat[1][2])`
taken before `mat[1]` is divided by it. -/
def len (B : Build) (m : Libm K) (exd : exedata K) (ifc : Int) : K :=
  m.sqrt (tvec B exd ifc 0 * tvec B exd ifc 0 + tvec B exd ifc 1 * tvec B exd ifc 1
    + tvec B exd ifc 2 * tvec B exd ifc 2)

/-- The rotation matrix `mat[i][j]` of face `ifc` after the block "rotation and inverse
rotation matrices": row 0 is the normal; for `NDIM == 3` row 1 is `tvec/len` and row 2 the
cross product of rows 0 and 1; for `NDIM == 2` row 1 is `(pfcnml[1], -pfcnml[0])`. -/
def mat (B : Build) (m : Libm K) (exd : exedata K) (ifc i j : Int) : K :=
  if B.dim3 then
    let r1 : Int → K := fun d => tvec B exd ifc d / len B m exd ifc
    if i = 0 then nml B exd ifc j
    else if i = 1 then r1 j
    else if j = 0 then nml B exd ifc 1 * r1 2 - nml B exd ifc 2 * r1 1
    else if j = 1 then nml B exd ifc 2 * r1 0 - nml B exd ifc 0 * r1 2
    else nml B exd ifc 0 * r1 1 - nml B exd ifc 1 * r1 0
  else
    if i = 0 then nml B exd ifc j
    else if j = 0 then nml B exd ifc 1
    else -nml B exd ifc 0

/-- The matrix `matinv[i][j]`: every assignment of the source is
`mat[j][i] = matinv[i][j] = ...`, so `matinv` is the transpose of `mat`. -/
def matinv (B : Build) (m : Libm K) (exd : exedata K) (ifc i j : Int) : K :=
  mat B m exd ifc j i

/-! ### `bound_nonslipwall_soln` -/

/-- The body of the face loop of `bound_nonslipwall_soln` for face `ifc`, on the array
`soln = s`: "rotate momentum vector", "set momentum", "inversely rotate momentum vector",
"set solutions", statement by statement. -/
def soln_face (B : Build) (m : Libm K) (exd : exedata K) (s : Int → K) (ifc : Int) :
    Int → K :=
  let pi := icl B exd ifc * B.NEQ
  let pj := jcl B exd ifc * B.NEQ
  let M := mat B m exd ifc
  let Mi := matinv B m exd ifc
  if B.dim3 then
    let mom0 := M 0 0 * s (pi + 1) + M 0 1 * s (pi + 2) + M 0 2 * s (pi + 3)
    let mom1 := M 1 0 * s (pi + 1) + M 1 1 * s (pi + 2) + M 1 2 * s (pi + 3)
    let mom2 := M 2 0 * s (pi + 1) + M 2 1 * s (pi + 2) + M 2 2 * s (pi + 3)
    let mom0 := -mom0
    let mom1 := -mom1
    let mom2 := -mom2
    let s := store s (pj + 1) (Mi 0 0 * mom0 + Mi 0 1 * mom1 + Mi 0 2 * mom2)
    let s := store s (pj + 2) (Mi 1 0 * mom0 + Mi 1 1 * mom1 + Mi 1 2 * mom2)
    let s := store s (pj + 3) (Mi 2 0 * mom0 + Mi 2 1 * mom1 + Mi 2 2 * mom2)
    let s := store s (pj + 0) (s (pi + 0))
    store s (pj + (1 + B.NDIM)) (s (pi + (1 + B.NDIM)))
  else
    let mom0 := M 0 0 * s (pi + 1) + M 0 1 * s (pi + 2)
    let mom1 := M 1 0 * s (pi + 1) + M 1 1 * s (pi + 2)
    let mom0 := -mom0
    let mom1 := -mom1
    let s := store s (pj + 1) (Mi 0 0 * mom0 + Mi 0 1 * mom1)
    let s := store s (pj + 2) (Mi 1 0 * mom0 + Mi 1 1 * mom1)
    let s := store s (pj + 0) (s (pi + 0))
    store s (pj + (1 + B.NDIM)) (s (pi + (1 + B.NDIM)))

/-- The state after one iteration of the face loop of `bound_nonslipwall_soln`. -/
def soln_body (B : Build) (m : Libm K) (exd : exedata K) (ifc : Int) : exedata K :=
  { exd with soln := soln_face B m exd exd.soln ifc }

/-- The function `bound_nonslipwall_soln(exd, nbnd, facn)`: the loop
`for (ibnd=0; ibnd<nbnd; ibnd++)` with `ifc = pfacn[0]` and `pfacn += BFREL`. -/
def bound_nonslipwall_soln (B : Build) (m : Libm K) (exd : exedata K) (nbnd : Int)
    (facn : Int → Int) : exedata K :=
  (List.range nbnd.toNat).foldl
    (fun e (ibnd : Nat) => soln_body B m e (facn ((ibnd : Int) * B.BFREL))) exd

/-! ### `bound_nonslipwall_dsoln` -/

/-- The array `vec[ieq][d]` after the first `ieq` loop: the interior gradient of equation
`ieq` times `mat`.  Entries the loop did not write read as `0`. -/
def vecRot (B : Build) (m : Libm K) (exd : exedata K) (ds : Int → K) (ifc : Int)
    (ieq d : Int) : K :=
  if 0 ≤ ieq ∧ ieq < B.NEQ ∧ 0 ≤ d ∧ d < B.NDIM then
    let p := icl B exd ifc * B.NEQ * B.NDIM + ieq * B.NDIM
    if B.dim3 then
      mat B m exd ifc d 0 * ds (p + 0) + mat B m exd ifc d 1 * ds (p + 1)
        + mat B m exd ifc d 2 * ds (p + 2)
    else mat B m exd ifc d 0 * ds (p + 0) + mat B m exd ifc d 1 * ds (p + 1)
  else 0

/-- The assignment `vec[i][d] = -vec[i][d]`. -/
def negAt (v : Int → Int → K) (i d : Int) : Int → Int → K := store2 v i d (-(v i d))

/-- The block "set wall condition in the rotated coordinate". -/
def vecWall (B : Build) (v : Int → Int → K) : Int → Int → K :=
  let v := negAt v 0 0
  let v := negAt v 1 1
  let v := if B.dim3 then negAt v 1 2 else v
  let v := negAt v 2 1
  let v := if B.dim3 then negAt v 2 2 else v
  let v := if B.dim3 then negAt (negAt v 3 1) 3 2 else v
  negAt v (1 + B.NDIM) 0

/-- The first `n` iterations of the second `ieq` loop, which writes `matinv * vec[ieq]` to
`pdsoln[0..NDIM-1]` and advances `pdsoln += NDIM`, starting at `pdsoln = dsoln + base`. -/
def ghostLoop (B : Build) (Mi v : Int → Int → K) (base : Int) (n : Nat) (ds : Int → K) :
    Int → K :=
  (List.range n).foldl (fun (a : Int → K) (ieq : Nat) =>
    let p := base + (ieq : Int) * B.NDIM
    if B.dim3 then
      let a := store a (p + 0) (Mi 0 0 * v ieq 0 + Mi 0 1 * v ieq 1 + Mi 0 2 * v ieq 2)
      let a := store a (p + 1) (Mi 1 0 * v ieq 0 + Mi 1 1 * v ieq 1 + Mi 1 2 * v ieq 2)
      store a (p + 2) (Mi 2 0 * v ieq 0 + Mi 2 1 * v ieq 1 + Mi 2 2 * v ieq 2)
    else
      let a := store a (p + 0) (Mi 0 0 * v ieq 0 + Mi 0 1 * v ieq 1)
      store a (p + 1) (Mi 1 0 * v ieq 0 + Mi 1 1 * v ieq 1)) ds

/-- The body of the face loop of `bound_nonslipwall_dsoln` for face `ifc`, on the array
`dsoln = ds`: `vec` is filled and sign-flipped, then the second `ieq` loop writes the
ghost cell. -/
def dsoln_face (B : Build) (m : Libm K) (exd : exedata K) (ds : Int → K) (ifc : Int) :
    Int → K :=
  ghostLoop B (matinv B m exd ifc) (vecWall B (vecRot B m exd ds ifc))
    (jcl B exd ifc * B.NEQ * B.NDIM) B.NEQ ds

/-- The state after one iteration of the face loop of `bound_nonslipwall_dsoln`. -/
def dsoln_body (B : Build) (m : Libm K) (exd : exedata K) (ifc : Int) : exedata K :=
  { exd with dsoln := dsoln_face B m exd exd.dsoln ifc }

/-- The function `bound_nonslipwall_dsoln(exd, nbnd, facn)`. -/
def bound_nonslipwall_dsoln (B : Build) (m : Libm K) (exd : exedata K) (nbnd : Int)
    (facn : Int → Int) : exedata K :=
  (List.range nbnd.toNat).foldl
    (fun e (ibnd : Nat) => dsoln_body B m e (facn ((ibnd : Int) * B.BFREL))) exd

/-! ### Vocabulary of the statements -/

/-- The local frame of face `ifc` is orthonormal: the normal has unit length and, for
`NDIM == 3`, the vector from the face centroid to the first node is non-zero and
perpendicular to the normal. -/
def orthonormal (B : Build) (exd : exedata K) (ifc : Int) : Prop :=
  if B.dim3 then
    nml B exd ifc 0 * nml B exd ifc 0 + nml B exd ifc 1 * nml B exd ifc 1
        + nml B exd ifc 2 * nml B exd ifc 2 = 1
      ∧ (tvec B exd ifc 0 ≠ 0 ∨ tvec B exd ifc 1 ≠ 0 ∨ tvec B exd ifc 2 ≠ 0)
      ∧ nml B exd ifc 0 * tvec B exd ifc 0 + nml B exd ifc 1 * tvec B exd ifc 1
        + nml B exd ifc 2 * tvec B exd ifc 2 = 0
  else
    nml B exd ifc 0 * nml B exd ifc 0 + nml B exd ifc 1 * nml B exd ifc 1 = 1

/-- The boundary faces `ifc = facn[ibnd*BFREL]`, `0 <= ibnd < nbnd`, in loop order. -/
def faces (B : Build) (nbnd : Int) (facn : Int → Int) : List Int :=
  (List.range nbnd.toNat).map (fun (ibnd : Nat) => facn ((ibnd : Int) * B.BFREL))

/-- The boundary data are separated for face `ifc`: no listed face has the interior cell
of `ifc` as its ghost cell, and a listed face with the ghost cell of `ifc` is `ifc`. -/
def separated (B : Build) (exd : exedata K) (nbnd : Int) (facn : Int → Int) (ifc : Int) :
    Prop :=
  ∀ f : Int, f ∈ faces B nbnd facn →
    jcl B exd f ≠ icl B exd ifc ∧ (jcl B exd f = jcl B exd ifc → f = ifc)

end Boundary

end eulerb

namespace eulerb

/-- The ghost cell of face `ifc` holds in the array `s` the state
(density, -momentum, energy) of the interior cell of the state `exd`. -/
def mirrored {K : Type} [LinearOrderedField K] (B : Build) (exd : exedata K) (s : Int → K)
    (ifc : Int) : Prop :=
  s (jcl B exd ifc * B.NEQ + 0) = exd.soln (icl B exd ifc * B.NEQ + 0)
  ∧ (∀ k : Int, 1 ≤ k → k ≤ B.NDIM →
      s (jcl B exd ifc * B.NEQ + k) = -exd.soln (icl B exd ifc * B.NEQ + k))
  ∧ s (jcl B exd ifc * B.NEQ + (1 + B.NDIM)) = exd.soln (icl B exd ifc * B.NEQ + (1 + B.NDIM))

/-- The interior gradient of equation `ieq` at face `ifc`:
`pidsoln[ieq*NDIM + d]` of the state `exd`. -/
def gradAt {K : Type} [LinearOrderedField K] (B : Build) (exd : exedata K) (ifc ieq d : Int) :
    K :=
  exd.dsoln (icl B exd ifc * B.NEQ * B.NDIM + ieq * B.NDIM + d)

/-- The mirror image `R g = g - 2 (n . g) n` of a two-dimensional vector `g` across the
wall with normal `n = pfcnml`. -/
def mirror2 {K : Type} [LinearOrderedField K] (B : Build) (exd : exedata K) (ifc : Int)
    (g : Int → K) (d : Int) : K :=
  g d - 2 * (nml B exd ifc 0 * g 0 + nml B exd ifc 1 * g 1) * nml B exd ifc d

/-- The ghost cell of face `ifc` holds in the array `s` the mirrored gradients of the
interior cell of the state `exd`: `R g` for density (equation 0) and energy (equation
`1+NDIM`), `-R g` for the momentum components (equations `1..NDIM`). -/
def mirroredGrad {K : Type} [LinearOrderedField K] (B : Build) (exd : exedata K)
    (s : Int → K) (ifc : Int) : Prop :=
  ∀ d : Int, 0 ≤ d → d < B.NDIM →
    s (jcl B exd ifc * B.NEQ * B.NDIM + 0 * B.NDIM + d)
        = mirror2 B exd ifc (gradAt B exd ifc 0) d
    ∧ (∀ e : Int, 1 ≤ e → e ≤ B.NDIM →
        s (jcl B exd ifc * B.NEQ * B.NDIM + e * B.NDIM + d)
          = -mirror2 B exd ifc (gradAt B exd ifc e) d)
    ∧ s (jcl B exd ifc * B.NEQ * B.NDIM + (1 + B.NDIM) * B.NDIM + d)
        = mirror2 B exd ifc (gradAt B exd ifc (1 + B.NDIM)) d

/-! ### Concrete boundary faces -/

/-- A two-dimensional build of the Euler solver (`NEQ = NDIM + 2 = 4`). -/
def exBW : Build := { dim3 := false, NEQ := 4, FCMND := 4, FCREL := 4, BFREL := 3 }

/-- One boundary face (face 0) with unit normal `(3/5, 4/5)`, interior cell 0 holding
`soln = [1, 2, 3, 4]` and the gradients `(1, 0)`, `(0, 1)`, `(1, 1)`, `(2, -1)`, and ghost
cell -1 holding zeros. -/
def exW (K : Type) [LinearOrderedField K] : exedata K where
  fccls := fun i => if i = 1 then -1 else 0
  fcnds := fun _ => 0
  ndcrd := fun _ => 0
  fccnd := fun _ => 0
  fcnml := fun i => if i = 0 then 3 / 5 else if i = 1 then 4 / 5 else 0
  soln := fun i => if i = 0 then 1 else if i = 1 then 2 else if i = 2 then 3
    else if i = 3 then 4 else 0
  dsoln := fun i => if i = 0 then 1 else if i = 3 then 1 else if i = 4 then 1
    else if i = 5 then 1 else if i = 6 then 2 else if i = 7 then -1 else 0

/-- A three-dimensional build of the Euler solver (`NEQ = NDIM + 2 = 5`). -/
def exBW3 : Build := { dim3 := true, NEQ := 5, FCMND := 4, FCREL := 4, BFREL := 3 }

/-- One boundary face (face 0) with unit normal `(1, 0, 0)`, centroid at the origin and
first node 0 at `(0, 2, 0)`, interior cell 0 holding `soln = [1, 2, 3, 4, 5]`, and ghost
cell -1 holding zeros. -/
def exW3 (K : Type) [LinearOrderedField K] : exedata K where
  fccls := fun i => if i = 1 then -1 else 0
  fcnds := fun _ => 0
  ndcrd := fun i => if i = 1 then 2 else 0
  fccnd := fun _ => 0
  fcnml := fun i => if i = 0 then 1 else 0
  soln := fun i => if i = 0 then 1 else if i = 1 then 2 else if i = 2 then 3
    else if i = 3 then 4 else if i = 4 then 5 else 0
  dsoln := fun _ => 0

end eulerb

/-! ### The many-core launch -/

/-- The thread index `istart = blockDim.x * blockIdx.x + threadIdx.x` of the device
functions. -/
def istart (blockDim blockIdx threadIdx : Int) : Int := blockDim * blockIdx + threadIdx

/-- The value of an `int` expression whose mathematical value is `x`: two's complement
wrap to 32 bits. -/
def wrapInt (x : Int) : Int := (x + 2147483648) % 4294967296 - 2147483648

/-- The block count `nblock = (exc->ncell + nthread-1) / nthread` of the launch, with `int`
addition and subtraction and the truncating division of C. -/
def nblock (ncell nthread : Int) : Int :=
  Int.tdiv (wrapInt (wrapInt (ncell + nthread) - 1)) nthread

namespace eulerb

/-- The per-face map interior `soln` -> ghost `soln`: entry `r` of the ghost cell after one
iteration of the face loop of `bound_nonslipwall_soln` on an array whose interior cell
holds `u`. -/
def solnMap {K : Type} [LinearOrderedField K] (B : Build) (m : Libm K) (exd : exedata K)
    (ifc : Int) (u : Int → K) : Int → K :=
  fun r => soln_face B m exd (fun i => u (i - icl B exd ifc * B.NEQ)) ifc
    (jcl B exd ifc * B.NEQ + r)

/-- The per-face map interior `dsoln` -> ghost `dsoln`: entry `r` of the ghost cell after
one iteration of the face loop of `bound_nonslipwall_dsoln` on an array whose interior cell
holds `g`. -/
def dsolnMap {K : Type} [LinearOrderedField K] (B : Build) (m : Libm K) (exd : exedata K)
    (ifc : Int) (g : Int → K) : Int → K :=
  fun r => dsoln_face B m exd (fun i => g (i - icl B exd ifc * B.NEQ * B.NDIM)) ifc
    (jcl B exd ifc * B.NEQ * B.NDIM + r)

end eulerb

/-! ## Zero divisors and the range of the doubles

The kernel definitions divide in the field `K`, where `x / 0 = 0`, and put no bound on the
value of `m.pow`.  The code divides doubles: a zero divisor gives an infinity or a NaN,
and a `pow` value below the smallest or above the largest double comes back as `0.0` or
`inf`.  The definitions of this section name the divisors of the cell body, so that a
statement can require them to be non-zero and the weights to be finite, and give the
checked quotients as an `Option`.  Rounding is not modelled. -/

section Checked

variable {K : Type} [LinearOrderedField K]

/-- The largest finite double, `DBL_MAX = 2^1024 - 2^971` of `float.h`. -/
def DBL_MAX (K : Type) [LinearOrderedField K] : K := 2 ^ 1024 - 2 ^ 971

/-- A positive double whose reciprocal is a finite double too:
`1/DBL_MAX <= x <= DBL_MAX`. -/
def inRange (x : K) : Prop := 1 / DBL_MAX K ≤ x ∧ x ≤ DBL_MAX K

instance (x : K) : Decidable (inRange x) := by
  unfold inRange
  infer_instance

/-- The quotient `a / b` of two doubles when the divisor is not zero; `none` stands for
the infinity or the NaN that the code gets from a zero divisor. -/
def divChecked (a b : K) : Option K := if b = 0 then none else some (a / b)

/-- The gradient component `grd<d>` as a checked quotient: the sum `dnv[d][0]*udf[ieq][0] +
dnv[d][1]*udf[ieq][1] (+ dnv[d][2]*udf[ieq][2])` over `voc`. -/
def grdChecked (dim3 : Bool) (dst : Int → Int → K) (u : Int → K) (d : Int) : Option K :=
  divChecked
    (if dim3 then dnv dim3 dst d 0 * u 0 + dnv dim3 dst d 1 * u 1 + dnv dim3 dst d 2 * u 2
     else dnv dim3 dst d 0 * u 0 + dnv dim3 dst d 1 * u 1) (voc dim3 dst)

/-- The cell ceiling `sgm0 = sigma0 / fabs(cfl[icl])` as a checked quotient. -/
def sgm0Checked (exd : exedata K) (icl : Int) : Option K :=
  divChecked exd.sigma0 |exd.cfl icl|

/-- The divisor `pow(sqrt(wgt+SOLVCON_ALMOST_ZERO), exd->alpha)` of the W-1/2 weight, with
`wgt = grd0*grd0 + grd1*grd1 (+ grd2*grd2)`. -/
def wgtDen (B : Build K) (m : Libm K) (exd : exedata K) (nf : Int) (cg : Int → K)
    (icl : Int) (ifg ieq : Nat) : K :=
  let g := gfd B exd nf cg icl ifg ieq
  let w := g 0 * g 0 + g 1 * g 1
  let w := if B.dim3 then w + g 2 * g 2 else w
  m.pow (m.sqrt (w + B.SOLVCON_ALMOST_ZERO)) exd.alpha

/-- The W-1/2 weight is a finite positive double: the argument
`wgt+SOLVCON_ALMOST_ZERO` of `sqrt` does not overflow, and the value of `pow` neither
underflows to `0.0` nor overflows, nor does its reciprocal. -/
def wgtFinite (B : Build K) (m : Libm K) (exd : exedata K) (nf : Int) (cg : Int → K)
    (icl : Int) (ifg ieq : Nat) : Prop :=
  gradSq B (gfd B exd nf cg icl ifg ieq) + B.SOLVCON_ALMOST_ZERO ≤ DBL_MAX K
  ∧ inRange (wgtDen B m exd nf cg icl ifg ieq)

instance (B : Build K) (m : Libm K) (exd : exedata K) (nf : Int) (cg : Int → K)
    (icl : Int) (ifg ieq : Nat) : Decidable (wgtFinite B m exd nf cg icl ifg ieq) := by
  unfold wgtFinite
  infer_instance

/-- The W-1/2 weight `1.0 / pow(sqrt(wgt+SOLVCON_ALMOST_ZERO), alpha)` when it is a finite
positive double; `none` when `pow` underflows or overflows, where the code stores `inf` or
`0.0`. -/
def wgtChecked (B : Build K) (m : Libm K) (exd : exedata K) (nf : Int) (cg : Int → K)
    (icl : Int) (ifg ieq : Nat) : Option K :=
  if wgtFinite B m exd nf cg icl ifg ieq then some (1 / wgtDen B m exd nf cg icl ifg ieq)
  else none

/-- The divisors that both kernels meet for cell `icl` and equation `ieq` are non-zero and
the weights are finite: `fabs(cfl[icl])` under `sgm0`, the `voc` of every sub-element
under `grd0`, `grd1`, `grd2`, the `pow` value under every weight, the weight sum
`dla[ieq]` under `dlt[ifg][ieq]`, and the two limiter denominators
`udf[ieq][0]+SOLVCON_ALMOST_ZERO` and `udf[ieq][1]-SOLVCON_ALMOST_ZERO`. -/
def divisorsDefined (B : Build K) (m : Libm K) (exd : exedata K) (nf : Int) (cg : Int → K)
    (base : K) (icl : Int) (ieq : Nat) : Prop :=
  exd.cfl icl ≠ 0
  ∧ (∀ k : Nat, k < nsub exd icl →
      voc B.dim3 (dst B exd nf cg icl (ig0 exd icl + k)) ≠ 0)
  ∧ (∀ k : Nat, k < nsub exd icl → wgtFinite B m exd nf cg icl k ieq)
  ∧ dla B m exd nf cg icl ieq ≠ 0
  ∧ udfmax B m exd nf cg base icl ieq + B.SOLVCON_ALMOST_ZERO ≠ 0
  ∧ udfmin B m exd nf cg base icl ieq - B.SOLVCON_ALMOST_ZERO ≠ 0

instance (B : Build K) (m : Libm K) (exd : exedata K) (nf : Int) (cg : Int → K)
    (base : K) (icl : Int) (ieq : Nat) :
    Decidable (divisorsDefined B m exd nf cg base icl ieq) := by
  unfold divisorsDefined
  infer_instance

/-- Every division of the body of `calc_dsoln_w3` for cell `icl` and equation `ieq` has a
non-zero divisor and every weight is finite: `ig1-ig0` under `ofg1`, `clnfc` under the
cell centroid `crd`, the total volume `voc` under the GGE centroid `cndge`, and the
divisors shared with the simplex kernel. -/
def calcDefined (B : Build K) (m : Libm K) (exd : exedata K) (icl : Int) (ieq : Nat) : Prop :=
  ig1 exd icl - ig0 exd icl ≠ 0
  ∧ clnfc B exd icl ≠ 0
  ∧ vocge B exd icl ≠ 0
  ∧ divisorsDefined B m exd (clnfc B exd icl) (cndge B exd icl) (ofg1 exd icl) icl ieq

instance (B : Build K) (m : Libm K) (exd : exedata K) (icl : Int) (ieq : Nat) :
    Decidable (calcDefined B m exd icl ieq) := by
  unfold calcDefined
  infer_instance

/-- Every division of the body of `calcs_dsoln_w3` for cell `icl` and equation `ieq` has a
non-zero divisor and every weight is finite (the other divisors, `CLNFC`, 2 and 6, are
constants). -/
def calcsDefined (B : Build K) (m : Libm K) (exd : exedata K) (icl : Int) (ieq : Nat) :
    Prop :=
  divisorsDefined B m exd (CLNFC B) (cndges B exd icl) (1 / ((CLNFC B : Int) : K)) icl ieq

instance (B : Build K) (m : Libm K) (exd : exedata K) (icl : Int) (ieq : Nat) :
    Decidable (calcsDefined B m exd icl ieq) := by
  unfold calcsDefined
  infer_instance

/-- The value that `calc_dsoln_w3` leaves in `dsoln` for cell `icl`, equation `ieq` and
component `d` when every division on the way is defined; `none` when one of them is a
division by zero or a weight is not finite, where the code stores an infinity or a
NaN. -/
def calc_checked (B : Build K) (m : Libm K) (exd : exedata K) (icl : Int) (ieq : Nat)
    (d : Int) : Option K :=
  if calcDefined B m exd icl ieq then some (calc_val B m exd icl ieq d) else none

/-- The value that `calcs_dsoln_w3` leaves in `dsoln`, under the same convention as
`calc_checked`. -/
def calcs_checked (B : Build K) (m : Libm K) (exd : exedata K) (icl : Int) (ieq : Nat)
    (d : Int) : Option K :=
  if calcsDefined B m exd icl ieq then some (calcs_val B m exd icl ieq d) else none

/-- The triangle `exTri` with uniform state (`solt = 0`) and the exponent `alpha = a`. -/
def exAlpha (K : Type) [LinearOrderedField K] (a : K) : exedata K :=
  { exTri K 0 with alpha := a }

/-- The triangle `exTri` with uniform state, `cfl = 0` in every cell and `sigma0 = 0`. -/
def exZero (K : Type) [LinearOrderedField K] : exedata K :=
  { exTri K 0 with cfl := fun _ => 0, sigma0 := 0 }

end Checked

/-! ## Theorems -/

section Lemmas

variable {K : Type} [LinearOrderedField K]

/-! ### Accumulation loops and the writes to `dsoln` -/

theorem accum_zero (f : Nat → K) : accum 0 f = 0 := by
  simp [accum]

theorem accum_succ (n : Nat) (f : Nat → K) : accum (n + 1) f = accum n f + f n := by
  simp [accum, List.range_succ, List.foldl_append]

theorem accum_eq_sum (n : Nat) (f : Nat → K) : accum n f = ∑ k in Finset.range n, f k := by
  induction n with
  | zero => simp [accum_zero]
  | succ n ih => rw [accum_succ, Finset.sum_range_succ, ih]

theorem accum_congr (n : Nat) (f g : Nat → K) (h : ∀ k, k < n → f k = g k) :
    accum n f = accum n g := by
  rw [accum_eq_sum, accum_eq_sum]
  exact Finset.sum_congr rfl (fun k hk => h k (Finset.mem_range.mp hk))

theorem zeroLoop_aux (B : Build K) (ds : Int → K) (icl : Int) (n : Nat) (j : Int) :
    (List.range n).foldl (fun (ds : Int → K) (ieq : Nat) =>
      let p := icl * B.NEQ * B.NDIM + (ieq : Int) * B.NDIM
      let ds := store ds (p + 1) 0
      let ds := store ds (p + 0) 0
      if B.dim3 then store ds (p + 2) 0 else ds) ds j
    = if icl * B.NEQ * B.NDIM ≤ j ∧ j < icl * B.NEQ * B.NDIM + n * B.NDIM then 0 else ds j := by
  generalize icl * (B.NEQ : Int) * B.NDIM = p0
  induction n with
  | zero =>
    have : ¬ (p0 ≤ j ∧ j < p0) := by omega
    simp [this]
  | succ n ih =>
    rw [List.range_succ, List.foldl_append]
    simp only [List.foldl_cons, List.foldl_nil]
    cases hd : B.dim3 <;> simp only [Build.NDIM, hd, store, if_true, if_false, Bool.false_eq_true] at ih ⊢
    · rw [ih]; push_cast; split_ifs <;> first | rfl | omega
    · rw [ih]; push_cast; split_ifs <;> first | rfl | omega

theorem addLoop_aux (B : Build K) (w : Nat → K) (g : Nat → Int → K) (ds : Int → K)
    (icl : Int) (n : Nat) (j : Int) :
    (List.range n).foldl (fun (ds : Int → K) (ieq : Nat) =>
      let p := icl * B.NEQ * B.NDIM + (ieq : Int) * B.NDIM
      let ds := store ds (p + 0) (ds (p + 0) + w ieq * g ieq 0)
      let ds := store ds (p + 1) (ds (p + 1) + w ieq * g ieq 1)
      if B.dim3 then store ds (p + 2) (ds (p + 2) + w ieq * g ieq 2) else ds) ds j
    = if icl * B.NEQ * B.NDIM ≤ j ∧ j < icl * B.NEQ * B.NDIM + n * B.NDIM
      then ds j + w (eqOf B icl j) * g (eqOf B icl j) (dimOf B icl j) else ds j := by
  unfold eqOf dimOf
  generalize icl * (B.NEQ : Int) * B.NDIM = p0
  induction n generalizing j with
  | zero =>
    have : ¬ (p0 ≤ j ∧ j < p0) := by omega
    simp [this]
  | succ n ih =>
    rw [List.range_succ, List.foldl_append]
    simp only [List.foldl_cons, List.foldl_nil]
    cases hd : B.dim3 <;> simp only [Build.NDIM, hd, store, if_true, if_false, Bool.false_eq_true] at ih ⊢
    · simp only [ih]
      push_cast
      rcases eq_or_ne j (p0 + n * 2 + 1) with h | h
      · subst h
        have e1 : ((p0 + (n : Int) * 2 + 1 - p0) / 2).toNat = n := by omega
        have e2 : (p0 + (n : Int) * 2 + 1 - p0) % 2 = 1 := by omega
        rw [if_pos rfl, if_neg (by omega), if_neg (by omega), if_pos (by omega), e1, e2]
      · rw [if_neg h]
        rcases eq_or_ne j (p0 + n * 2 + 0) with h0 | h0
        · subst h0
          have e1 : ((p0 + (n : Int) * 2 + 0 - p0) / 2).toNat = n := by omega
          have e2 : (p0 + (n : Int) * 2 + 0 - p0) % 2 = 0 := by omega
          rw [if_pos rfl, if_neg (by omega), if_pos (by omega), e1, e2]
        · rw [if_neg h0]
          by_cases hj : p0 ≤ j ∧ j < p0 + (n : Int) * 2
          · rw [if_pos hj, if_pos (by omega)]
          · rw [if_neg hj, if_neg (by omega)]
    · simp only [ih]
      push_cast
      rcases eq_or_ne j (p0 + n * 3 + 2) with h | h
      · subst h
        have e1 : ((p0 + (n : Int) * 3 + 2 - p0) / 3).toNat = n := by omega
        have e2 : (p0 + (n : Int) * 3 + 2 - p0) % 3 = 2 := by omega
        rw [if_pos rfl, if_neg (by omega), if_neg (by omega), if_neg (by omega), if_pos (by omega),
          e1, e2]
      · rw [if_neg h]
        rcases eq_or_ne j (p0 + n * 3 + 1) with h1 | h1
        · subst h1
          have e1 : ((p0 + (n : Int) * 3 + 1 - p0) / 3).toNat = n := by omega
          have e2 : (p0 + (n : Int) * 3 + 1 - p0) % 3 = 1 := by omega
          rw [if_pos rfl, if_neg (by omega), if_neg (by omega), if_pos (by omega), e1, e2]
        · rw [if_neg h1]
          rcases eq_or_ne j (p0 + n * 3 + 0) with h0 | h0
          · subst h0
            have e1 : ((p0 + (n : Int) * 3 + 0 - p0) / 3).toNat = n := by omega
            have e2 : (p0 + (n : Int) * 3 + 0 - p0) % 3 = 0 := by omega
            rw [if_pos rfl, if_neg (by omega), if_pos (by omega), e1, e2]
          · rw [if_neg h0]
            by_cases hj : p0 ≤ j ∧ j < p0 + (n : Int) * 3
            · rw [if_pos hj, if_pos (by omega)]
            · rw [if_neg hj, if_neg (by omega)]

theorem zeroLoop_eq (B : Build K) (ds : Int → K) (icl j : Int) :
    zeroLoop B ds icl j = if inCell B icl j then 0 else ds j := by
  unfold zeroLoop inCell
  exact zeroLoop_aux B ds icl B.NEQ j

theorem addLoop_eq (B : Build K) (w : Nat → K) (g : Nat → Int → K) (ds : Int → K)
    (icl j : Int) :
    addLoop B w g ds icl j
      = if inCell B icl j then ds j + w (eqOf B icl j) * g (eqOf B icl j) (dimOf B icl j)
        else ds j := by
  unfold addLoop inCell
  exact addLoop_aux B w g ds icl B.NEQ j

theorem foldl_addLoop (B : Build K) (w : Nat → Nat → K) (g : Nat → Nat → Int → K)
    (ds : Int → K) (icl : Int) (n : Nat) (j : Int) :
    (List.range n).foldl (fun ds ifg => addLoop B (w ifg) (g ifg) ds icl) ds j
      = if inCell B icl j then
          ds j + accum n (fun ifg => w ifg (eqOf B icl j) * g ifg (eqOf B icl j) (dimOf B icl j))
        else ds j := by
  induction n with
  | zero => simp [accum_zero]
  | succ n ih =>
    rw [List.range_succ, List.foldl_append]
    simp only [List.foldl_cons, List.foldl_nil]
    rw [addLoop_eq, ih, accum_succ]
    split_ifs <;> ring

theorem calc_cell_dsoln (B : Build K) (m : Libm K) (exd : exedata K) (icl j : Int) :
    (calc_cell B m exd icl).dsoln j
      = if inCell B icl j then calc_val B m exd icl (eqOf B icl j) (dimOf B icl j)
        else exd.dsoln j := by
  simp only [calc_cell, calc_val]
  rw [foldl_addLoop B (fun ifg ieq => wfin B m exd icl ifg ieq)
    (fun ifg ieq d => gfd B exd (clnfc B exd icl) (cndge B exd icl) icl ifg ieq d), zeroLoop_eq]
  split_ifs <;> simp

theorem calcs_cell_dsoln (B : Build K) (m : Libm K) (exd : exedata K) (icl j : Int) :
    (calcs_cell B m exd icl).dsoln j
      = if inCell B icl j then calcs_val B m exd icl (eqOf B icl j) (dimOf B icl j)
        else exd.dsoln j := by
  simp only [calcs_cell, calcs_val]
  rw [foldl_addLoop B (fun ifg ieq => wfins B m exd icl ifg ieq)
    (fun ifg ieq d => gfd B exd (CLNFC B) (cndges B exd icl) icl ifg ieq d), zeroLoop_eq]
  split_ifs <;> simp

theorem inCell_idx (B : Build K) (icl : Int) (ieq : Nat) (d : Int) (he : ieq < B.NEQ)
    (hd0 : 0 ≤ d) (hd1 : d < B.NDIM) :
    inCell B icl (icl * B.NEQ * B.NDIM + ieq * B.NDIM + d)
      ∧ eqOf B icl (icl * B.NEQ * B.NDIM + ieq * B.NDIM + d) = ieq
      ∧ dimOf B icl (icl * B.NEQ * B.NDIM + ieq * B.NDIM + d) = d := by
  unfold inCell eqOf dimOf
  generalize icl * (B.NEQ : Int) * B.NDIM = p0
  cases hd : B.dim3 <;> simp only [Build.NDIM, hd, if_true, if_false, Bool.false_eq_true] at hd1 ⊢
    <;> omega

/-! ### The limiter weights -/

theorem ggerng_supported (tp : Int) (h2 : 2 ≤ tp) (h7 : tp ≤ 7) :
    1 ≤ ggerng tp 1 - ggerng tp 0 := by
  have h : tp = 2 ∨ tp = 3 ∨ tp = 4 ∨ tp = 5 ∨ tp = 6 ∨ tp = 7 := by omega
  rcases h with h | h | h | h | h | h <;> subst h <;> decide

theorem nsub_mul_ofg1 (exd : exedata K) (icl : Int) (h : 1 ≤ ig1 exd icl - ig0 exd icl) :
    (nsub exd icl : K) * ofg1 exd icl = 1 := by
  unfold nsub ofg1
  have h1 : (((ig1 exd icl - ig0 exd icl).toNat : Int) : K) = ((ig1 exd icl - ig0 exd icl : Int) : K) := by
    rw [Int.toNat_of_nonneg (by omega)]
  have h2 : ((ig1 exd icl - ig0 exd icl : Int) : K) ≠ 0 := by
    have : (0 : K) < ((ig1 exd icl - ig0 exd icl : Int) : K) := by exact_mod_cast (by omega : 0 < ig1 exd icl - ig0 exd icl)
    exact ne_of_gt this
  rw [← h1] at h2 ⊢
  rw [Int.cast_natCast] at h2 ⊢
  field_simp

/-- C1: in `calc_dsoln_w3`, for a cell whose type tag is one of 2..7 (so that
`ig1 - ig0 >= 1`) and an equation whose weight sum `dla[ieq]` is non-zero, the weights
`ofg1 + L*dlt[ifg][ieq]` sum to 1 over the sub-elements for every scalar `L`, in
particular for the clamped limiter `dla[ieq]` used in the final weights. -/
theorem weights_sum_one (B : Build K) (m : Libm K) (exd : exedata K) (icl : Int) (ieq : Nat)
    (h2 : 2 ≤ exd.cltpn icl) (h7 : exd.cltpn icl ≤ 7)
    (hsum : dla B m exd (clnfc B exd icl) (cndge B exd icl) icl ieq ≠ 0) :
    1 ≤ ig1 exd icl - ig0 exd icl
    ∧ (∀ L : K, accum (nsub exd icl) (fun ifg => ofg1 exd icl
          + L * dlt B m exd (clnfc B exd icl) (cndge B exd icl) (ofg1 exd icl) icl ifg ieq) = 1)
    ∧ accum (nsub exd icl) (fun ifg => wfin B m exd icl ifg ieq) = 1 := by
  have hn : 1 ≤ ig1 exd icl - ig0 exd icl := ggerng_supported _ h2 h7
  have key : ∀ L : K, accum (nsub exd icl) (fun ifg => ofg1 exd icl
          + L * dlt B m exd (clnfc B exd icl) (cndge B exd icl) (ofg1 exd icl) icl ifg ieq) = 1 := by
    intro L
    have hno := nsub_mul_ofg1 exd icl hn
    rw [accum_eq_sum]
    simp only [dlt]
    rw [Finset.sum_add_distrib, ← Finset.mul_sum, Finset.sum_sub_distrib, ← Finset.sum_div]
    simp only [Finset.sum_const, Finset.card_range, nsmul_eq_mul]
    have hd : ∑ i in Finset.range (nsub exd icl),
          wgt B m exd (clnfc B exd icl) (cndge B exd icl) icl i ieq
        = dla B m exd (clnfc B exd icl) (cndge B exd icl) icl ieq := (accum_eq_sum _ _).symm
    rw [hd, div_self hsum, hno]
    ring
  exact ⟨hn, key, key _⟩

/-! ### The GGE centroid of a simplex cell -/

theorem accum_three (f : Nat → K) : accum 3 f = 0 + f 0 + f 1 + f 2 := by
  simp [accum, List.range_succ]

theorem accum_four (f : Nat → K) : accum 4 f = 0 + f 0 + f 1 + f 2 + f 3 := by
  simp [accum, List.range_succ]

theorem cndge_eq_cndges_2d (B : Build K) (exd : exedata K) (icl : Int)
    (hd : B.dim3 = false) (htp : exd.cltpn icl = 3) (hf : clnfc B exd icl = B.NDIM + 1)
    (hv : vocge B exd icl ≠ 0) :
    cndge B exd icl = cndges B exd icl := by
  have hN : B.NDIM = 2 := by simp [Build.NDIM, hd]
  have hf3 : clnfc B exd icl = 3 := by rw [hf, hN]; rfl
  have hC : CLNFC B = 3 := by simp [CLNFC, hN]
  have h0 : ig0 exd icl = 4 := by simp [ig0, htp]; rfl
  have hn : nsub exd icl = 3 := by simp [nsub, ig0, ig1, htp]; rfl
  funext d
  have hcrd : ∀ e, crd B exd icl e = cndges B exd icl e := by
    intro e; simp only [crd, cndges, hf3, hC]
  unfold cndge
  unfold vocge at hv ⊢
  rw [hn, h0] at hv ⊢
  rw [accum_three] at hv ⊢
  rw [accum_three]
  simp only [Nat.cast_zero, Nat.cast_one, Nat.cast_ofNat, add_zero] at hv ⊢
  norm_num at hv ⊢
  have hcr : ∀ e, crd B exd icl e
      = (xps B exd 3 icl 0 e + xps B exd 3 icl 1 e + xps B exd 3 icl 2 e) / 3 := by
    intro e
    simp only [crd, hf3]
    rw [show (3 : Int).toNat = 3 from rfl, accum_three]
    norm_num
  have g40 : ggefcs 4 0 = 1 := rfl
  have g41 : ggefcs 4 1 = 2 := rfl
  have g50 : ggefcs 5 0 = 2 := rfl
  have g51 : ggefcs 5 1 = 3 := rfl
  have g60 : ggefcs 6 0 = 3 := rfl
  have g61 : ggefcs 6 1 = 1 := rfl
  have v5 : vob B exd icl 5 = vob B exd icl 4 := by
    simp only [vob, dstc, hd, hf3, hcr, g40, g41, g50, g51, Bool.false_eq_true, ↓reduceIte,
      Int.reduceSub]
    congr 1
    rw [abs_eq_abs]
    left; ring
  have v6 : vob B exd icl 6 = vob B exd icl 4 := by
    simp only [vob, dstc, hd, hf3, hcr, g40, g41, g60, g61, Bool.false_eq_true, ↓reduceIte,
      Int.reduceSub]
    congr 1
    rw [abs_eq_abs]
    left; ring
  rw [v5, v6] at hv ⊢
  have hv4 : vob B exd icl 4 ≠ 0 := by
    intro h; apply hv; rw [h]; ring
  have hc : cnd B exd icl 4 d + cnd B exd icl 5 d + cnd B exd icl 6 d
      = 3 * cndges B exd icl d := by
    rw [← hcrd]
    simp only [cnd, hd, hf3, hN, hcr, g40, g41, g50, g51, g60, g61, Bool.false_eq_true,
      ↓reduceIte, Int.reduceSub, Int.reduceAdd, Int.cast_ofNat]
    ring
  rw [← add_mul, ← add_mul, hc]
  field_simp
  ring

theorem cndge_eq_cndges_3d (B : Build K) (exd : exedata K) (icl : Int)
    (hd : B.dim3 = true) (htp : exd.cltpn icl = 5) (hf : clnfc B exd icl = B.NDIM + 1)
    (hv : vocge B exd icl ≠ 0) :
    cndge B exd icl = cndges B exd icl := by
  have hN : B.NDIM = 3 := by simp [Build.NDIM, hd]
  have hf3 : clnfc B exd icl = 4 := by rw [hf, hN]; rfl
  have hC : CLNFC B = 4 := by simp [CLNFC, hN]
  have h0 : ig0 exd icl = 15 := by simp [ig0, htp]; rfl
  have hn : nsub exd icl = 4 := by simp [nsub, ig0, ig1, htp]; rfl
  funext d
  have hcrd : ∀ e, crd B exd icl e = cndges B exd icl e := by
    intro e; simp only [crd, cndges, hf3, hC]
  unfold cndge
  unfold vocge at hv ⊢
  rw [hn, h0] at hv ⊢
  rw [accum_four] at hv ⊢
  rw [accum_four]
  simp only [Nat.cast_zero, Nat.cast_one, Nat.cast_ofNat, add_zero] at hv ⊢
  norm_num at hv ⊢
  have hcr : ∀ e, crd B exd icl e
      = (xps B exd 4 icl 0 e + xps B exd 4 icl 1 e + xps B exd 4 icl 2 e
          + xps B exd 4 icl 3 e) / 4 := by
    intro e
    simp only [crd, hf3]
    rw [show (4 : Int).toNat = 4 from rfl, accum_four]
    norm_num
  have g150 : ggefcs 15 0 = 3 := rfl
  have g151 : ggefcs 15 1 = 1 := rfl
  have g152 : ggefcs 15 2 = 2 := rfl
  have g160 : ggefcs 16 0 = 2 := rfl
  have g161 : ggefcs 16 1 = 1 := rfl
  have g162 : ggefcs 16 2 = 4 := rfl
  have g170 : ggefcs 17 0 = 4 := rfl
  have g171 : ggefcs 17 1 = 1 := rfl
  have g172 : ggefcs 17 2 = 3 := rfl
  have g180 : ggefcs 18 0 = 2 := rfl
  have g181 : ggefcs 18 1 = 4 := rfl
  have g182 : ggefcs 18 2 = 3 := rfl
  have v16 : vob B exd icl 16 = vob B exd icl 15 := by
    simp only [vob, dstc, hd, hf3, hcr, g150, g151, g152, g160, g161, g162, ↓reduceIte,
      Int.reduceSub]
    congr 1
    rw [abs_eq_abs]
    left; ring
  have v17 : vob B exd icl 17 = vob B exd icl 15 := by
    simp only [vob, dstc, hd, hf3, hcr, g150, g151, g152, g170, g171, g172, ↓reduceIte,
      Int.reduceSub]
    congr 1
    rw [abs_eq_abs]
    left; ring
  have v18 : vob B exd icl 18 = vob B exd icl 15 := by
    simp only [vob, dstc, hd, hf3, hcr, g150, g151, g152, g180, g181, g182, ↓reduceIte,
      Int.reduceSub]
    congr 1
    rw [abs_eq_abs]
    left; ring
  rw [v16, v17, v18] at hv ⊢
  have hv4 : vob B exd icl 15 ≠ 0 := by
    intro h; apply hv; rw [h]; ring
  have hc : cnd B exd icl 15 d + cnd B exd icl 16 d + cnd B exd icl 17 d
        + cnd B exd icl 18 d
      = 4 * cndges B exd icl d := by
    rw [← hcrd]
    simp only [cnd, hd, hf3, hN, hcr, g150, g151, g152, g160, g161, g162, g170, g171, g172,
      g180, g181, g182, ↓reduceIte, Int.reduceSub, Int.reduceAdd, Int.cast_ofNat]
    ring
  rw [← add_mul, ← add_mul, ← add_mul, hc]
  field_simp
  ring

theorem calc_cell_eq_calcs_cell (B : Build K) (m : Libm K) (exd : exedata K) (icl : Int)
    (hs : (B.dim3 = false ∧ exd.cltpn icl = 3) ∨ (B.dim3 = true ∧ exd.cltpn icl = 5))
    (hf : clnfc B exd icl = B.NDIM + 1) (hv : vocge B exd icl ≠ 0) :
    calc_cell B m exd icl = calcs_cell B m exd icl := by
  have hcl : clnfc B exd icl = CLNFC B := hf
  have hcg : cndge B exd icl = cndges B exd icl := by
    rcases hs with ⟨hd, htp⟩ | ⟨hd, htp⟩
    · exact cndge_eq_cndges_2d B exd icl hd htp hf hv
    · exact cndge_eq_cndges_3d B exd icl hd htp hf hv
  have hofg : ofg1 exd icl = 1 / ((CLNFC B : Int) : K) := by
    rcases hs with ⟨hd, htp⟩ | ⟨hd, htp⟩
    · simp only [ofg1, ig0, ig1, htp, CLNFC, Build.NDIM, hd]; rfl
    · simp only [ofg1, ig0, ig1, htp, CLNFC, Build.NDIM, hd]; rfl
  simp only [calc_cell, calcs_cell, wfin, wfins, dlaSigma, sgms, hcl, hcg, hofg]

/-! ### Evaluation on the triangle `exTri` -/

theorem exTri_xps (st : K) :
    xps (exB K) (exTri K st) 3 0 0 0 = 3 ∧ xps (exB K) (exTri K st) 3 0 0 1 = 0
    ∧ xps (exB K) (exTri K st) 3 0 1 0 = 0 ∧ xps (exB K) (exTri K st) 3 0 1 1 = 3
    ∧ xps (exB K) (exTri K st) 3 0 2 0 = -3 ∧ xps (exB K) (exTri K st) 3 0 2 1 = -3 / 2 := by
  refine ⟨?_, ?_, ?_, ?_, ?_, ?_⟩ <;>
    norm_num [xps, sftfc, jclOf, jcl, tau, exB, exTri, Build.NDIM]

theorem exTri_clnfc (st : K) : clnfc (exB K) (exTri K st) 0 = 3 := by
  simp [clnfc, exB, exTri]

theorem exTri_crd (st : K) :
    crd (exB K) (exTri K st) 0 0 = 0 ∧ crd (exB K) (exTri K st) 0 1 = 1 / 2 := by
  obtain ⟨h00, h01, h10, h11, h20, h21⟩ := exTri_xps st
  constructor <;>
  · rw [crd, exTri_clnfc, show (3 : Int).toNat = 3 from rfl, accum_three]
    simp only [Nat.cast_zero, Nat.cast_one, Nat.cast_ofNat, h00, h01, h10, h11, h20, h21]
    norm_num

theorem exTri_vob (st : K) :
    vob (exB K) (exTri K st) 0 4 = 15 / 4 ∧ vob (exB K) (exTri K st) 0 5 = 15 / 4
    ∧ vob (exB K) (exTri K st) 0 6 = 15 / 4 := by
  obtain ⟨h00, h01, h10, h11, h20, h21⟩ := exTri_xps st
  obtain ⟨c0, c1⟩ := exTri_crd st
  have g40 : ggefcs 4 0 = 1 := rfl
  have g41 : ggefcs 4 1 = 2 := rfl
  have g50 : ggefcs 5 0 = 2 := rfl
  have g51 : ggefcs 5 1 = 3 := rfl
  have g60 : ggefcs 6 0 = 3 := rfl
  have g61 : ggefcs 6 1 = 1 := rfl
  have hd : (exB K).dim3 = false := rfl
  refine ⟨?_, ?_, ?_⟩ <;>
  · simp only [vob, dstc, hd, exTri_clnfc, c0, c1, g40, g41, g50, g51, g60, g61,
      Bool.false_eq_true, ↓reduceIte, Int.reduceSub, h00, h01, h10, h11, h20, h21]
    norm_num [abs_of_pos]

theorem exTri_vocge (st : K) : vocge (exB K) (exTri K st) 0 = 45 / 4 := by
  obtain ⟨v4, v5, v6⟩ := exTri_vob st
  rw [vocge, show nsub (exTri K st) 0 = 3 from rfl, show ig0 (exTri K st) 0 = 4 from rfl,
    accum_three]
  simp only [Nat.cast_zero, Nat.cast_one, Nat.cast_ofNat, add_zero, Int.reduceAdd, v4, v5, v6]
  norm_num

theorem exTri_cndge (st : K) :
    cndge (exB K) (exTri K st) 0 0 = 0 ∧ cndge (exB K) (exTri K st) 0 1 = 1 / 2 := by
  have h := cndge_eq_cndges_2d (exB K) (exTri K st) 0 rfl rfl rfl
    (by rw [exTri_vocge]; norm_num)
  have hc : ∀ e, cndges (exB K) (exTri K st) 0 e = crd (exB K) (exTri K st) 0 e := by
    intro e; simp only [crd, cndges, exTri_clnfc]; rfl
  rw [h, hc, hc]
  exact exTri_crd st

theorem exTri_udf (st : K) (cg : Int → K) (ig ivx : Int) :
    udf (exB K) (exTri K st) 3 cg 0 ig 0 ivx = st := by
  simp only [udf, exTri, exB]
  norm_num

theorem exTri_gfd (st : K) :
    gfd (exB K) (exTri K st) 3 (cndge (exB K) (exTri K st) 0) 0 0 0 0 = 2 / 5 * st
    ∧ gfd (exB K) (exTri K st) 3 (cndge (exB K) (exTri K st) 0) 0 0 0 1 = 2 / 5 * st
    ∧ gfd (exB K) (exTri K st) 3 (cndge (exB K) (exTri K st) 0) 0 1 0 0 = -3 / 5 * st
    ∧ gfd (exB K) (exTri K st) 3 (cndge (exB K) (exTri K st) 0) 0 1 0 1 = 2 / 5 * st
    ∧ gfd (exB K) (exTri K st) 3 (cndge (exB K) (exTri K st) 0) 0 2 0 0 = 1 / 5 * st
    ∧ gfd (exB K) (exTri K st) 3 (cndge (exB K) (exTri K st) 0) 0 2 0 1 = -4 / 5 * st := by
  obtain ⟨h00, h01, h10, h11, h20, h21⟩ := exTri_xps st
  obtain ⟨c0, c1⟩ := exTri_cndge st
  have g40 : ggefcs 4 0 = 1 := rfl
  have g41 : ggefcs 4 1 = 2 := rfl
  have g50 : ggefcs 5 0 = 2 := rfl
  have g51 : ggefcs 5 1 = 3 := rfl
  have g60 : ggefcs 6 0 = 3 := rfl
  have g61 : ggefcs 6 1 = 1 := rfl
  have hd : (exB K).dim3 = false := rfl
  have h0 : ig0 (exTri K st) 0 = 4 := rfl
  refine ⟨?_, ?_, ?_, ?_, ?_, ?_⟩ <;>
  · simp only [gfd, grd, voc, dnv, dst, exTri_udf, hd, h0, c0, c1, g40, g41, g50, g51, g60, g61,
      Bool.false_eq_true, ↓reduceIte, Int.reduceSub, Int.reduceAdd, Nat.cast_zero,
      Nat.cast_one, Nat.cast_ofNat, add_zero, h00, h01, h10, h11, h20, h21]
    norm_num
    try ring

/-! ### Cell steps as overwrites of one block of `dsoln` -/

theorem inCell_unique (B : Build K) (i k j : Int) (hi : inCell B i j) (hk : inCell B k j) :
    i = k := by
  unfold inCell at hi hk
  have hM : (0 : Int) ≤ (B.NEQ : Int) * B.NDIM := by
    have : (0 : Int) ≤ B.NDIM := by unfold Build.NDIM; split_ifs <;> norm_num
    positivity
  rw [mul_assoc] at hi hk
  generalize (B.NEQ : Int) * B.NDIM = M at hi hk hM
  rcases lt_trichotomy i k with h | h | h
  · exfalso
    have : (i + 1) * M ≤ k * M := Int.mul_le_mul_of_nonneg_right (by omega) hM
    have e : (i + 1) * M = i * M + M := by ring
    omega
  · exact h
  · exfalso
    have : (k + 1) * M ≤ i * M := Int.mul_le_mul_of_nonneg_right (by omega) hM
    have e : (k + 1) * M = k * M + M := by ring
    omega

theorem mem_cells (a b i : Int) : i ∈ cells a b ↔ a ≤ i ∧ i < b := by
  unfold cells
  simp only [List.mem_map, List.mem_range]
  constructor
  · rintro ⟨k, hk, rfl⟩; omega
  · intro h; exact ⟨(i - a).toNat, by omega, by omega⟩

theorem cells_append (a b c : Int) (hab : a ≤ b) (hbc : b ≤ c) :
    cells a c = cells a b ++ cells b c := by
  unfold cells
  have h : (c - a).toNat = (b - a).toNat + (c - b).toNat := by omega
  rw [h, List.range_add, List.map_append, List.map_map]
  congr 1
  apply List.map_congr_left
  intro k _
  simp only [Function.comp]
  push_cast
  omega

theorem cells_self (a : Int) : cells a a = [] := by
  simp [cells]

theorem foldl_overDs_mem (B : Build K) (val : Int → Nat → Int → K) (l : List Int)
    (ds : Int → K) (i j : Int) (hi : i ∈ l) (hj : inCell B i j) :
    (l.foldl (overDs B val) ds) j = val i (eqOf B i j) (dimOf B i j) := by
  induction l using List.reverseRecOn with
  | nil => simp at hi
  | append_singleton l a ih =>
    rw [List.foldl_append]
    simp only [List.foldl_cons, List.foldl_nil, overDs]
    by_cases ha : inCell B a j
    · rw [if_pos ha, inCell_unique B a i j ha hj]
    · rw [if_neg ha]
      rcases List.mem_append.mp hi with h | h
      · exact ih h
      · simp only [List.mem_singleton] at h
        exact absurd (h ▸ hj) ha

theorem foldl_overDs_not (B : Build K) (val : Int → Nat → Int → K) (l : List Int)
    (ds : Int → K) (j : Int) (hj : ∀ i ∈ l, ¬ inCell B i j) :
    (l.foldl (overDs B val) ds) j = ds j := by
  induction l generalizing ds with
  | nil => rfl
  | cons a l ih =>
    rw [List.foldl_cons, ih _ (fun i hi => hj i (List.mem_cons_of_mem a hi))]
    simp only [overDs]
    rw [if_neg (hj a (List.mem_cons_self a l))]

/-! ### The kernels read no entry of `dsoln` -/

theorem withDsoln_fields (exd : exedata K) (ds : Int → K) :
    (withDsoln exd ds).ncell = exd.ncell ∧ (withDsoln exd ds).time_increment =
    exd.time_increment ∧ (withDsoln exd ds).taumin = exd.taumin ∧ (withDsoln exd ds).tauscale
    = exd.tauscale ∧ (withDsoln exd ds).cnbfac = exd.cnbfac ∧ (withDsoln exd ds).sftfac =
    exd.sftfac ∧ (withDsoln exd ds).taylor = exd.taylor ∧ (withDsoln exd ds).sigma0 =
    exd.sigma0 ∧ (withDsoln exd ds).alpha = exd.alpha ∧ (withDsoln exd ds).cltpn = exd.cltpn ∧
    (withDsoln exd ds).clfcs = exd.clfcs ∧ (withDsoln exd ds).fccls = exd.fccls ∧ (withDsoln
    exd ds).cecnd = exd.cecnd ∧ (withDsoln exd ds).cfl = exd.cfl ∧ (withDsoln exd ds).sol =
    exd.sol ∧ (withDsoln exd ds).soln = exd.soln ∧ (withDsoln exd ds).solt = exd.solt ∧
    (withDsoln exd ds).dsol = exd.dsol :=
  ⟨rfl, rfl, rfl, rfl, rfl, rfl, rfl, rfl, rfl, rfl, rfl, rfl, rfl, rfl, rfl, rfl, rfl, rfl⟩

theorem ig0_withDsoln (exd : exedata K) (ds : Int → K) :
    ig0 (withDsoln exd ds) = ig0 exd := by
  funext x1
  obtain ⟨f0, f1, f2, f3, f4, f5, f6, f7, f8, f9, f10, f11, f12, f13, f14, f15, f16, f17⟩ :=
    withDsoln_fields exd ds
  simp only [ig0, f0, f1, f2, f3, f4, f5, f6, f7, f8, f9, f10, f11, f12, f13, f14, f15, f16,
    f17]

theorem ig1_withDsoln (exd : exedata K) (ds : Int → K) :
    ig1 (withDsoln exd ds) = ig1 exd := by
  funext x1
  obtain ⟨f0, f1, f2, f3, f4, f5, f6, f7, f8, f9, f10, f11, f12, f13, f14, f15, f16, f17⟩ :=
    withDsoln_fields exd ds
  simp only [ig1, f0, f1, f2, f3, f4, f5, f6, f7, f8, f9, f10, f11, f12, f13, f14, f15, f16,
    f17]

theorem nsub_withDsoln (exd : exedata K) (ds : Int → K) :
    nsub (withDsoln exd ds) = nsub exd := by
  funext x1
  obtain ⟨f0, f1, f2, f3, f4, f5, f6, f7, f8, f9, f10, f11, f12, f13, f14, f15, f16, f17⟩ :=
    withDsoln_fields exd ds
  simp only [nsub, ig0_withDsoln, ig1_withDsoln, f0, f1, f2, f3, f4, f5, f6, f7, f8, f9, f10,
    f11, f12, f13, f14, f15, f16, f17]

theorem ofg1_withDsoln (exd : exedata K) (ds : Int → K) :
    ofg1 (withDsoln exd ds) = ofg1 exd := by
  funext x1
  obtain ⟨f0, f1, f2, f3, f4, f5, f6, f7, f8, f9, f10, f11, f12, f13, f14, f15, f16, f17⟩ :=
    withDsoln_fields exd ds
  simp only [ofg1, ig0_withDsoln, ig1_withDsoln, f0, f1, f2, f3, f4, f5, f6, f7, f8, f9, f10,
    f11, f12, f13, f14, f15, f16, f17]

theorem sgm0_withDsoln (exd : exedata K) (ds : Int → K) :
    sgm0 (withDsoln exd ds) = sgm0 exd := by
  funext x1
  obtain ⟨f0, f1, f2, f3, f4, f5, f6, f7, f8, f9, f10, f11, f12, f13, f14, f15, f16, f17⟩ :=
    withDsoln_fields exd ds
  simp only [sgm0, f0, f1, f2, f3, f4, f5, f6, f7, f8, f9, f10, f11, f12, f13, f14, f15, f16,
    f17]

theorem tau_withDsoln (exd : exedata K) (ds : Int → K) :
    tau (withDsoln exd ds) = tau exd := by
  funext x1
  obtain ⟨f0, f1, f2, f3, f4, f5, f6, f7, f8, f9, f10, f11, f12, f13, f14, f15, f16, f17⟩ :=
    withDsoln_fields exd ds
  simp only [tau, f0, f1, f2, f3, f4, f5, f6, f7, f8, f9, f10, f11, f12, f13, f14, f15, f16,
    f17]

theorem jcl_withDsoln (B : Build K) (exd : exedata K) (ds : Int → K) :
    jcl B (withDsoln exd ds) = jcl B exd := by
  funext x1 x2
  obtain ⟨f0, f1, f2, f3, f4, f5, f6, f7, f8, f9, f10, f11, f12, f13, f14, f15, f16, f17⟩ :=
    withDsoln_fields exd ds
  simp only [jcl, f0, f1, f2, f3, f4, f5, f6, f7, f8, f9, f10, f11, f12, f13, f14, f15, f16,
    f17]

theorem clnfc_withDsoln (B : Build K) (exd : exedata K) (ds : Int → K) :
    clnfc B (withDsoln exd ds) = clnfc B exd := by
  funext x1
  obtain ⟨f0, f1, f2, f3, f4, f5, f6, f7, f8, f9, f10, f11, f12, f13, f14, f15, f16, f17⟩ :=
    withDsoln_fields exd ds
  simp only [clnfc, f0, f1, f2, f3, f4, f5, f6, f7, f8, f9, f10, f11, f12, f13, f14, f15, f16,
    f17]

theorem jclOf_withDsoln (B : Build K) (exd : exedata K) (ds : Int → K) :
    jclOf B (withDsoln exd ds) = jclOf B exd := by
  funext x1 x2
  obtain ⟨f0, f1, f2, f3, f4, f5, f6, f7, f8, f9, f10, f11, f12, f13, f14, f15, f16, f17⟩ :=
    withDsoln_fields exd ds
  simp only [jclOf, jcl_withDsoln, f0, f1, f2, f3, f4, f5, f6, f7, f8, f9, f10, f11, f12, f13,
    f14, f15, f16, f17]

theorem sftfc_withDsoln (B : Build K) (exd : exedata K) (ds : Int → K) :
    sftfc B (withDsoln exd ds) = sftfc B exd := by
  funext x1 x2 x3
  obtain ⟨f0, f1, f2, f3, f4, f5, f6, f7, f8, f9, f10, f11, f12, f13, f14, f15, f16, f17⟩ :=
    withDsoln_fields exd ds
  simp only [sftfc, jclOf_withDsoln, f0, f1, f2, f3, f4, f5, f6, f7, f8, f9, f10, f11, f12,
    f13, f14, f15, f16, f17]

theorem xps_withDsoln (B : Build K) (exd : exedata K) (ds : Int → K) :
    xps B (withDsoln exd ds) = xps B exd := by
  funext x1 x2 x3 x4
  obtain ⟨f0, f1, f2, f3, f4, f5, f6, f7, f8, f9, f10, f11, f12, f13, f14, f15, f16, f17⟩ :=
    withDsoln_fields exd ds
  simp only [xps, jclOf_withDsoln, sftfc_withDsoln, tau_withDsoln, f0, f1, f2, f3, f4, f5, f6,
    f7, f8, f9, f10, f11, f12, f13, f14, f15, f16, f17]

theorem dsp0_withDsoln (B : Build K) (exd : exedata K) (ds : Int → K) :
    dsp0 B (withDsoln exd ds) = dsp0 B exd := by
  funext x1 x2 x3 x4
  obtain ⟨f0, f1, f2, f3, f4, f5, f6, f7, f8, f9, f10, f11, f12, f13, f14, f15, f16, f17⟩ :=
    withDsoln_fields exd ds
  simp only [dsp0, xps_withDsoln, jclOf_withDsoln, f0, f1, f2, f3, f4, f5, f6, f7, f8, f9,
    f10, f11, f12, f13, f14, f15, f16, f17]

theorem crd_withDsoln (B : Build K) (exd : exedata K) (ds : Int → K) :
    crd B (withDsoln exd ds) = crd B exd := by
  funext x1 x2
  obtain ⟨f0, f1, f2, f3, f4, f5, f6, f7, f8, f9, f10, f11, f12, f13, f14, f15, f16, f17⟩ :=
    withDsoln_fields exd ds
  simp only [crd, clnfc_withDsoln, xps_withDsoln, f0, f1, f2, f3, f4, f5, f6, f7, f8, f9, f10,
    f11, f12, f13, f14, f15, f16, f17]

theorem dstc_withDsoln (B : Build K) (exd : exedata K) (ds : Int → K) :
    dstc B (withDsoln exd ds) = dstc B exd := by
  funext x1 x2 x3 x4
  obtain ⟨f0, f1, f2, f3, f4, f5, f6, f7, f8, f9, f10, f11, f12, f13, f14, f15, f16, f17⟩ :=
    withDsoln_fields exd ds
  simp only [dstc, clnfc_withDsoln, xps_withDsoln, crd_withDsoln, f0, f1, f2, f3, f4, f5, f6,
    f7, f8, f9, f10, f11, f12, f13, f14, f15, f16, f17]

theorem cnd_withDsoln (B : Build K) (exd : exedata K) (ds : Int → K) :
    cnd B (withDsoln exd ds) = cnd B exd := by
  funext x1 x2 x3
  obtain ⟨f0, f1, f2, f3, f4, f5, f6, f7, f8, f9, f10, f11, f12, f13, f14, f15, f16, f17⟩ :=
    withDsoln_fields exd ds
  simp only [cnd, clnfc_withDsoln, xps_withDsoln, crd_withDsoln, f0, f1, f2, f3, f4, f5, f6,
    f7, f8, f9, f10, f11, f12, f13, f14, f15, f16, f17]

theorem vob_withDsoln (B : Build K) (exd : exedata K) (ds : Int → K) :
    vob B (withDsoln exd ds) = vob B exd := by
  funext x1 x2
  obtain ⟨f0, f1, f2, f3, f4, f5, f6, f7, f8, f9, f10, f11, f12, f13, f14, f15, f16, f17⟩ :=
    withDsoln_fields exd ds
  simp only [vob, dstc_withDsoln, f0, f1, f2, f3, f4, f5, f6, f7, f8, f9, f10, f11, f12, f13,
    f14, f15, f16, f17]

theorem vocge_withDsoln (B : Build K) (exd : exedata K) (ds : Int → K) :
    vocge B (withDsoln exd ds) = vocge B exd := by
  funext x1
  obtain ⟨f0, f1, f2, f3, f4, f5, f6, f7, f8, f9, f10, f11, f12, f13, f14, f15, f16, f17⟩ :=
    withDsoln_fields exd ds
  simp only [vocge, nsub_withDsoln, vob_withDsoln, ig0_withDsoln, f0, f1, f2, f3, f4, f5, f6,
    f7, f8, f9, f10, f11, f12, f13, f14, f15, f16, f17]

theorem cndge_withDsoln (B : Build K) (exd : exedata K) (ds : Int → K) :
    cndge B (withDsoln exd ds) = cndge B exd := by
  funext x1 x2
  obtain ⟨f0, f1, f2, f3, f4, f5, f6, f7, f8, f9, f10, f11, f12, f13, f14, f15, f16, f17⟩ :=
    withDsoln_fields exd ds
  simp only [cndge, nsub_withDsoln, cnd_withDsoln, vob_withDsoln, ig0_withDsoln,
    vocge_withDsoln, f0, f1, f2, f3, f4, f5, f6, f7, f8, f9, f10, f11, f12, f13, f14, f15,
    f16, f17]

theorem cndges_withDsoln (B : Build K) (exd : exedata K) (ds : Int → K) :
    cndges B (withDsoln exd ds) = cndges B exd := by
  funext x1 x2
  obtain ⟨f0, f1, f2, f3, f4, f5, f6, f7, f8, f9, f10, f11, f12, f13, f14, f15, f16, f17⟩ :=
    withDsoln_fields exd ds
  simp only [cndges, xps_withDsoln, f0, f1, f2, f3, f4, f5, f6, f7, f8, f9, f10, f11, f12,
    f13, f14, f15, f16, f17]

theorem sft_withDsoln (B : Build K) (exd : exedata K) (ds : Int → K) :
    sft B (withDsoln exd ds) = sft B exd := by
  funext x1 x2 x3
  obtain ⟨f0, f1, f2, f3, f4, f5, f6, f7, f8, f9, f10, f11, f12, f13, f14, f15, f16, f17⟩ :=
    withDsoln_fields exd ds
  simp only [sft, f0, f1, f2, f3, f4, f5, f6, f7, f8, f9, f10, f11, f12, f13, f14, f15, f16,
    f17]

theorem dsp_withDsoln (B : Build K) (exd : exedata K) (ds : Int → K) :
    dsp B (withDsoln exd ds) = dsp B exd := by
  funext x1 x2 x3 x4 x5
  obtain ⟨f0, f1, f2, f3, f4, f5, f6, f7, f8, f9, f10, f11, f12, f13, f14, f15, f16, f17⟩ :=
    withDsoln_fields exd ds
  simp only [dsp, dsp0_withDsoln, sft_withDsoln, f0, f1, f2, f3, f4, f5, f6, f7, f8, f9, f10,
    f11, f12, f13, f14, f15, f16, f17]

theorem dst_withDsoln (B : Build K) (exd : exedata K) (ds : Int → K) :
    dst B (withDsoln exd ds) = dst B exd := by
  funext x1 x2 x3 x4 x5 x6
  obtain ⟨f0, f1, f2, f3, f4, f5, f6, f7, f8, f9, f10, f11, f12, f13, f14, f15, f16, f17⟩ :=
    withDsoln_fields exd ds
  simp only [dst, xps_withDsoln, f0, f1, f2, f3, f4, f5, f6, f7, f8, f9, f10, f11, f12, f13,
    f14, f15, f16, f17]

theorem udf_withDsoln (B : Build K) (exd : exedata K) (ds : Int → K) :
    udf B (withDsoln exd ds) = udf B exd := by
  funext x1 x2 x3 x4 x5 x6
  obtain ⟨f0, f1, f2, f3, f4, f5, f6, f7, f8, f9, f10, f11, f12, f13, f14, f15, f16, f17⟩ :=
    withDsoln_fields exd ds
  simp only [udf, jclOf_withDsoln, dsp_withDsoln, f0, f1, f2, f3, f4, f5, f6, f7, f8, f9, f10,
    f11, f12, f13, f14, f15, f16, f17]

theorem gfd_withDsoln (B : Build K) (exd : exedata K) (ds : Int → K) :
    gfd B (withDsoln exd ds) = gfd B exd := by
  funext x1 x2 x3 x4 x5 x6
  obtain ⟨f0, f1, f2, f3, f4, f5, f6, f7, f8, f9, f10, f11, f12, f13, f14, f15, f16, f17⟩ :=
    withDsoln_fields exd ds
  simp only [gfd, dst_withDsoln, udf_withDsoln, ig0_withDsoln, f0, f1, f2, f3, f4, f5, f6, f7,
    f8, f9, f10, f11, f12, f13, f14, f15, f16, f17]

theorem wgt_withDsoln (B : Build K) (m : Libm K) (exd : exedata K) (ds : Int → K) :
    wgt B m (withDsoln exd ds) = wgt B m exd := by
  funext x1 x2 x3 x4 x5
  obtain ⟨f0, f1, f2, f3, f4, f5, f6, f7, f8, f9, f10, f11, f12, f13, f14, f15, f16, f17⟩ :=
    withDsoln_fields exd ds
  simp only [wgt, gfd_withDsoln, f0, f1, f2, f3, f4, f5, f6, f7, f8, f9, f10, f11, f12, f13,
    f14, f15, f16, f17]

theorem dla_withDsoln (B : Build K) (m : Libm K) (exd : exedata K) (ds : Int → K) :
    dla B m (withDsoln exd ds) = dla B m exd := by
  funext x1 x2 x3 x4
  obtain ⟨f0, f1, f2, f3, f4, f5, f6, f7, f8, f9, f10, f11, f12, f13, f14, f15, f16, f17⟩ :=
    withDsoln_fields exd ds
  simp only [dla, nsub_withDsoln, wgt_withDsoln, f0, f1, f2, f3, f4, f5, f6, f7, f8, f9, f10,
    f11, f12, f13, f14, f15, f16, f17]

theorem dlt_withDsoln (B : Build K) (m : Libm K) (exd : exedata K) (ds : Int → K) :
    dlt B m (withDsoln exd ds) = dlt B m exd := by
  funext x1 x2 x3 x4 x5 x6
  obtain ⟨f0, f1, f2, f3, f4, f5, f6, f7, f8, f9, f10, f11, f12, f13, f14, f15, f16, f17⟩ :=
    withDsoln_fields exd ds
  simp only [dlt, wgt_withDsoln, dla_withDsoln, f0, f1, f2, f3, f4, f5, f6, f7, f8, f9, f10,
    f11, f12, f13, f14, f15, f16, f17]

theorem udfmax_withDsoln (B : Build K) (m : Libm K) (exd : exedata K) (ds : Int → K) :
    udfmax B m (withDsoln exd ds) = udfmax B m exd := by
  funext x1 x2 x3 x4 x5
  obtain ⟨f0, f1, f2, f3, f4, f5, f6, f7, f8, f9, f10, f11, f12, f13, f14, f15, f16, f17⟩ :=
    withDsoln_fields exd ds
  simp only [udfmax, nsub_withDsoln, dlt_withDsoln, f0, f1, f2, f3, f4, f5, f6, f7, f8, f9,
    f10, f11, f12, f13, f14, f15, f16, f17]

theorem udfmin_withDsoln (B : Build K) (m : Libm K) (exd : exedata K) (ds : Int → K) :
    udfmin B m (withDsoln exd ds) = udfmin B m exd := by
  funext x1 x2 x3 x4 x5
  obtain ⟨f0, f1, f2, f3, f4, f5, f6, f7, f8, f9, f10, f11, f12, f13, f14, f15, f16, f17⟩ :=
    withDsoln_fields exd ds
  simp only [udfmin, nsub_withDsoln, dlt_withDsoln, f0, f1, f2, f3, f4, f5, f6, f7, f8, f9,
    f10, f11, f12, f13, f14, f15, f16, f17]

theorem sigmax_withDsoln (B : Build K) (m : Libm K) (exd : exedata K) (ds : Int → K) :
    sigmax B m (withDsoln exd ds) = sigmax B m exd := by
  funext x1 x2 x3 x4 x5
  obtain ⟨f0, f1, f2, f3, f4, f5, f6, f7, f8, f9, f10, f11, f12, f13, f14, f15, f16, f17⟩ :=
    withDsoln_fields exd ds
  simp only [sigmax, udfmax_withDsoln, udfmin_withDsoln, f0, f1, f2, f3, f4, f5, f6, f7, f8,
    f9, f10, f11, f12, f13, f14, f15, f16, f17]

theorem dlaSigma_withDsoln (B : Build K) (m : Libm K) (exd : exedata K) (ds : Int → K) :
    dlaSigma B m (withDsoln exd ds) = dlaSigma B m exd := by
  funext x1 x2
  obtain ⟨f0, f1, f2, f3, f4, f5, f6, f7, f8, f9, f10, f11, f12, f13, f14, f15, f16, f17⟩ :=
    withDsoln_fields exd ds
  simp only [dlaSigma, sigmax_withDsoln, clnfc_withDsoln, cndge_withDsoln, ofg1_withDsoln,
    sgm0_withDsoln, f0, f1, f2, f3, f4, f5, f6, f7, f8, f9, f10, f11, f12, f13, f14, f15, f16,
    f17]

theorem wfin_withDsoln (B : Build K) (m : Libm K) (exd : exedata K) (ds : Int → K) :
    wfin B m (withDsoln exd ds) = wfin B m exd := by
  funext x1 x2 x3
  obtain ⟨f0, f1, f2, f3, f4, f5, f6, f7, f8, f9, f10, f11, f12, f13, f14, f15, f16, f17⟩ :=
    withDsoln_fields exd ds
  simp only [wfin, ofg1_withDsoln, dlaSigma_withDsoln, dlt_withDsoln, clnfc_withDsoln,
    cndge_withDsoln, f0, f1, f2, f3, f4, f5, f6, f7, f8, f9, f10, f11, f12, f13, f14, f15,
    f16, f17]

theorem sgms_withDsoln (B : Build K) (m : Libm K) (exd : exedata K) (ds : Int → K) :
    sgms B m (withDsoln exd ds) = sgms B m exd := by
  funext x1 x2
  obtain ⟨f0, f1, f2, f3, f4, f5, f6, f7, f8, f9, f10, f11, f12, f13, f14, f15, f16, f17⟩ :=
    withDsoln_fields exd ds
  simp only [sgms, sigmax_withDsoln, cndges_withDsoln, sgm0_withDsoln, f0, f1, f2, f3, f4, f5,
    f6, f7, f8, f9, f10, f11, f12, f13, f14, f15, f16, f17]

theorem wfins_withDsoln (B : Build K) (m : Libm K) (exd : exedata K) (ds : Int → K) :
    wfins B m (withDsoln exd ds) = wfins B m exd := by
  funext x1 x2 x3
  obtain ⟨f0, f1, f2, f3, f4, f5, f6, f7, f8, f9, f10, f11, f12, f13, f14, f15, f16, f17⟩ :=
    withDsoln_fields exd ds
  simp only [wfins, sgms_withDsoln, dlt_withDsoln, cndges_withDsoln, f0, f1, f2, f3, f4, f5,
    f6, f7, f8, f9, f10, f11, f12, f13, f14, f15, f16, f17]

theorem calc_val_withDsoln (B : Build K) (m : Libm K) (exd : exedata K) (ds : Int → K) :
    calc_val B m (withDsoln exd ds) = calc_val B m exd := by
  funext x1 x2 x3
  obtain ⟨f0, f1, f2, f3, f4, f5, f6, f7, f8, f9, f10, f11, f12, f13, f14, f15, f16, f17⟩ :=
    withDsoln_fields exd ds
  simp only [calc_val, nsub_withDsoln, wfin_withDsoln, gfd_withDsoln, clnfc_withDsoln,
    cndge_withDsoln, f0, f1, f2, f3, f4, f5, f6, f7, f8, f9, f10, f11, f12, f13, f14, f15,
    f16, f17]

theorem calcs_val_withDsoln (B : Build K) (m : Libm K) (exd : exedata K) (ds : Int → K) :
    calcs_val B m (withDsoln exd ds) = calcs_val B m exd := by
  funext x1 x2 x3
  obtain ⟨f0, f1, f2, f3, f4, f5, f6, f7, f8, f9, f10, f11, f12, f13, f14, f15, f16, f17⟩ :=
    withDsoln_fields exd ds
  simp only [calcs_val, nsub_withDsoln, wfins_withDsoln, gfd_withDsoln, cndges_withDsoln, f0,
    f1, f2, f3, f4, f5, f6, f7, f8, f9, f10, f11, f12, f13, f14, f15, f16, f17]

theorem calc_cell_eq (B : Build K) (m : Libm K) (exd : exedata K) (icl : Int) :
    calc_cell B m exd icl = withDsoln exd (overDs B (calc_val B m exd) exd.dsoln icl) := by
  have h : (calc_cell B m exd icl).dsoln = overDs B (calc_val B m exd) exd.dsoln icl :=
    funext (fun j => by rw [calc_cell_dsoln]; rfl)
  have h2 : calc_cell B m exd icl = withDsoln exd (calc_cell B m exd icl).dsoln := rfl
  rw [h2, h]

theorem calcs_cell_eq (B : Build K) (m : Libm K) (exd : exedata K) (icl : Int) :
    calcs_cell B m exd icl = withDsoln exd (overDs B (calcs_val B m exd) exd.dsoln icl) := by
  have h : (calcs_cell B m exd icl).dsoln = overDs B (calcs_val B m exd) exd.dsoln icl :=
    funext (fun j => by rw [calcs_cell_dsoln]; rfl)
  have h2 : calcs_cell B m exd icl = withDsoln exd (calcs_cell B m exd icl).dsoln := rfl
  rw [h2, h]

theorem withDsoln_withDsoln (exd : exedata K) (ds ds2 : Int → K) :
    withDsoln (withDsoln exd ds) ds2 = withDsoln exd ds2 := rfl

theorem withDsoln_dsoln (exd : exedata K) (ds : Int → K) : (withDsoln exd ds).dsoln = ds := rfl

theorem withDsoln_self (exd : exedata K) : withDsoln exd exd.dsoln = exd := rfl

theorem foldl_calc_cell (B : Build K) (m : Libm K) (exd : exedata K) (l : List Int)
    (ds : Int → K) :
    l.foldl (calc_cell B m) (withDsoln exd ds)
      = withDsoln exd (l.foldl (overDs B (calc_val B m exd)) ds) := by
  induction l generalizing ds with
  | nil => rfl
  | cons a l ih =>
    rw [List.foldl_cons, List.foldl_cons, calc_cell_eq, calc_val_withDsoln, withDsoln_dsoln,
      withDsoln_withDsoln, ih]

theorem foldl_calcs_cell (B : Build K) (m : Libm K) (exd : exedata K) (l : List Int)
    (ds : Int → K) :
    l.foldl (calcs_cell B m) (withDsoln exd ds)
      = withDsoln exd (l.foldl (overDs B (calcs_val B m exd)) ds) := by
  induction l generalizing ds with
  | nil => rfl
  | cons a l ih =>
    rw [List.foldl_cons, List.foldl_cons, calcs_cell_eq, calcs_val_withDsoln, withDsoln_dsoln,
      withDsoln_withDsoln, ih]

theorem calcs_dsoln_w3_eq (B : Build K) (m : Libm K) (exd : exedata K) (a b : Int) :
    calcs_dsoln_w3 B m exd a b
      = withDsoln exd ((cells a b).foldl (overDs B (calcs_val B m exd)) exd.dsoln) :=
  foldl_calcs_cell B m exd (cells a b) exd.dsoln

theorem calc_dsoln_w3_eq (B : Build K) (m : Libm K) (exd : exedata K) :
    calc_dsoln_w3 B m exd
      = withDsoln exd ((cells 0 exd.ncell).foldl (overDs B (calc_val B m exd)) exd.dsoln) :=
  foldl_calc_cell B m exd (cells 0 exd.ncell) exd.dsoln

/-! ### Entries of `dsoln` after a run of a kernel -/

theorem calc_dsoln_w3_at (B : Build K) (m : Libm K) (exd : exedata K) (icl : Int) (ieq : Nat)
    (d : Int) (h0 : 0 ≤ icl) (h1 : icl < exd.ncell) (he : ieq < B.NEQ) (hd0 : 0 ≤ d)
    (hd1 : d < B.NDIM) :
    (calc_dsoln_w3 B m exd).dsoln (icl * B.NEQ * B.NDIM + ieq * B.NDIM + d)
      = calc_val B m exd icl ieq d := by
  obtain ⟨hin, hq, hdm⟩ := inCell_idx B icl ieq d he hd0 hd1
  rw [calc_dsoln_w3_eq, withDsoln_dsoln,
    foldl_overDs_mem B _ _ _ icl _ ((mem_cells 0 exd.ncell icl).mpr ⟨h0, h1⟩) hin, hq, hdm]

theorem calcs_dsoln_w3_at (B : Build K) (m : Libm K) (exd : exedata K) (a b icl : Int)
    (ieq : Nat) (d : Int) (h0 : a ≤ icl) (h1 : icl < b) (he : ieq < B.NEQ) (hd0 : 0 ≤ d)
    (hd1 : d < B.NDIM) :
    (calcs_dsoln_w3 B m exd a b).dsoln (icl * B.NEQ * B.NDIM + ieq * B.NDIM + d)
      = calcs_val B m exd icl ieq d := by
  obtain ⟨hin, hq, hdm⟩ := inCell_idx B icl ieq d he hd0 hd1
  rw [calcs_dsoln_w3_eq, withDsoln_dsoln,
    foldl_overDs_mem B _ _ _ icl _ ((mem_cells a b icl).mpr ⟨h0, h1⟩) hin, hq, hdm]

theorem calc_cell_at (B : Build K) (m : Libm K) (exd : exedata K) (icl : Int) (ieq : Nat)
    (d : Int) (he : ieq < B.NEQ) (hd0 : 0 ≤ d) (hd1 : d < B.NDIM) :
    (calc_cell B m exd icl).dsoln (icl * B.NEQ * B.NDIM + ieq * B.NDIM + d)
      = calc_val B m exd icl ieq d := by
  obtain ⟨hin, hq, hdm⟩ := inCell_idx B icl ieq d he hd0 hd1
  rw [calc_cell_dsoln, if_pos hin, hq, hdm]

theorem calcs_cell_at (B : Build K) (m : Libm K) (exd : exedata K) (icl : Int) (ieq : Nat)
    (d : Int) (he : ieq < B.NEQ) (hd0 : 0 ≤ d) (hd1 : d < B.NDIM) :
    (calcs_cell B m exd icl).dsoln (icl * B.NEQ * B.NDIM + ieq * B.NDIM + d)
      = calcs_val B m exd icl ieq d := by
  obtain ⟨hin, hq, hdm⟩ := inCell_idx B icl ieq d he hd0 hd1
  rw [calcs_cell_dsoln, if_pos hin, hq, hdm]

/-! ### The GGE volume of a simplex cell -/

theorem abs_div_helper (a b c e : K) (hc : 0 < c) (h : a = b / c ∨ a = -(b / c)) :
    |a| / e = |b| / (c * e) := by
  have : |a| = |b| / c := by
    rcases h with h | h
    · rw [h, abs_div, abs_of_pos hc]
    · rw [h, abs_neg, abs_div, abs_of_pos hc]
  rw [this, div_div]

theorem vocge_simplex_2d (B : Build K) (exd : exedata K) (icl : Int)
    (hd : B.dim3 = false) (htp : exd.cltpn icl = 3) (hf : clnfc B exd icl = B.NDIM + 1) :
    vocge B exd icl = |dualDet B exd icl| / 2 := by
  have hN : B.NDIM = 2 := by simp [Build.NDIM, hd]
  have hf3 : clnfc B exd icl = 3 := by rw [hf, hN]; rfl
  have hC : CLNFC B = 3 := by simp [CLNFC, hN]
  have h0 : ig0 exd icl = 4 := by simp [ig0, htp]; rfl
  have hn : nsub exd icl = 3 := by simp [nsub, ig0, ig1, htp]; rfl
  have hcr : ∀ e, crd B exd icl e
      = (xps B exd 3 icl 0 e + xps B exd 3 icl 1 e + xps B exd 3 icl 2 e) / 3 := by
    intro e
    simp only [crd, hf3]
    rw [show (3 : Int).toNat = 3 from rfl, accum_three]
    norm_num
  have g40 : ggefcs 4 0 = 1 := rfl
  have g41 : ggefcs 4 1 = 2 := rfl
  have g50 : ggefcs 5 0 = 2 := rfl
  have g51 : ggefcs 5 1 = 3 := rfl
  have g60 : ggefcs 6 0 = 3 := rfl
  have g61 : ggefcs 6 1 = 1 := rfl
  have v : ∀ ig : Int, ig = 4 ∨ ig = 5 ∨ ig = 6 →
      vob B exd icl ig = |dualDet B exd icl| / (3 * 2) := by
    intro ig hig
    rcases hig with h | h | h <;> subst h <;>
    · simp only [vob, dstc, dualDet, hd, hf3, hC, hcr, g40, g41, g50, g51, g60, g61,
        Bool.false_eq_true, ↓reduceIte, Int.reduceSub]
      apply abs_div_helper _ _ _ _ (by norm_num)
      left; ring
  unfold vocge
  rw [hn, h0, accum_three]
  simp only [Nat.cast_zero, Nat.cast_one, Nat.cast_ofNat, add_zero, Int.reduceAdd]
  rw [v 4 (Or.inl rfl), v 5 (Or.inr (Or.inl rfl)), v 6 (Or.inr (Or.inr rfl))]
  ring

theorem vocge_simplex_3d (B : Build K) (exd : exedata K) (icl : Int)
    (hd : B.dim3 = true) (htp : exd.cltpn icl = 5) (hf : clnfc B exd icl = B.NDIM + 1) :
    vocge B exd icl = |dualDet B exd icl| / 6 := by
  have hN : B.NDIM = 3 := by simp [Build.NDIM, hd]
  have hf3 : clnfc B exd icl = 4 := by rw [hf, hN]; rfl
  have hC : CLNFC B = 4 := by simp [CLNFC, hN]
  have h0 : ig0 exd icl = 15 := by simp [ig0, htp]; rfl
  have hn : nsub exd icl = 4 := by simp [nsub, ig0, ig1, htp]; rfl
  have hcr : ∀ e, crd B exd icl e
      = (xps B exd 4 icl 0 e + xps B exd 4 icl 1 e + xps B exd 4 icl 2 e
          + xps B exd 4 icl 3 e) / 4 := by
    intro e
    simp only [crd, hf3]
    rw [show (4 : Int).toNat = 4 from rfl, accum_four]
    norm_num
  have g150 : ggefcs 15 0 = 3 := rfl
  have g151 : ggefcs 15 1 = 1 := rfl
  have g152 : ggefcs 15 2 = 2 := rfl
  have g160 : ggefcs 16 0 = 2 := rfl
  have g161 : ggefcs 16 1 = 1 := rfl
  have g162 : ggefcs 16 2 = 4 := rfl
  have g170 : ggefcs 17 0 = 4 := rfl
  have g171 : ggefcs 17 1 = 1 := rfl
  have g172 : ggefcs 17 2 = 3 := rfl
  have g180 : ggefcs 18 0 = 2 := rfl
  have g181 : ggefcs 18 1 = 4 := rfl
  have g182 : ggefcs 18 2 = 3 := rfl
  have v : ∀ ig : Int, ig = 15 ∨ ig = 16 ∨ ig = 17 ∨ ig = 18 →
      vob B exd icl ig = |dualDet B exd icl| / (4 * 6) := by
    intro ig hig
    rcases hig with h | h | h | h <;> subst h <;>
    · simp only [vob, dstc, dualDet, hd, hf3, hC, hcr, g150, g151, g152, g160, g161, g162,
        g170, g171, g172, g180, g181, g182, ↓reduceIte, Int.reduceSub]
      apply abs_div_helper _ _ _ _ (by norm_num)
      right; ring
  unfold vocge
  rw [hn, h0, accum_four]
  simp only [Nat.cast_zero, Nat.cast_one, Nat.cast_ofNat, add_zero, Int.reduceAdd]
  rw [v 15 (Or.inl rfl), v 16 (Or.inr (Or.inl rfl)), v 17 (Or.inr (Or.inr (Or.inl rfl))),
    v 18 (Or.inr (Or.inr (Or.inr rfl)))]
  ring

/-! ### Simplex cells: the two kernels agree -/

theorem calc_val_eq_calcs_val (B : Build K) (m : Libm K) (exd : exedata K) (icl : Int)
    (hs : (B.dim3 = false ∧ exd.cltpn icl = 3) ∨ (B.dim3 = true ∧ exd.cltpn icl = 5))
    (hf : clnfc B exd icl = B.NDIM + 1) (hv : vocge B exd icl ≠ 0) :
    calc_val B m exd icl = calcs_val B m exd icl := by
  have hcl : clnfc B exd icl = CLNFC B := hf
  have hcg : cndge B exd icl = cndges B exd icl := by
    rcases hs with ⟨hd, htp⟩ | ⟨hd, htp⟩
    · exact cndge_eq_cndges_2d B exd icl hd htp hf hv
    · exact cndge_eq_cndges_3d B exd icl hd htp hf hv
  have hofg : ofg1 exd icl = 1 / ((CLNFC B : Int) : K) := by
    rcases hs with ⟨hd, htp⟩ | ⟨hd, htp⟩
    · simp only [ofg1, ig0, ig1, htp, CLNFC, Build.NDIM, hd]; rfl
    · simp only [ofg1, ig0, ig1, htp, CLNFC, Build.NDIM, hd]; rfl
  funext ieq d
  simp only [calc_val, calcs_val, wfin, wfins, dlaSigma, sgms, hcl, hcg, hofg]

/-- C2: for a simplex cell (a triangle, type 3, in the two-dimensional build or a
tetrahedron, type 5, in the three-dimensional build) with `clfcs[0] = NDIM+1` faces whose
dual-region simplex has non-zero volume (the GGE volume `voc` of the generic kernel, which
is `|dualDet|/2` resp. `|dualDet|/6`), the generic and the simplex kernel write the same
`dsoln` vector: every entry of the cell after `calc_dsoln_w3` equals the entry after
`calcs_dsoln_w3` over any range holding the cell, this common value is the weighted sum
of the stored gradients, and the two cell bodies produce the same state. -/
theorem simplex_equivalence (B : Build K) (m : Libm K) (exd : exedata K) (icl : Int)
    (hs : (B.dim3 = false ∧ exd.cltpn icl = 3) ∨ (B.dim3 = true ∧ exd.cltpn icl = 5))
    (hf : clnfc B exd icl = B.NDIM + 1) (hv : vocge B exd icl ≠ 0) :
    (∀ (a b : Int) (ieq : Nat) (d : Int), 0 ≤ icl → icl < exd.ncell → a ≤ icl → icl < b →
      ieq < B.NEQ → 0 ≤ d → d < B.NDIM →
      (calc_dsoln_w3 B m exd).dsoln (icl * B.NEQ * B.NDIM + ieq * B.NDIM + d)
        = (calcs_dsoln_w3 B m exd a b).dsoln (icl * B.NEQ * B.NDIM + ieq * B.NDIM + d)
      ∧ (calc_dsoln_w3 B m exd).dsoln (icl * B.NEQ * B.NDIM + ieq * B.NDIM + d)
        = calc_val B m exd icl ieq d)
    ∧ calc_cell B m exd icl = calcs_cell B m exd icl
    ∧ vocge B exd icl = |dualDet B exd icl| / (if B.dim3 then 6 else 2) := by
  have hval := calc_val_eq_calcs_val B m exd icl hs hf hv
  refine ⟨?_, ?_, ?_⟩
  · intro a b ieq d h0 h1 ha hb he hd0 hd1
    rw [calc_dsoln_w3_at B m exd icl ieq d h0 h1 he hd0 hd1,
      calcs_dsoln_w3_at B m exd a b icl ieq d ha hb he hd0 hd1, hval]
    exact ⟨rfl, rfl⟩
  · exact calc_cell_eq_calcs_cell B m exd icl hs hf hv
  · rcases hs with ⟨hd, htp⟩ | ⟨hd, htp⟩
    · rw [vocge_simplex_2d B exd icl hd htp hf, hd]; rfl
    · rw [vocge_simplex_3d B exd icl hd htp hf, hd]; rfl

/-! ### Vanishing solution differences -/

theorem grd_zero (dim3 : Bool) (dst : Int → Int → K) (u : Int → K) (d : Int)
    (hu : ∀ ivx, u ivx = 0) : grd dim3 dst u d = 0 := by
  simp [grd, hu]

theorem accum_mul_zero (n : Nat) (w g : Nat → K) (hg : ∀ k, g k = 0) :
    accum n (fun k => w k * g k) = 0 := by
  rw [accum_eq_sum]
  exact Finset.sum_eq_zero (fun k _ => by rw [hg k, mul_zero])

theorem udf_uniform (B : Build K) (exd : exedata K) (nf : Int) (cg : Int → K)
    (icl ig : Int) (ieq : Nat) (ivx : Int) (u0 s0 t0 : Nat → K)
    (hsoln : ∀ (c : Int) (e : Nat), e < B.NEQ → exd.soln (c * B.NEQ + e) = u0 e)
    (hsol : ∀ (c : Int) (e : Nat), e < B.NEQ → exd.sol (c * B.NEQ + e) = s0 e)
    (hsolt : ∀ (c : Int) (e : Nat), e < B.NEQ → exd.solt (c * B.NEQ + e) = t0 e)
    (hdsol : ∀ i, exd.dsol i = 0) (he : ieq < B.NEQ) :
    udf B exd nf cg icl ig ieq ivx
      = exd.taylor * (s0 ieq + exd.time_increment * (1 / 2) * t0 ieq - u0 ieq) := by
  simp only [udf, hsoln _ _ he, hsol _ _ he, hsolt _ _ he, hdsol]
  split_ifs <;> ring

theorem val_uniform_zero (B : Build K) (m : Libm K) (exd : exedata K) (icl : Int) (ieq : Nat)
    (d : Int) (u0 s0 t0 : Nat → K)
    (hsoln : ∀ (c : Int) (e : Nat), e < B.NEQ → exd.soln (c * B.NEQ + e) = u0 e)
    (hsol : ∀ (c : Int) (e : Nat), e < B.NEQ → exd.sol (c * B.NEQ + e) = s0 e)
    (hsolt : ∀ (c : Int) (e : Nat), e < B.NEQ → exd.solt (c * B.NEQ + e) = t0 e)
    (hdsol : ∀ i, exd.dsol i = 0)
    (hst : ∀ e, e < B.NEQ →
      exd.taylor * (s0 e + exd.time_increment * (1 / 2) * t0 e - u0 e) = 0)
    (he : ieq < B.NEQ) :
    calc_val B m exd icl ieq d = 0 ∧ calcs_val B m exd icl ieq d = 0 := by
  have hg : ∀ (nf : Int) (cg : Int → K) (ifg : Nat), gfd B exd nf cg icl ifg ieq d = 0 := by
    intro nf cg ifg
    apply grd_zero
    intro ivx
    rw [udf_uniform B exd nf cg icl _ ieq ivx u0 s0 t0 hsoln hsol hsolt hdsol he, hst ieq he]
  exact ⟨accum_mul_zero _ _ _ (fun k => hg _ _ k), accum_mul_zero _ _ _ (fun k => hg _ _ k)⟩

/-- C3 (amended): if every cell, ghost cells included, holds the same `soln`, the same
`sol` and the same `solt`, `dsol` is zero everywhere, and the Taylor term
`taylor * (sol + (time_increment/2)*solt - soln)` of that common state is zero for every
equation, then for every cell and equation for which the kernel divides by no zero and
every weight is a finite double (`calcDefined` for `calc_dsoln_w3`, `calcsDefined` for
`calcs_dsoln_w3`) the `dsoln` entries written by the kernel are zero. -/
theorem zero_gradient_invariance (B : Build K) (m : Libm K) (exd : exedata K)
    (u0 s0 t0 : Nat → K)
    (hsoln : ∀ (c : Int) (e : Nat), e < B.NEQ → exd.soln (c * B.NEQ + e) = u0 e)
    (hsol : ∀ (c : Int) (e : Nat), e < B.NEQ → exd.sol (c * B.NEQ + e) = s0 e)
    (hsolt : ∀ (c : Int) (e : Nat), e < B.NEQ → exd.solt (c * B.NEQ + e) = t0 e)
    (hdsol : ∀ i, exd.dsol i = 0)
    (hst : ∀ e, e < B.NEQ →
      exd.taylor * (s0 e + exd.time_increment * (1 / 2) * t0 e - u0 e) = 0) :
    ∀ (icl : Int) (ieq : Nat) (d : Int), ieq < B.NEQ → 0 ≤ d → d < B.NDIM →
      (calcDefined B m exd icl ieq →
        calc_checked B m exd icl ieq d = some 0
        ∧ (0 ≤ icl → icl < exd.ncell →
          (calc_dsoln_w3 B m exd).dsoln (icl * B.NEQ * B.NDIM + ieq * B.NDIM + d) = 0))
      ∧ (calcsDefined B m exd icl ieq →
        calcs_checked B m exd icl ieq d = some 0
        ∧ (∀ a b : Int, a ≤ icl → icl < b →
          (calcs_dsoln_w3 B m exd a b).dsoln
            (icl * B.NEQ * B.NDIM + ieq * B.NDIM + d) = 0)) := by
  intro icl ieq d he hd0 hd1
  obtain ⟨h1, h2⟩ := val_uniform_zero B m exd icl ieq d u0 s0 t0 hsoln hsol hsolt hdsol hst he
  constructor
  · intro hdef
    refine ⟨by simp only [calc_checked, if_pos hdef, h1], ?_⟩
    intro h0 hn
    rw [calc_dsoln_w3_at B m exd icl ieq d h0 hn he hd0 hd1, h1]
  · intro hdef
    refine ⟨by simp only [calcs_checked, if_pos hdef, h2], ?_⟩
    intro a b ha hb
    rw [calcs_dsoln_w3_at B m exd a b icl ieq d ha hb he hd0 hd1, h2]

theorem exTri_uniform (st : K) :
    (∀ (c : Int) (e : Nat), e < (exB K).NEQ →
      (exTri K st).soln (c * (exB K).NEQ + e) = (if e = 0 then 1 else if e = 3 then 2 else 0))
    ∧ (∀ (c : Int) (e : Nat), e < (exB K).NEQ →
      (exTri K st).sol (c * (exB K).NEQ + e) = (if e = 0 then 1 else if e = 3 then 2 else 0))
    ∧ (∀ (c : Int) (e : Nat), e < (exB K).NEQ →
      (exTri K st).solt (c * (exB K).NEQ + e) = (if e = 0 then st else 0))
    ∧ (∀ i, (exTri K st).dsol i = 0) := by
  have key : ∀ (c : Int) (e : Nat), e < 4 → (c * ((4 : Nat) : Int) + (e : Int)) % 4 = (e : Int) := by
    intro c e he; omega
  refine ⟨?_, ?_, ?_, fun _ => rfl⟩ <;>
  · intro c e he
    have he4 : e < 4 := he
    simp only [exTri, exB, key c e he4]
    interval_cases e <;> simp

/-! ### The running maximum and minimum, and the bound on the weights -/

theorem foldl_max_spec (f : Nat → K) (n : Nat) :
    0 ≤ (List.range n).foldl (fun s k => max s (f k)) 0
    ∧ ∀ k, k < n → f k ≤ (List.range n).foldl (fun s k => max s (f k)) 0 := by
  induction n with
  | zero => exact ⟨le_refl _, fun k hk => absurd hk (Nat.not_lt_zero k)⟩
  | succ n ih =>
    rw [List.range_succ, List.foldl_append]
    simp only [List.foldl_cons, List.foldl_nil]
    refine ⟨le_trans ih.1 (le_max_left _ _), fun k hk => ?_⟩
    rcases Nat.lt_succ_iff_lt_or_eq.mp hk with h | h
    · exact le_trans (ih.2 k h) (le_max_left _ _)
    · rw [h]; exact le_max_right _ _

theorem foldl_min_spec (f : Nat → K) (n : Nat) :
    (List.range n).foldl (fun s k => min s (f k)) 0 ≤ 0
    ∧ ∀ k, k < n → (List.range n).foldl (fun s k => min s (f k)) 0 ≤ f k := by
  induction n with
  | zero => exact ⟨le_refl _, fun k hk => absurd hk (Nat.not_lt_zero k)⟩
  | succ n ih =>
    rw [List.range_succ, List.foldl_append]
    simp only [List.foldl_cons, List.foldl_nil]
    refine ⟨le_trans (min_le_left _ _) ih.1, fun k hk => ?_⟩
    rcases Nat.lt_succ_iff_lt_or_eq.mp hk with h | h
    · exact le_trans (min_le_left _ _) (ih.2 k h)
    · rw [h]; exact min_le_right _ _

/-- The arithmetic core of the limiter: with `0 < base <= 1`, `0 < eps`, `0 <= s` and
`dmin <= x <= dmax`, `dmin <= 0 <= dmax`, the weight `base + L*x` with
`L = min (min ((1-base)/(dmax+eps)) (-base/(dmin-eps))) s` lies in `[0, 1]`. -/
theorem limiter_bound (base eps s dmax dmin x : K) (hb0 : 0 < base) (hb1 : base ≤ 1)
    (heps : 0 < eps) (hs : 0 ≤ s) (hmax : 0 ≤ dmax) (hmin : dmin ≤ 0) (hx1 : x ≤ dmax)
    (hx0 : dmin ≤ x) :
    0 ≤ base + min (min ((1 - base) / (dmax + eps)) (-base / (dmin - eps))) s * x
    ∧ base + min (min ((1 - base) / (dmax + eps)) (-base / (dmin - eps))) s * x ≤ 1 := by
  have hA : 0 ≤ (1 - base) / (dmax + eps) := div_nonneg (by linarith) (by linarith)
  have hB : 0 ≤ -base / (dmin - eps) := by
    rw [neg_div, ← div_neg]; exact div_nonneg (by linarith) (by linarith)
  set L := min (min ((1 - base) / (dmax + eps)) (-base / (dmin - eps))) s with hL
  have hL0 : 0 ≤ L := le_min (le_min hA hB) hs
  have hLA : L ≤ (1 - base) / (dmax + eps) := le_trans (min_le_left _ _) (min_le_left _ _)
  have hLB : L ≤ -base / (dmin - eps) := le_trans (min_le_left _ _) (min_le_right _ _)
  rcases le_total 0 x with hx | hx
  · constructor
    · have : 0 ≤ L * x := mul_nonneg hL0 hx
      linarith
    · have h1 : L * x ≤ (1 - base) / (dmax + eps) * x := mul_le_mul_of_nonneg_right hLA hx
      have h2 : (1 - base) / (dmax + eps) * x ≤ 1 - base := by
        rw [div_mul_eq_mul_div, div_le_iff₀ (by linarith)]
        have : (1 - base) * x ≤ (1 - base) * (dmax + eps) :=
          mul_le_mul_of_nonneg_left (by linarith) (by linarith)
        linarith
      linarith
  · constructor
    · have h1 : -base / (dmin - eps) * x ≤ L * x := mul_le_mul_of_nonpos_right hLB hx
      have h2 : -base ≤ -base / (dmin - eps) * x := by
        rw [div_mul_eq_mul_div, le_div_iff_of_neg (by linarith)]
        have : -base * (dmin - eps) ≥ -base * x := by nlinarith
        linarith
      linarith
    · have : L * x ≤ 0 := mul_nonpos_of_nonneg_of_nonpos hL0 hx
      linarith

theorem ofg1_bounds (exd : exedata K) (icl : Int) (hn : 0 < nsub exd icl) :
    0 < ofg1 exd icl ∧ ofg1 exd icl ≤ 1 := by
  unfold nsub at hn
  unfold ofg1
  have h1 : (1 : Int) ≤ ig1 exd icl - ig0 exd icl := by omega
  have h2 : (1 : K) ≤ ((ig1 exd icl - ig0 exd icl : Int) : K) := by exact_mod_cast h1
  constructor
  · exact div_pos one_pos (by linarith)
  · rw [div_le_one (by linarith)]; exact h2

/-- The bound of the final weights in exact arithmetic: over an ordered field, with
`SOLVCON_ALMOST_ZERO > 0`, `sigma0 >= 0`, a non-zero CFL number and a positive weight sum,
the final weight `ofg1 + dla[ieq]*dlt[ifg][ieq]` of every sub-element `ifg < ig1 - ig0`
of `calc_dsoln_w3` lies in `[0, 1]`.  The code rounds each operation to a double, and a
rounded weight can fall below 0 or above 1 by a rounding error; that is outside this
statement. -/
theorem weights_bounded (B : Build K) (m : Libm K) (exd : exedata K) (icl : Int)
    (ifg ieq : Nat) (heps : 0 < B.SOLVCON_ALMOST_ZERO) (hsig : 0 ≤ exd.sigma0)
    (_hcfl : exd.cfl icl ≠ 0)
    (_hsum : 0 < dla B m exd (clnfc B exd icl) (cndge B exd icl) icl ieq)
    (hifg : ifg < nsub exd icl) :
    0 ≤ wfin B m exd icl ifg ieq ∧ wfin B m exd icl ifg ieq ≤ 1
    ∧ wfin B m exd icl ifg ieq = ofg1 exd icl
        + min (min
            ((1 - ofg1 exd icl) / (udfmax B m exd (clnfc B exd icl) (cndge B exd icl)
              (ofg1 exd icl) icl ieq + B.SOLVCON_ALMOST_ZERO))
            (-ofg1 exd icl / (udfmin B m exd (clnfc B exd icl) (cndge B exd icl)
              (ofg1 exd icl) icl ieq - B.SOLVCON_ALMOST_ZERO)))
          (exd.sigma0 / |exd.cfl icl|)
        * (wgt B m exd (clnfc B exd icl) (cndge B exd icl) icl ifg ieq
            / dla B m exd (clnfc B exd icl) (cndge B exd icl) icl ieq - ofg1 exd icl) := by
  have hb := ofg1_bounds exd icl (by omega)
  have hmax := foldl_max_spec
    (fun k => dlt B m exd (clnfc B exd icl) (cndge B exd icl) (ofg1 exd icl) icl k ieq)
    (nsub exd icl)
  have hmin := foldl_min_spec
    (fun k => dlt B m exd (clnfc B exd icl) (cndge B exd icl) (ofg1 exd icl) icl k ieq)
    (nsub exd icl)
  have hs0 : 0 ≤ sgm0 exd icl := div_nonneg hsig (abs_nonneg _)
  have key := limiter_bound (ofg1 exd icl) B.SOLVCON_ALMOST_ZERO (sgm0 exd icl) _ _
    (dlt B m exd (clnfc B exd icl) (cndge B exd icl) (ofg1 exd icl) icl ifg ieq)
    hb.1 hb.2 heps hs0 hmax.1 hmin.1 (hmax.2 ifg hifg) (hmin.2 ifg hifg)
  exact ⟨key.1, key.2, rfl⟩

/-! ### The per-sub-element linear solve -/

theorem dnv_adjugate_two (D : Int → Int → K) :
    Matrix.of (fun i j : Fin 2 => dnv false D ((i : Nat) : Int) ((j : Nat) : Int))
      = (dstMat 2 D).adjugate := by
  rw [Matrix.adjugate_fin_two]
  ext i j
  fin_cases i <;> fin_cases j <;> simp [dnv, dstMat]

theorem voc_det_two (D : Int → Int → K) : voc false D = (dstMat 2 D).det := by
  rw [Matrix.det_fin_two]
  simp [voc, dstMat]

theorem dnv_adjugate_three (D : Int → Int → K) :
    Matrix.of (fun i j : Fin 3 => dnv true D ((i : Nat) : Int) ((j : Nat) : Int))
      = (dstMat 3 D).adjugate := by
  rw [Matrix.adjugate_fin_three]
  ext i j
  fin_cases i <;> fin_cases j <;> simp [dnv, dstMat] <;> ring

theorem voc_det_three (D : Int → Int → K) : voc true D = (dstMat 3 D).det := by
  rw [Matrix.det_fin_three]
  simp [voc, dnv, dstMat]
  ring

theorem adjugate_solve {n : Nat} (A : Matrix (Fin n) (Fin n) K) (u : Fin n → K)
    (h : A.det ≠ 0) :
    A.mulVec (A.det⁻¹ • A.adjugate.mulVec u) = u
    ∧ ∀ g : Fin n → K, A.mulVec g = u → g = A.det⁻¹ • A.adjugate.mulVec u := by
  constructor
  · rw [Matrix.mulVec_smul, Matrix.mulVec_mulVec, Matrix.mul_adjugate, Matrix.smul_mulVec_assoc,
      Matrix.one_mulVec, smul_smul, inv_mul_cancel₀ h, one_smul]
  · intro g hg
    rw [← hg, Matrix.mulVec_mulVec, Matrix.adjugate_mul, Matrix.smul_mulVec_assoc,
      Matrix.one_mulVec, smul_smul, inv_mul_cancel₀ h, one_smul]

theorem grd_two (D : Int → Int → K) (u : Int → K) :
    vecOf 2 (grd false D u) = (dstMat 2 D).det⁻¹ • (dstMat 2 D).adjugate.mulVec (vecOf 2 u) := by
  rw [← dnv_adjugate_two, ← voc_det_two]
  ext i
  fin_cases i <;>
    simp [vecOf, grd, Matrix.mulVec, Matrix.dotProduct, Fin.sum_univ_two, div_eq_inv_mul]

theorem grd_three (D : Int → Int → K) (u : Int → K) :
    vecOf 3 (grd true D u) = (dstMat 3 D).det⁻¹ • (dstMat 3 D).adjugate.mulVec (vecOf 3 u) := by
  rw [← dnv_adjugate_three, ← voc_det_three]
  ext i
  fin_cases i <;>
    simp [vecOf, grd, Matrix.mulVec, Matrix.dotProduct, Fin.sum_univ_three, div_eq_inv_mul,
      add_assoc]

/-- C6: for `NDIM = 2` and for `NDIM = 3` the matrix `dnv` built from the rows `dst` is
the adjugate of `dst` and `voc` is its determinant; the stored gradient
`gfd[ifg][ieq]` is `dnv * udf[ieq] / voc`, and whenever `voc != 0` it satisfies
`dst[ivx] . g = udf[ieq][ivx]` for every vertex `ivx` of the sub-element and is the only
vector that does. -/
theorem gradient_solve (B : Build K) (exd : exedata K) (nf : Int) (cg : Int → K) (icl : Int)
    (ifg ieq : Nat) :
    (∀ d, gfd B exd nf cg icl ifg ieq d
        = grd B.dim3 (dst B exd nf cg icl (ig0 exd icl + ifg))
            (udf B exd nf cg icl (ig0 exd icl + ifg) ieq) d)
    ∧ ∀ (D : Int → Int → K) (u : Int → K),
      (Matrix.of (fun i j : Fin 2 => dnv false D ((i : Nat) : Int) ((j : Nat) : Int))
          = (dstMat 2 D).adjugate
        ∧ voc false D = (dstMat 2 D).det
        ∧ vecOf 2 (grd false D u)
            = (voc false D)⁻¹ • (Matrix.of (fun i j : Fin 2 =>
                dnv false D ((i : Nat) : Int) ((j : Nat) : Int))).mulVec (vecOf 2 u)
        ∧ (voc false D ≠ 0 →
            (dstMat 2 D).mulVec (vecOf 2 (grd false D u)) = vecOf 2 u
            ∧ ∀ g : Fin 2 → K, (dstMat 2 D).mulVec g = vecOf 2 u
                → g = vecOf 2 (grd false D u)))
      ∧ (Matrix.of (fun i j : Fin 3 => dnv true D ((i : Nat) : Int) ((j : Nat) : Int))
          = (dstMat 3 D).adjugate
        ∧ voc true D = (dstMat 3 D).det
        ∧ vecOf 3 (grd true D u)
            = (voc true D)⁻¹ • (Matrix.of (fun i j : Fin 3 =>
                dnv true D ((i : Nat) : Int) ((j : Nat) : Int))).mulVec (vecOf 3 u)
        ∧ (voc true D ≠ 0 →
            (dstMat 3 D).mulVec (vecOf 3 (grd true D u)) = vecOf 3 u
            ∧ ∀ g : Fin 3 → K, (dstMat 3 D).mulVec g = vecOf 3 u
                → g = vecOf 3 (grd true D u))) := by
  refine ⟨fun d => rfl, fun D u => ⟨⟨dnv_adjugate_two D, voc_det_two D, ?_, ?_⟩,
    ⟨dnv_adjugate_three D, voc_det_three D, ?_, ?_⟩⟩⟩
  · rw [dnv_adjugate_two, voc_det_two]; exact grd_two D u
  · intro h
    rw [voc_det_two] at h
    rw [grd_two]
    exact adjugate_solve _ _ h
  · rw [dnv_adjugate_three, voc_det_three]; exact grd_three D u
  · intro h
    rw [voc_det_three] at h
    rw [grd_three]
    exact adjugate_solve _ _ h

/-! ### Runs over lists of cells: overwrite, frame, order -/

theorem foldl_overDs_congr (B : Build K) (val : Int → Nat → Int → K) (l l2 : List Int)
    (ds : Int → K) (h : ∀ i, i ∈ l ↔ i ∈ l2) :
    l.foldl (overDs B val) ds = l2.foldl (overDs B val) ds := by
  funext j
  by_cases hj : ∃ i, i ∈ l ∧ inCell B i j
  · obtain ⟨i, hi, hin⟩ := hj
    rw [foldl_overDs_mem B val l ds i j hi hin,
      foldl_overDs_mem B val l2 ds i j ((h i).mp hi) hin]
  · have h1 : ∀ i ∈ l, ¬ inCell B i j := fun i hi hin => hj ⟨i, hi, hin⟩
    have h2 : ∀ i ∈ l2, ¬ inCell B i j := fun i hi hin => hj ⟨i, (h i).mpr hi, hin⟩
    rw [foldl_overDs_not B val l ds j h1, foldl_overDs_not B val l2 ds j h2]

theorem foldl_overDs_idem (B : Build K) (val : Int → Nat → Int → K) (l : List Int)
    (ds : Int → K) :
    l.foldl (overDs B val) (l.foldl (overDs B val) ds) = l.foldl (overDs B val) ds := by
  funext j
  by_cases hj : ∃ i, i ∈ l ∧ inCell B i j
  · obtain ⟨i, hi, hin⟩ := hj
    rw [foldl_overDs_mem B val l _ i j hi hin, foldl_overDs_mem B val l ds i j hi hin]
  · have h1 : ∀ i ∈ l, ¬ inCell B i j := fun i hi hin => hj ⟨i, hi, hin⟩
    rw [foldl_overDs_not B val l _ j h1]

theorem foldl_calc_cell_eq (B : Build K) (m : Libm K) (exd : exedata K) (l : List Int) :
    l.foldl (calc_cell B m) exd
      = withDsoln exd (l.foldl (overDs B (calc_val B m exd)) exd.dsoln) :=
  foldl_calc_cell B m exd l exd.dsoln

theorem foldl_calcs_cell_eq (B : Build K) (m : Libm K) (exd : exedata K) (l : List Int) :
    l.foldl (calcs_cell B m) exd
      = withDsoln exd (l.foldl (overDs B (calcs_val B m exd)) exd.dsoln) :=
  foldl_calcs_cell B m exd l exd.dsoln

theorem withDsoln_ncell (exd : exedata K) (ds : Int → K) :
    (withDsoln exd ds).ncell = exd.ncell := rfl

/-! ### Checked quotients and the range of the doubles -/

theorem DBL_MAX_pos : 0 < DBL_MAX K := by
  unfold DBL_MAX
  norm_num

theorem DBL_MAX_bounds : (10 : K) ^ 200 ≤ DBL_MAX K ∧ DBL_MAX K < 10 ^ 400 := by
  unfold DBL_MAX
  constructor <;> norm_num

theorem wgt_eq_wgtDen (B : Build K) (m : Libm K) (exd : exedata K) (nf : Int)
    (cg : Int → K) (icl : Int) (ifg ieq : Nat) :
    wgt B m exd nf cg icl ifg ieq = 1 / wgtDen B m exd nf cg icl ifg ieq := rfl

theorem inRange_pos (x : K) (h : inRange x) : 0 < x :=
  lt_of_lt_of_le (one_div_pos.mpr DBL_MAX_pos) h.1

theorem inRange_inv (x : K) (h : inRange x) : inRange (1 / x) := by
  have hx := inRange_pos x h
  have hD : (0 : K) < DBL_MAX K := DBL_MAX_pos
  obtain ⟨h1, h2⟩ := h
  constructor
  · exact one_div_le_one_div_of_le hx h2
  · rw [div_le_iff₀ hx]
    rw [div_le_iff₀ hD] at h1
    linarith

theorem wgt_of_finite (B : Build K) (m : Libm K) (exd : exedata K) (nf : Int)
    (cg : Int → K) (icl : Int) (ifg ieq : Nat) (h : wgtFinite B m exd nf cg icl ifg ieq) :
    wgtChecked B m exd nf cg icl ifg ieq = some (wgt B m exd nf cg icl ifg ieq)
    ∧ 0 < wgt B m exd nf cg icl ifg ieq ∧ inRange (wgt B m exd nf cg icl ifg ieq) := by
  have hr := inRange_inv _ h.2
  rw [wgt_eq_wgtDen]
  exact ⟨by simp only [wgtChecked, if_pos h], inRange_pos _ hr, hr⟩

theorem dla_pos_of_finite (B : Build K) (m : Libm K) (exd : exedata K) (nf : Int)
    (cg : Int → K) (icl : Int) (ieq : Nat)
    (hw : ∀ ifg : Nat, ifg < nsub exd icl → wgtFinite B m exd nf cg icl ifg ieq)
    (hn : 0 < nsub exd icl) :
    0 < dla B m exd nf cg icl ieq := by
  unfold dla
  rw [accum_eq_sum]
  apply Finset.sum_pos
  · intro i hi
    exact (wgt_of_finite B m exd nf cg icl i ieq (hw i (Finset.mem_range.mp hi))).2.1
  · exact Finset.nonempty_range_iff.mpr (by omega)

theorem grdChecked_some (dim3 : Bool) (dst : Int → Int → K) (u : Int → K) (d : Int)
    (h : voc dim3 dst ≠ 0) :
    grdChecked dim3 dst u d = some (grd dim3 dst u d) := by
  simp only [grdChecked, divChecked, grd, if_neg h]

theorem sgm0Checked_some (exd : exedata K) (icl : Int) (h : exd.cfl icl ≠ 0) :
    sgm0Checked exd icl = some (exd.sigma0 / |exd.cfl icl|) := by
  simp only [sgm0Checked, divChecked, abs_eq_zero, if_neg h]

/-- C5 (amended): for every cell with `cfl[icl] != 0` and every equation, the ceiling
`sigma0 / fabs(cfl[icl])` is a quotient by a non-zero number, and the limiter scalar
multiplied into `dlt[ifg][ieq]` when the final weight is formed, `dla[ieq]` in
`calc_dsoln_w3` and `fmin(udf[ieq][0], sgm0)` in `calcs_dsoln_w3`, is at most that
ceiling. -/
theorem cfl_ceiling (B : Build K) (m : Libm K) (exd : exedata K) (icl : Int) (ifg ieq : Nat)
    (hcfl : exd.cfl icl ≠ 0) :
    sgm0Checked exd icl = some (exd.sigma0 / |exd.cfl icl|)
    ∧ dlaSigma B m exd icl ieq ≤ exd.sigma0 / |exd.cfl icl|
    ∧ wfin B m exd icl ifg ieq = ofg1 exd icl + dlaSigma B m exd icl ieq
        * dlt B m exd (clnfc B exd icl) (cndge B exd icl) (ofg1 exd icl) icl ifg ieq
    ∧ sgms B m exd icl ieq ≤ exd.sigma0 / |exd.cfl icl|
    ∧ wfins B m exd icl ifg ieq = 1 / ((CLNFC B : Int) : K) + sgms B m exd icl ieq
        * dlt B m exd (CLNFC B) (cndges B exd icl) (1 / ((CLNFC B : Int) : K)) icl ifg ieq :=
  ⟨sgm0Checked_some exd icl hcfl, min_le_right _ _, rfl, min_le_right _ _, rfl⟩

/-- C7: `dsoln` is overwritten, not accumulated.  Two initial states that differ only in
`dsoln` (`exd` and `exd` with its `dsoln` replaced by any `ds2`) leave the same `dsoln`
values in every cell of the range after `calcs_dsoln_w3` (and in every cell of
`[0, ncell)` after `calc_dsoln_w3`), and running either kernel twice gives the same state
as running it once. -/
theorem dsoln_overwritten (B : Build K) (m : Libm K) (exd : exedata K) (ds2 : Int → K)
    (a b : Int) :
    (∀ (icl : Int) (ieq : Nat) (d : Int), a ≤ icl → icl < b → ieq < B.NEQ → 0 ≤ d →
      d < B.NDIM →
      (calcs_dsoln_w3 B m (withDsoln exd ds2) a b).dsoln
          (icl * B.NEQ * B.NDIM + ieq * B.NDIM + d)
        = (calcs_dsoln_w3 B m exd a b).dsoln (icl * B.NEQ * B.NDIM + ieq * B.NDIM + d))
    ∧ calcs_dsoln_w3 B m (calcs_dsoln_w3 B m exd a b) a b = calcs_dsoln_w3 B m exd a b
    ∧ (∀ (icl : Int) (ieq : Nat) (d : Int), 0 ≤ icl → icl < exd.ncell → ieq < B.NEQ →
      0 ≤ d → d < B.NDIM →
      (calc_dsoln_w3 B m (withDsoln exd ds2)).dsoln
          (icl * B.NEQ * B.NDIM + ieq * B.NDIM + d)
        = (calc_dsoln_w3 B m exd).dsoln (icl * B.NEQ * B.NDIM + ieq * B.NDIM + d))
    ∧ calc_dsoln_w3 B m (calc_dsoln_w3 B m exd) = calc_dsoln_w3 B m exd := by
  refine ⟨?_, ?_, ?_, ?_⟩
  · intro icl ieq d ha hb he hd0 hd1
    rw [calcs_dsoln_w3_at B m (withDsoln exd ds2) a b icl ieq d ha hb he hd0 hd1,
      calcs_dsoln_w3_at B m exd a b icl ieq d ha hb he hd0 hd1, calcs_val_withDsoln]
  · rw [calcs_dsoln_w3_eq B m exd a b]
    unfold calcs_dsoln_w3
    rw [foldl_calcs_cell, foldl_overDs_idem]
  · intro icl ieq d ha hb he hd0 hd1
    rw [calc_dsoln_w3_at B m (withDsoln exd ds2) icl ieq d ha hb he hd0 hd1,
      calc_dsoln_w3_at B m exd icl ieq d ha hb he hd0 hd1, calc_val_withDsoln]
  · rw [calc_dsoln_w3_eq B m exd]
    unfold calc_dsoln_w3
    rw [withDsoln_ncell, foldl_calc_cell, foldl_overDs_idem]

/-- C8: frame property of `calcs_dsoln_w3(exd, istart, iend)`.  Every `dsoln` entry that
belongs to no cell of `[istart, iend)`, in particular every entry of a cell outside the
range, is unchanged; the arrays `sol`, `soln`, `solt`, `dsol`, `cfl`, `cecnd`, `clfcs`,
`fccls`, `cltpn` (and the scalars) are unchanged; and for `istart == iend` the whole state
is unchanged. -/
theorem calcs_frame (B : Build K) (m : Libm K) (exd : exedata K) (istart iend : Int) :
    (∀ j : Int, (∀ i, istart ≤ i → i < iend → ¬ inCell B i j) →
      (calcs_dsoln_w3 B m exd istart iend).dsoln j = exd.dsoln j)
    ∧ (∀ (c : Int) (ieq : Nat) (d : Int), ¬ (istart ≤ c ∧ c < iend) → ieq < B.NEQ → 0 ≤ d →
      d < B.NDIM →
      (calcs_dsoln_w3 B m exd istart iend).dsoln (c * B.NEQ * B.NDIM + ieq * B.NDIM + d)
        = exd.dsoln (c * B.NEQ * B.NDIM + ieq * B.NDIM + d))
    ∧ calcs_dsoln_w3 B m exd istart iend
        = withDsoln exd (calcs_dsoln_w3 B m exd istart iend).dsoln
    ∧ ((calcs_dsoln_w3 B m exd istart iend).sol = exd.sol
      ∧ (calcs_dsoln_w3 B m exd istart iend).soln = exd.soln
      ∧ (calcs_dsoln_w3 B m exd istart iend).solt = exd.solt
      ∧ (calcs_dsoln_w3 B m exd istart iend).dsol = exd.dsol
      ∧ (calcs_dsoln_w3 B m exd istart iend).cfl = exd.cfl
      ∧ (calcs_dsoln_w3 B m exd istart iend).cecnd = exd.cecnd
      ∧ (calcs_dsoln_w3 B m exd istart iend).clfcs = exd.clfcs
      ∧ (calcs_dsoln_w3 B m exd istart iend).fccls = exd.fccls
      ∧ (calcs_dsoln_w3 B m exd istart iend).cltpn = exd.cltpn)
    ∧ calcs_dsoln_w3 B m exd istart istart = exd := by
  have hout : ∀ j : Int, (∀ i, istart ≤ i → i < iend → ¬ inCell B i j) →
      (calcs_dsoln_w3 B m exd istart iend).dsoln j = exd.dsoln j := by
    intro j hj
    rw [calcs_dsoln_w3_eq, withDsoln_dsoln]
    exact foldl_overDs_not B _ _ _ j
      (fun i hi => hj i ((mem_cells _ _ i).mp hi).1 ((mem_cells _ _ i).mp hi).2)
  refine ⟨hout, ?_, ?_, ?_, ?_⟩
  · intro c ieq d hc he hd0 hd1
    apply hout
    intro i hi0 hi1 hin
    have := inCell_unique B i c _ hin (inCell_idx B c ieq d he hd0 hd1).1
    exact hc (this ▸ ⟨hi0, hi1⟩)
  · rw [calcs_dsoln_w3_eq, withDsoln_dsoln]
  · rw [calcs_dsoln_w3_eq]
    exact ⟨rfl, rfl, rfl, rfl, rfl, rfl, rfl, rfl, rfl⟩
  · unfold calcs_dsoln_w3
    rw [cells_self]
    rfl

/-- C9: order independence.  The value written for a cell depends on the read-only inputs
only: it is unchanged when `dsoln` is replaced, and every `dsoln` entry of a processed cell
holds that value whatever the list of processed cells is.  Hence processing the cells of
a list in any permutation of their order gives the same state, and processing `[a, b)`
and then `[b, c)` gives the same state as processing `[a, c)`, for both kernels. -/
theorem order_independence (B : Build K) (m : Libm K) (exd : exedata K) :
    (∀ ds : Int → K, calc_val B m (withDsoln exd ds) = calc_val B m exd
      ∧ calcs_val B m (withDsoln exd ds) = calcs_val B m exd)
    ∧ (∀ (l : List Int) (icl : Int) (ieq : Nat) (d : Int), icl ∈ l → ieq < B.NEQ → 0 ≤ d →
      d < B.NDIM →
      (l.foldl (calc_cell B m) exd).dsoln (icl * B.NEQ * B.NDIM + ieq * B.NDIM + d)
          = calc_val B m exd icl ieq d
      ∧ (l.foldl (calcs_cell B m) exd).dsoln (icl * B.NEQ * B.NDIM + ieq * B.NDIM + d)
          = calcs_val B m exd icl ieq d)
    ∧ (∀ l l2 : List Int, l.Perm l2 →
      l.foldl (calc_cell B m) exd = l2.foldl (calc_cell B m) exd
      ∧ l.foldl (calcs_cell B m) exd = l2.foldl (calcs_cell B m) exd)
    ∧ (∀ l : List Int, (cells 0 exd.ncell).Perm l →
      l.foldl (calc_cell B m) exd = calc_dsoln_w3 B m exd)
    ∧ (∀ (a b : Int) (l : List Int), (cells a b).Perm l →
      l.foldl (calcs_cell B m) exd = calcs_dsoln_w3 B m exd a b)
    ∧ (∀ a b c : Int, a ≤ b → b ≤ c →
      calcs_dsoln_w3 B m (calcs_dsoln_w3 B m exd a b) b c = calcs_dsoln_w3 B m exd a c
      ∧ (cells b c).foldl (calc_cell B m) ((cells a b).foldl (calc_cell B m) exd)
          = (cells a c).foldl (calc_cell B m) exd) := by
  have hperm : ∀ l l2 : List Int, l.Perm l2 →
      l.foldl (calc_cell B m) exd = l2.foldl (calc_cell B m) exd
      ∧ l.foldl (calcs_cell B m) exd = l2.foldl (calcs_cell B m) exd := by
    intro l l2 h
    rw [foldl_calc_cell_eq, foldl_calc_cell_eq, foldl_calcs_cell_eq, foldl_calcs_cell_eq,
      foldl_overDs_congr B _ l l2 _ (fun i => h.mem_iff),
      foldl_overDs_congr B _ l l2 _ (fun i => h.mem_iff)]
    exact ⟨rfl, rfl⟩
  refine ⟨fun ds => ⟨calc_val_withDsoln B m exd ds, calcs_val_withDsoln B m exd ds⟩, ?_, hperm,
    ?_, ?_, ?_⟩
  · intro l icl ieq d hl he hd0 hd1
    obtain ⟨hin, hq, hdm⟩ := inCell_idx B icl ieq d he hd0 hd1
    rw [foldl_calc_cell_eq, foldl_calcs_cell_eq, withDsoln_dsoln, withDsoln_dsoln,
      foldl_overDs_mem B _ l _ icl _ hl hin, foldl_overDs_mem B _ l _ icl _ hl hin, hq, hdm]
    exact ⟨rfl, rfl⟩
  · intro l h
    exact ((hperm _ _ h).1).symm
  · intro a b l h
    exact ((hperm _ _ h).2).symm
  · intro a b c hab hbc
    unfold calcs_dsoln_w3
    rw [cells_append a b c hab hbc, List.foldl_append, List.foldl_append]
    exact ⟨rfl, rfl⟩

/-- C10: for a face `ifc` with `fccls[ifc] = (a, b)` and a cell `icl` that is `a` or `b`,
`jcl = fccls[0] + fccls[1] - icl` is the other cell of the pair, and the same rule applied
from `jcl` returns `icl`. -/
theorem neighbour_selection (B : Build K) (exd : exedata K) (icl ifc a b : Int)
    (ha : exd.fccls (ifc * B.FCREL) = a) (hb : exd.fccls (ifc * B.FCREL + 1) = b)
    (h : icl = a ∨ icl = b) :
    (icl = a → jcl B exd icl ifc = b) ∧ (icl = b → jcl B exd icl ifc = a)
    ∧ (jcl B exd icl ifc = a ∨ jcl B exd icl ifc = b)
    ∧ jcl B exd (jcl B exd icl ifc) ifc = icl := by
  unfold jcl
  rw [ha, hb]
  refine ⟨fun h => ?_, fun h => ?_, ?_, ?_⟩ <;> omega

/-! ### Evaluation on the tetrahedron `exTet` -/

theorem exTet_dualDet : dualDet (exB3 K) (exTet K) 0 = -4 := by
  have hx : ∀ k d : Int, 0 ≤ k → k < 4 →
      xps (exB3 K) (exTet K) 4 0 k d
        = (exTet K).cecnd (jclOf (exB3 K) (exTet K) 0 (k + 1) * 7 * 3 + d) := by
    intro k d h0 h1
    simp only [xps, h0, h1, and_self, ↓reduceIte, tau, exTet, exB3, Build.NDIM]
    norm_num
  have hC : CLNFC (exB3 K) = 4 := rfl
  simp only [dualDet, hC, show (exB3 K).dim3 = true from rfl, ↓reduceIte,
    hx 0 _ le_rfl (by norm_num), hx 1 _ (by norm_num) (by norm_num),
    hx 2 _ (by norm_num) (by norm_num), hx 3 _ (by norm_num) (by norm_num)]
  norm_num [jclOf, jcl, exTet, exB3]

theorem exTet_vocge : vocge (exB3 K) (exTet K) 0 = 2 / 3 := by
  rw [vocge_simplex_3d (exB3 K) (exTet K) 0 rfl rfl rfl, exTet_dualDet]
  norm_num

/-! ### The connectivity tables -/

/-- The entries of the rows `lo..hi-1` and columns `0..cols-1` of `ggefcs` lie in `1..nf`,
given that the finite check of those entries succeeds. -/
theorem ggefcs_rows (lo hi cols nf : Nat)
    (h : ∀ k : Fin (hi - lo), ∀ c : Fin cols,
      1 ≤ ggefcs ((lo + k.val : Nat) : Int) ((c.val : Nat) : Int)
        ∧ ggefcs ((lo + k.val : Nat) : Int) ((c.val : Nat) : Int) ≤ (nf : Int))
    (ig ivx : Int) (a : (lo : Int) ≤ ig) (b : ig < (hi : Int)) (c : 0 ≤ ivx)
    (d : ivx < (cols : Int)) :
    1 ≤ ggefcs ig ivx ∧ ggefcs ig ivx ≤ (nf : Int) := by
  have hk := h ⟨(ig - lo).toNat, by omega⟩ ⟨ivx.toNat, by omega⟩
  have e1 : ((lo + (ig - lo).toNat : Nat) : Int) = ig := by omega
  have e2 : ((ivx.toNat : Nat) : Int) = ivx := by omega
  simp only [e1, e2] at hk
  exact hk

/-- C18: the sub-element ranges `ggerng` of the cell types 2..7 are the non-empty intervals
`[0,4)`, `[4,7)`, `[7,15)`, `[15,19)`, `[19,25)`, `[25,31)`; they are contiguous, start
at row 0 and end at the 31 rows of `ggefcs`; and for every such type, every row of its
range and every column below the dimension of the type, the entry of `ggefcs` lies
between 1 and the number of faces of the type (so it is never the filler `-1`). -/
theorem tables_well_formed :
    (ggerng 2 0 = 0 ∧ ggerng 2 1 = 4) ∧ (ggerng 3 0 = 4 ∧ ggerng 3 1 = 7)
    ∧ (ggerng 4 0 = 7 ∧ ggerng 4 1 = 15) ∧ (ggerng 5 0 = 15 ∧ ggerng 5 1 = 19)
    ∧ (ggerng 6 0 = 19 ∧ ggerng 6 1 = 25) ∧ (ggerng 7 0 = 25 ∧ ggerng 7 1 = 31)
    ∧ ggefcsRows.length = 31
    ∧ (∀ tp : Int, 2 ≤ tp → tp ≤ 7 → ggerng tp 0 < ggerng tp 1)
    ∧ (∀ tp : Int, 2 ≤ tp → tp < 7 → ggerng tp 1 = ggerng (tp + 1) 0)
    ∧ (∀ tp tq ig : Int, 2 ≤ tp → tp ≤ 7 → 2 ≤ tq → tq ≤ 7 →
        ggerng tp 0 ≤ ig → ig < ggerng tp 1 → ggerng tq 0 ≤ ig → ig < ggerng tq 1 → tp = tq)
    ∧ (∀ ig : Int, 0 ≤ ig → ig < 31 →
        ∃ tp : Int, 2 ≤ tp ∧ tp ≤ 7 ∧ ggerng tp 0 ≤ ig ∧ ig < ggerng tp 1)
    ∧ (∀ tp ig ivx : Int, 2 ≤ tp → tp ≤ 7 → ggerng tp 0 ≤ ig → ig < ggerng tp 1 →
        0 ≤ ivx → ivx < cellDim tp →
        1 ≤ ggefcs ig ivx ∧ ggefcs ig ivx ≤ cellFaces tp) := by
  refine ⟨by decide, by decide, by decide, by decide, by decide, by decide, rfl, ?_, ?_, ?_,
    ?_, ?_⟩
  · intro tp h2 h7
    interval_cases tp <;> decide
  · intro tp h2 h7
    interval_cases tp <;> decide
  · intro tp tq ig h2 h7 g2 g7 a b c d
    interval_cases tp <;> interval_cases tq <;>
      simp only [ggerng, ggerngRows] at a b c d <;> first | rfl | (exfalso; revert a b c d; simp; omega)
  · intro ig h0 h1
    interval_cases ig <;> first
      | exact ⟨2, by decide⟩ | exact ⟨3, by decide⟩ | exact ⟨4, by decide⟩
      | exact ⟨5, by decide⟩ | exact ⟨6, by decide⟩ | exact ⟨7, by decide⟩
  · intro tp ig ivx h2 h7 a b c d
    interval_cases tp
    · exact ggefcs_rows 0 4 2 4 (by decide) ig ivx a b c d
    · exact ggefcs_rows 4 7 2 3 (by decide) ig ivx a b c d
    · exact ggefcs_rows 7 15 3 6 (by decide) ig ivx a b c d
    · exact ggefcs_rows 15 19 3 4 (by decide) ig ivx a b c d
    · exact ggefcs_rows 19 25 3 5 (by decide) ig ivx a b c d
    · exact ggefcs_rows 25 31 3 5 (by decide) ig ivx a b c d

/-! ### The sum of the deviations -/

theorem accum_dlt (B : Build K) (m : Libm K) (exd : exedata K) (nf : Int) (cg : Int → K)
    (base : K) (icl : Int) (ieq : Nat) (hsum : dla B m exd nf cg icl ieq ≠ 0) :
    accum (nsub exd icl) (fun ifg => dlt B m exd nf cg base icl ifg ieq)
      = 1 - (nsub exd icl : K) * base := by
  rw [accum_eq_sum]
  simp only [dlt]
  rw [Finset.sum_sub_distrib, ← Finset.sum_div]
  simp only [Finset.sum_const, Finset.card_range, nsmul_eq_mul]
  have hd : ∑ i in Finset.range (nsub exd icl), wgt B m exd nf cg icl i ieq
      = dla B m exd nf cg icl ieq := (accum_eq_sum _ _).symm
  rw [hd, div_self hsum]

theorem nsub_cast (exd : exedata K) (icl : Int) (h : 1 ≤ ig1 exd icl - ig0 exd icl) :
    (nsub exd icl : K) = ((ig1 exd icl - ig0 exd icl : Int) : K) := by
  unfold nsub
  rw [← Int.cast_natCast, Int.toNat_of_nonneg (by omega)]

/-- C20: in `calc_dsoln_w3`, for a cell with `n = ig1 - ig0 >= 1` sub-elements and an
equation whose weight sum is non-zero, the deviations `dlt = w/Sum(w) - 1/n` sum to zero.
In `calcs_dsoln_w3`, where the base is `1.0/CLNFC`, they sum to `1 - n/(NDIM+1)`, which is
zero exactly when `n = NDIM + 1`. -/
theorem deviations_sum_zero (B : Build K) (m : Libm K) (exd : exedata K) (icl : Int)
    (ieq : Nat) (hn : 1 ≤ ig1 exd icl - ig0 exd icl)
    (hsum : dla B m exd (clnfc B exd icl) (cndge B exd icl) icl ieq ≠ 0)
    (hsums : dla B m exd (CLNFC B) (cndges B exd icl) icl ieq ≠ 0) :
    accum (nsub exd icl) (fun ifg =>
        dlt B m exd (clnfc B exd icl) (cndge B exd icl) (ofg1 exd icl) icl ifg ieq) = 0
    ∧ accum (nsub exd icl) (fun ifg =>
        dlt B m exd (CLNFC B) (cndges B exd icl) (1 / ((CLNFC B : Int) : K)) icl ifg ieq)
        = 1 - ((ig1 exd icl - ig0 exd icl : Int) : K) / ((B.NDIM + 1 : Int) : K)
    ∧ (accum (nsub exd icl) (fun ifg =>
        dlt B m exd (CLNFC B) (cndges B exd icl) (1 / ((CLNFC B : Int) : K)) icl ifg ieq) = 0
        ↔ ig1 exd icl - ig0 exd icl = B.NDIM + 1) := by
  have hN : (0 : K) < ((B.NDIM + 1 : Int) : K) := by
    have : (0 : Int) < B.NDIM + 1 := by unfold Build.NDIM; split_ifs <;> norm_num
    exact_mod_cast this
  have h2 : accum (nsub exd icl) (fun ifg =>
        dlt B m exd (CLNFC B) (cndges B exd icl) (1 / ((CLNFC B : Int) : K)) icl ifg ieq)
        = 1 - ((ig1 exd icl - ig0 exd icl : Int) : K) / ((B.NDIM + 1 : Int) : K) := by
    rw [accum_dlt B m exd _ _ _ icl ieq hsums, nsub_cast exd icl hn]
    simp only [CLNFC]
    rw [mul_one_div]
  refine ⟨?_, h2, ?_⟩
  · rw [accum_dlt B m exd _ _ _ icl ieq hsum, nsub_mul_ofg1 exd icl hn, sub_self]
  · rw [h2, sub_eq_zero, eq_comm, div_eq_one_iff_eq (ne_of_gt hN)]
    exact Int.cast_inj

/-! ### The simplex kernel: sub-elements and centroid -/

/-- C15 (amended): for a simplex cell (triangle, type 3, with `NDIM = 2`; tetrahedron,
type 5, with `NDIM = 3`) the sub-element loop of `calcs_dsoln_w3` runs `NDIM + 1` times
(`ig1 - ig0 = NDIM + 1 = CLNFC`): the cell has `NDIM + 1` sub-elements and `NDIM + 1` stored
gradient estimates per equation, which the written `dsoln` sums. -/
theorem simplex_subelement_count (B : Build K) (m : Libm K) (exd : exedata K) (icl : Int)
    (hs : (B.dim3 = false ∧ exd.cltpn icl = 3) ∨ (B.dim3 = true ∧ exd.cltpn icl = 5)) :
    ig1 exd icl - ig0 exd icl = B.NDIM + 1
    ∧ ig1 exd icl - ig0 exd icl = CLNFC B
    ∧ nsub exd icl = (if B.dim3 then 4 else 3)
    ∧ ∀ (ieq : Nat) (d : Int), calcs_val B m exd icl ieq d
        = accum (if B.dim3 then 4 else 3) (fun ifg => wfins B m exd icl ifg ieq
            * gfd B exd (CLNFC B) (cndges B exd icl) icl ifg ieq d) := by
  rcases hs with ⟨hd, htp⟩ | ⟨hd, htp⟩
  · have h1 : ig1 exd icl - ig0 exd icl = 3 := by simp only [ig0, ig1, htp]; rfl
    have h2 : nsub exd icl = 3 := by simp only [nsub, h1]; rfl
    refine ⟨?_, ?_, ?_, ?_⟩
    · rw [h1]; simp [Build.NDIM, hd]
    · rw [h1]; simp [CLNFC, Build.NDIM, hd]
    · rw [h2, hd]; rfl
    · intro ieq d; rw [calcs_val, h2, hd]; rfl
  · have h1 : ig1 exd icl - ig0 exd icl = 4 := by simp only [ig0, ig1, htp]; rfl
    have h2 : nsub exd icl = 4 := by simp only [nsub, h1]; rfl
    refine ⟨?_, ?_, ?_, ?_⟩
    · rw [h1]; simp [Build.NDIM, hd]
    · rw [h1]; simp [CLNFC, Build.NDIM, hd]
    · rw [h2, hd]; rfl
    · intro ieq d; rw [calcs_val, h2, hd]; rfl

/-- C17: in the generic kernel, for a triangle (`NDIM = 2`) or a tetrahedron (`NDIM = 3`)
with `clfcs[0] = NDIM+1` whose dual-region vertices span a non-zero volume, the
volume-weighted centroid `cndge = Sum(cnd*vob) / Sum(vob)` equals the unweighted mean of
the `NDIM+1` vertices `xps`, the value computed by `calcs_dsoln_w3`. -/
theorem gge_centroid_simplex (B : Build K) (exd : exedata K) (icl : Int)
    (hs : (B.dim3 = false ∧ exd.cltpn icl = 3) ∨ (B.dim3 = true ∧ exd.cltpn icl = 5))
    (hf : clnfc B exd icl = B.NDIM + 1) (hv : vocge B exd icl ≠ 0) :
    ∀ d : Int,
      cndge B exd icl d
        = accum (nsub exd icl) (fun k =>
            cnd B exd icl (ig0 exd icl + k) d * vob B exd icl (ig0 exd icl + k))
          / accum (nsub exd icl) (fun k => vob B exd icl (ig0 exd icl + k))
      ∧ cndge B exd icl d = cndges B exd icl d
      ∧ cndge B exd icl d
        = (if B.dim3 then
            (xps B exd (clnfc B exd icl) icl 0 d + xps B exd (clnfc B exd icl) icl 1 d
              + xps B exd (clnfc B exd icl) icl 2 d + xps B exd (clnfc B exd icl) icl 3 d) / 4
          else
            (xps B exd (clnfc B exd icl) icl 0 d + xps B exd (clnfc B exd icl) icl 1 d
              + xps B exd (clnfc B exd icl) icl 2 d) / 3) := by
  intro d
  have hcg : cndge B exd icl = cndges B exd icl := by
    rcases hs with ⟨hd, htp⟩ | ⟨hd, htp⟩
    · exact cndge_eq_cndges_2d B exd icl hd htp hf hv
    · exact cndge_eq_cndges_3d B exd icl hd htp hf hv
  refine ⟨rfl, by rw [hcg], ?_⟩
  rw [hcg]
  rcases hs with ⟨hd, htp⟩ | ⟨hd, htp⟩
  · have hC : CLNFC B = 3 := by simp [CLNFC, Build.NDIM, hd]
    have hf3 : clnfc B exd icl = 3 := by rw [hf]; simp [Build.NDIM, hd]
    simp only [cndges, hC, hf3, hd]
    rw [show (3 : Int).toNat = 3 from rfl, accum_three]
    norm_num
  · have hC : CLNFC B = 4 := by simp [CLNFC, Build.NDIM, hd]
    have hf3 : clnfc B exd icl = 4 := by rw [hf]; simp [Build.NDIM, hd]
    simp only [cndges, hC, hf3, hd]
    rw [show (4 : Int).toNat = 4 from rfl, accum_four]
    norm_num

/-! ### The dual-point builder -/

theorem dualIter_succ (B : Build K) (exd : exedata K) (icl : Int) (n : Nat)
    (s : (Int → Int → K) × (Int → Int → K)) :
    dualIter B exd icl (n + 1) s
      = (let r := dualIter B exd icl n s
         let ifl : Int := (n : Int) + 1
         let jcl := jclOf B exd icl ifl
         let r := dualComp B exd icl ifl jcl 0 r
         let r := dualComp B exd icl ifl jcl 1 r
         if B.dim3 then dualComp B exd icl ifl jcl 2 r else r) := by
  simp only [dualIter, List.range_succ, List.foldl_append, List.foldl_cons, List.foldl_nil,
    jclOf, jcl]

theorem store2_rows2 (a X : Int → Int → K) (n j e : Int) :
    store2 (store2 a n 0 (X n 0)) n 1 (X n 1) j e
      = if j = n ∧ (0 ≤ e ∧ e < 2) then X j e else a j e := by
  unfold store2
  by_cases h1 : j = n ∧ e = 1
  · rw [if_pos h1, if_pos ⟨h1.1, by omega⟩, h1.1, h1.2]
  · rw [if_neg h1]
    by_cases h0 : j = n ∧ e = 0
    · rw [if_pos h0, if_pos ⟨h0.1, by omega⟩, h0.1, h0.2]
    · rw [if_neg h0, if_neg (by omega)]

theorem store2_rows3 (a X : Int → Int → K) (n j e : Int) :
    store2 (store2 (store2 a n 0 (X n 0)) n 1 (X n 1)) n 2 (X n 2) j e
      = if j = n ∧ (0 ≤ e ∧ e < 3) then X j e else a j e := by
  rw [store2, store2_rows2]
  by_cases h2 : j = n ∧ e = 2
  · rw [if_pos h2, if_pos ⟨h2.1, by omega⟩, h2.1, h2.2]
  · rw [if_neg h2]
    by_cases h : j = n ∧ (0 ≤ e ∧ e < 2)
    · rw [if_pos h, if_pos ⟨h.1, by omega⟩]
    · rw [if_neg h, if_neg (by omega)]

theorem dualComp_eq (B : Build K) (exd : exedata K) (icl : Int) (n d : Int)
    (r : (Int → Int → K) × (Int → Int → K)) :
    dualComp B exd icl (n + 1) (jclOf B exd icl (n + 1)) d r
      = (store2 r.1 n d
          ((exd.cecnd (jclOf B exd icl (n + 1) * (B.CLMFC + 1) * B.NDIM + d)
            - sftfc B exd icl n d) * tau exd icl + sftfc B exd icl n d),
         store2 r.2 n d
          ((exd.cecnd (jclOf B exd icl (n + 1) * (B.CLMFC + 1) * B.NDIM + d)
            - sftfc B exd icl n d) * tau exd icl + sftfc B exd icl n d
            - exd.cecnd (jclOf B exd icl (n + 1) * (B.CLMFC + 1) * B.NDIM + d))) := by
  simp only [dualComp, store2, sftfc, add_sub_cancel_right, and_self, if_true]

theorem dualIter_spec (B : Build K) (exd : exedata K) (icl : Int)
    (s : (Int → Int → K) × (Int → Int → K)) (n : Nat) (j e : Int) :
    (dualIter B exd icl n s).1 j e = (if (0 ≤ j ∧ j < n) ∧ (0 ≤ e ∧ e < B.NDIM) then
        (exd.cecnd (jclOf B exd icl (j + 1) * (B.CLMFC + 1) * B.NDIM + e)
          - sftfc B exd icl j e) * tau exd icl + sftfc B exd icl j e
      else s.1 j e)
    ∧ (dualIter B exd icl n s).2 j e = (if (0 ≤ j ∧ j < n) ∧ (0 ≤ e ∧ e < B.NDIM) then
        ((exd.cecnd (jclOf B exd icl (j + 1) * (B.CLMFC + 1) * B.NDIM + e)
          - sftfc B exd icl j e) * tau exd icl + sftfc B exd icl j e)
          - exd.cecnd (jclOf B exd icl (j + 1) * (B.CLMFC + 1) * B.NDIM + e)
      else s.2 j e) := by
  induction n generalizing j e with
  | zero =>
    have : ¬ ((0 ≤ j ∧ j < ((0 : Nat) : Int)) ∧ (0 ≤ e ∧ e < B.NDIM)) := by
      simp only [Nat.cast_zero]; omega
    rw [if_neg this, if_neg this]
    exact ⟨rfl, rfl⟩
  | succ n ih =>
    rw [dualIter_succ]
    simp only [dualComp_eq]
    have eX : ∀ j e : Int,
        (exd.cecnd (jclOf B exd icl (j + 1) * (B.CLMFC + 1) * B.NDIM + e)
          - sftfc B exd icl j e) * tau exd icl + sftfc B exd icl j e
        = (fun j e : Int => (exd.cecnd (jclOf B exd icl (j + 1) * (B.CLMFC + 1) * B.NDIM + e)
          - sftfc B exd icl j e) * tau exd icl + sftfc B exd icl j e) j e := fun _ _ => rfl
    generalize (fun j e : Int => (exd.cecnd (jclOf B exd icl (j + 1) * (B.CLMFC + 1) * B.NDIM + e)
          - sftfc B exd icl j e) * tau exd icl + sftfc B exd icl j e) = X at eX
    simp only [eX] at ih ⊢
    have eQ : ∀ j e : Int,
        X j e - exd.cecnd (jclOf B exd icl (j + 1) * (B.CLMFC + 1) * B.NDIM + e)
        = (fun j e : Int =>
            X j e - exd.cecnd (jclOf B exd icl (j + 1) * (B.CLMFC + 1) * B.NDIM + e)) j e :=
      fun _ _ => rfl
    generalize (fun j e : Int =>
            X j e - exd.cecnd (jclOf B exd icl (j + 1) * (B.CLMFC + 1) * B.NDIM + e)) = Q at eQ
    simp only [eQ] at ih ⊢
    cases hd : B.dim3
    · simp only [hd, Build.NDIM, Bool.false_eq_true, if_false] at ih ⊢
      rw [store2_rows2 _ X, store2_rows2 _ Q, (ih j e).1, (ih j e).2]
      push_cast
      constructor <;> split_ifs <;> first | rfl | (exfalso; omega)
    · simp only [hd, Build.NDIM, if_true] at ih ⊢
      rw [store2_rows3 _ X, store2_rows3 _ Q, (ih j e).1, (ih j e).2]
      push_cast
      constructor <;> split_ifs <;> first | rfl | (exfalso; omega)

theorem dualPoints_xps (B : Build K) (exd : exedata K) (nf icl j d : Int)
    (s : (Int → Int → K) × (Int → Int → K)) (hd0 : 0 ≤ d) (hd1 : d < B.NDIM) :
    (dualPoints B exd nf icl s).1 j d
        = (if 0 ≤ j ∧ j < nf then xps B exd nf icl j d else s.1 j d)
    ∧ (dualPoints B exd nf icl s).2 j d
        = (if 0 ≤ j ∧ j < nf then dsp0 B exd nf icl j d else s.2 j d) := by
  obtain ⟨h1, h2⟩ := dualIter_spec B exd icl s nf.toNat j d
  unfold dualPoints
  by_cases h : 0 ≤ j ∧ j < nf
  · have hc : (0 ≤ j ∧ j < (nf.toNat : Int)) ∧ (0 ≤ d ∧ d < B.NDIM) :=
      ⟨⟨h.1, by omega⟩, hd0, hd1⟩
    rw [if_pos hc] at h1 h2
    constructor
    · rw [h1, if_pos h, xps, if_pos h]
    · rw [h2, if_pos h, dsp0, if_pos h, xps, if_pos h]
  · have hc : ¬ ((0 ≤ j ∧ j < (nf.toNat : Int)) ∧ (0 ≤ d ∧ d < B.NDIM)) := by omega
    rw [if_neg hc] at h1 h2
    constructor
    · rw [h1, if_neg h]
    · rw [h2, if_neg h]

/-- C13: the dual-point loop of `calc_dsoln_w3`, run on any contents of the scratch arrays
for a cell with `clnfc` faces, produces for the `i`-th face of the face list
(`i = 1..clnfc`) and every component `d < NDIM` the vertex
`xps[i-1][d] = (c_nbr - shift)*tau + shift` and the displacement
`dsp[i-1][d] = xps[i-1][d] - c_nbr`, with `mid = (c_own + c_nbr)/2`,
`shift = mid + cnbfac*(c_face - mid)`, `tau = taumin + |cfl|*tauscale`; no other entry of
the two arrays is written; and these are the values `xps` and `dsp0` used by the model. -/
theorem dual_point_builder (B : Build K) (exd : exedata K) (icl : Int)
    (s : (Int → Int → K) × (Int → Int → K)) :
    (∀ i d : Int, 1 ≤ i → i ≤ clnfc B exd icl → 0 ≤ d → d < B.NDIM →
      ∀ mid shift : K,
        mid = (exd.cecnd (icl * (B.CLMFC + 1) * B.NDIM + d)
          + exd.cecnd (jclOf B exd icl i * (B.CLMFC + 1) * B.NDIM + d)) / 2 →
        shift = mid
          + exd.cnbfac * (exd.cecnd (icl * (B.CLMFC + 1) * B.NDIM + i * B.NDIM + d) - mid) →
        (dualPoints B exd (clnfc B exd icl) icl s).1 (i - 1) d
          = (exd.cecnd (jclOf B exd icl i * (B.CLMFC + 1) * B.NDIM + d) - shift)
              * (exd.taumin + |exd.cfl icl| * exd.tauscale) + shift
        ∧ (dualPoints B exd (clnfc B exd icl) icl s).2 (i - 1) d
          = (dualPoints B exd (clnfc B exd icl) icl s).1 (i - 1) d
              - exd.cecnd (jclOf B exd icl i * (B.CLMFC + 1) * B.NDIM + d))
    ∧ (∀ j d : Int, ¬ ((0 ≤ j ∧ j < clnfc B exd icl) ∧ (0 ≤ d ∧ d < B.NDIM)) →
        (dualPoints B exd (clnfc B exd icl) icl s).1 j d = s.1 j d
        ∧ (dualPoints B exd (clnfc B exd icl) icl s).2 j d = s.2 j d)
    ∧ (∀ i : Int, jclOf B exd icl i
        = exd.fccls (exd.clfcs (icl * (B.CLMFC + 1) + i) * B.FCREL)
          + exd.fccls (exd.clfcs (icl * (B.CLMFC + 1) + i) * B.FCREL + 1) - icl)
    ∧ (∀ nf j d : Int, 0 ≤ d → d < B.NDIM →
        (dualPoints B exd nf icl (fun _ _ => 0, fun _ _ => 0)).1 j d = xps B exd nf icl j d
        ∧ (dualPoints B exd nf icl (fun _ _ => 0, fun _ _ => 0)).2 j d
            = dsp0 B exd nf icl j d) := by
  refine ⟨?_, ?_, fun _ => rfl, ?_⟩
  · intro i d hi1 hi2 hd0 hd1 mid shift hmid hshift
    have hs : shift = sftfc B exd icl (i - 1) d := by
      rw [hshift, hmid]; simp only [sftfc, sub_add_cancel]
    obtain ⟨h1, h2⟩ := dualPoints_xps B exd (clnfc B exd icl) icl (i - 1) d s hd0 hd1
    have hj : 0 ≤ i - 1 ∧ i - 1 < clnfc B exd icl := by omega
    rw [if_pos hj] at h1 h2
    rw [h2, h1, hs, dsp0, if_pos hj, xps, if_pos hj]
    simp only [sub_add_cancel, tau]
    exact ⟨trivial, trivial⟩
  · intro j d h
    obtain ⟨h1, h2⟩ := dualIter_spec B exd icl s (clnfc B exd icl).toNat j d
    have hc : ¬ ((0 ≤ j ∧ j < ((clnfc B exd icl).toNat : Int)) ∧ (0 ≤ d ∧ d < B.NDIM)) := by
      omega
    rw [if_neg hc] at h1 h2
    exact ⟨h1, h2⟩
  · intro nf j d hd0 hd1
    obtain ⟨h1, h2⟩ := dualPoints_xps B exd nf icl j d (fun _ _ => 0, fun _ _ => 0) hd0 hd1
    by_cases h : 0 ≤ j ∧ j < nf
    · rw [if_pos h] at h1 h2; exact ⟨h1, h2⟩
    · rw [if_neg h] at h1 h2
      rw [h1, h2, xps, dsp0, if_neg h, if_neg h]
      exact ⟨rfl, rfl⟩

/-- C16 (amended): for every incident face and component, the dual-region vertex written
by the dual-point loop (of either kernel, `nf` being its face count) is the point a
fraction `tau` of the way from `shift` toward the neighbour's centroid,
`vertex = shift + tau*(c_nbr - shift)`; `tau = 0` gives `vertex = shift`, and `tau = 1`
gives `vertex = c_nbr` with zero displacement. -/
theorem tau_interpolation (B : Build K) (exd : exedata K) (nf icl ifl1 d : Int)
    (s : (Int → Int → K) × (Int → Int → K)) (h0 : 0 ≤ ifl1) (h1 : ifl1 < nf) (hd0 : 0 ≤ d)
    (hd1 : d < B.NDIM) :
    (dualPoints B exd nf icl s).1 ifl1 d
        = sftfc B exd icl ifl1 d + tau exd icl
          * (exd.cecnd (jclOf B exd icl (ifl1 + 1) * (B.CLMFC + 1) * B.NDIM + d)
              - sftfc B exd icl ifl1 d)
    ∧ (dualPoints B exd nf icl s).1 ifl1 d = xps B exd nf icl ifl1 d
    ∧ (dualPoints B exd nf icl s).2 ifl1 d
        = (dualPoints B exd nf icl s).1 ifl1 d
          - exd.cecnd (jclOf B exd icl (ifl1 + 1) * (B.CLMFC + 1) * B.NDIM + d)
    ∧ (tau exd icl = 0 → (dualPoints B exd nf icl s).1 ifl1 d = sftfc B exd icl ifl1 d)
    ∧ (tau exd icl = 1 →
        (dualPoints B exd nf icl s).1 ifl1 d
            = exd.cecnd (jclOf B exd icl (ifl1 + 1) * (B.CLMFC + 1) * B.NDIM + d)
        ∧ (dualPoints B exd nf icl s).2 ifl1 d = 0) := by
  obtain ⟨e1, e2⟩ := dualPoints_xps B exd nf icl ifl1 d s hd0 hd1
  rw [if_pos ⟨h0, h1⟩] at e1 e2
  have hx : xps B exd nf icl ifl1 d = sftfc B exd icl ifl1 d + tau exd icl
          * (exd.cecnd (jclOf B exd icl (ifl1 + 1) * (B.CLMFC + 1) * B.NDIM + d)
              - sftfc B exd icl ifl1 d) := by
    rw [xps, if_pos ⟨h0, h1⟩]; ring
  have hp : dsp0 B exd nf icl ifl1 d = xps B exd nf icl ifl1 d
      - exd.cecnd (jclOf B exd icl (ifl1 + 1) * (B.CLMFC + 1) * B.NDIM + d) := by
    rw [dsp0, if_pos ⟨h0, h1⟩]
  rw [e1, e2, hp]
  refine ⟨hx, rfl, rfl, fun ht => ?_, fun ht => ?_⟩
  · rw [hx, ht]; ring
  · rw [hx, ht]; constructor <;> ring

/-! ### Affine exactness -/

theorem grd_zero_of (dim3 : Bool) (dst : Int → Int → K) (u : Int → K) (d : Int)
    (hu : ∀ ivx : Int, 0 ≤ ivx → ivx < (if dim3 then 3 else 2) → u ivx = 0) :
    grd dim3 dst u d = 0 := by
  cases dim3
  · have h0 := hu 0 le_rfl (by decide)
    have h1 := hu 1 (by decide) (by decide)
    simp [grd, h0, h1]
  · have h0 := hu 0 le_rfl (by decide)
    have h1 := hu 1 (by decide) (by decide)
    have h2 := hu 2 (by decide) (by decide)
    simp [grd, h0, h1, h2]

theorem udf_zero_local (B : Build K) (exd : exedata K) (nf : Int) (cg : Int → K)
    (icl ig : Int) (ieq : Nat) (ivx : Int)
    (hsoln : exd.soln (jclOf B exd icl (ggefcs ig ivx) * B.NEQ + ieq)
      = exd.soln (icl * B.NEQ + ieq))
    (hdsol : ∀ d : Int, 0 ≤ d → d < B.NDIM →
      exd.dsol (jclOf B exd icl (ggefcs ig ivx) * B.NEQ * B.NDIM + ieq * B.NDIM + d) = 0)
    (htay : exd.taylor = 0
      ∨ exd.sol (jclOf B exd icl (ggefcs ig ivx) * B.NEQ + ieq)
          + exd.time_increment * (1 / 2)
            * exd.solt (jclOf B exd icl (ggefcs ig ivx) * B.NEQ + ieq)
        = exd.soln (jclOf B exd icl (ggefcs ig ivx) * B.NEQ + ieq)) :
    udf B exd nf cg icl ig ieq ivx = 0 := by
  have h0 := hdsol 0 le_rfl (by unfold Build.NDIM; split <;> decide)
  have h1 := hdsol 1 (by decide) (by unfold Build.NDIM; split <;> decide)
  have ht : (exd.sol (jclOf B exd icl (ggefcs ig ivx) * B.NEQ + ieq)
      + exd.time_increment * (1 / 2)
        * exd.solt (jclOf B exd icl (ggefcs ig ivx) * B.NEQ + ieq)
      - exd.soln (jclOf B exd icl (ggefcs ig ivx) * B.NEQ + ieq)) * exd.taylor = 0 := by
    rcases htay with h | h
    · rw [h, mul_zero]
    · rw [h, sub_self, zero_mul]
  cases h3 : B.dim3
  · simp only [udf, h3, h0, h1, Bool.false_eq_true, ↓reduceIte]
    rw [ht, hsoln]
    ring
  · have h2 := hdsol 2 (by decide) (by simp [Build.NDIM, h3])
    simp only [udf, h3, h0, h1, h2, ↓reduceIte]
    rw [ht, hsoln]
    ring

/-- C21 (amended): zero difference gives zero gradient.  If in `calc_dsoln_w3` the solution
difference `udf[ieq][ivx]` of equation `ieq` is zero at every vertex `ivx < NDIM` of every
sub-element of cell `icl`, and the cell body divides by no zero and every weight of the
equation is a finite double (`calcDefined`: in particular `voc != 0` in every sub-element
and `pow(sqrt(0 + SOLVCON_ALMOST_ZERO), alpha)` within the range of the doubles), then
every sub-element gradient of that equation is the zero vector (a quotient `0 / voc` with
`voc != 0`), the weighted sum is zero for every limiter value, and the cell body and the
host function write zeros to `dsoln` for that cell and equation. -/
theorem zero_difference_zero_gradient (B : Build K) (m : Libm K) (exd : exedata K)
    (icl : Int) (ieq : Nat)
    (hu : ∀ k : Nat, k < nsub exd icl → ∀ ivx : Int, 0 ≤ ivx → ivx < B.NDIM →
      udf B exd (clnfc B exd icl) (cndge B exd icl) icl (ig0 exd icl + k) ieq ivx = 0)
    (hdef : calcDefined B m exd icl ieq) :
    (∀ k : Nat, k < nsub exd icl → ∀ d : Int,
        gfd B exd (clnfc B exd icl) (cndge B exd icl) icl k ieq d = 0
        ∧ grdChecked B.dim3
            (dst B exd (clnfc B exd icl) (cndge B exd icl) icl (ig0 exd icl + k))
            (udf B exd (clnfc B exd icl) (cndge B exd icl) icl (ig0 exd icl + k) ieq) d
          = some 0)
    ∧ (∀ (w : Nat → K) (d : Int), accum (nsub exd icl) (fun k =>
        w k * gfd B exd (clnfc B exd icl) (cndge B exd icl) icl k ieq d) = 0)
    ∧ (∀ d : Int, calc_checked B m exd icl ieq d = some 0)
    ∧ (ieq < B.NEQ → ∀ d : Int, 0 ≤ d → d < B.NDIM →
        (calc_cell B m exd icl).dsoln (icl * B.NEQ * B.NDIM + ieq * B.NDIM + d) = 0
        ∧ (0 ≤ icl → icl < exd.ncell →
            (calc_dsoln_w3 B m exd).dsoln (icl * B.NEQ * B.NDIM + ieq * B.NDIM + d) = 0)) := by
  have hg : ∀ k : Nat, k < nsub exd icl → ∀ d : Int,
      gfd B exd (clnfc B exd icl) (cndge B exd icl) icl k ieq d = 0 := by
    intro k hk d
    unfold gfd
    exact grd_zero_of _ _ _ d (hu k hk)
  have hw : ∀ (w : Nat → K) (d : Int), accum (nsub exd icl) (fun k =>
      w k * gfd B exd (clnfc B exd icl) (cndge B exd icl) icl k ieq d) = 0 := by
    intro w d
    rw [accum_congr _ _ (fun _ => 0) (fun k hk => by simp only [hg k hk d, mul_zero]),
      accum_eq_sum]
    exact Finset.sum_const_zero
  have hv : ∀ d : Int, calc_val B m exd icl ieq d = 0 := fun d => by
    simp only [calc_val]
    exact hw _ d
  have hvoc : ∀ k : Nat, k < nsub exd icl →
      voc B.dim3 (dst B exd (clnfc B exd icl) (cndge B exd icl) icl (ig0 exd icl + k)) ≠ 0 := by
    obtain ⟨_, _, _, _, h, _⟩ := hdef
    exact h
  refine ⟨fun k hk d => ⟨hg k hk d, ?_⟩, hw,
    fun d => by simp only [calc_checked, if_pos hdef, hv], ?_⟩
  · rw [grdChecked_some _ _ _ _ (hvoc k hk)]
    exact congrArg some (hg k hk d)
  intro he d hd0 hd1
  refine ⟨?_, ?_⟩
  · rw [calc_cell_at B m exd icl ieq d he hd0 hd1, hv]
  · intro h0 h1
    rw [calc_dsoln_w3_at B m exd icl ieq d h0 h1 he hd0 hd1, hv]

/-! ### The many-core launch -/

/-- C24: many-core early exit.  A thread of `cuda_calc_dsoln_w3` or `cuda_calcs_dsoln_w3`
whose index `istart = blockDim*blockIdx + threadIdx` satisfies `istart >= ncell` returns the
state it was given: no field and no `dsoln` entry is changed. -/
theorem manycore_early_exit (B : Build K) (m : Libm K) (exd : exedata K)
    (blockDim blockIdx threadIdx : Int)
    (h : exd.ncell ≤ istart blockDim blockIdx threadIdx) :
    cuda_calc_dsoln_w3 B m exd (istart blockDim blockIdx threadIdx) = exd
    ∧ cuda_calcs_dsoln_w3 B m exd (istart blockDim blockIdx threadIdx) = exd
    ∧ (∀ j : Int,
        (cuda_calc_dsoln_w3 B m exd (istart blockDim blockIdx threadIdx)).dsoln j = exd.dsoln j
        ∧ (cuda_calcs_dsoln_w3 B m exd (istart blockDim blockIdx threadIdx)).dsoln j
          = exd.dsoln j) := by
  have h1 : cuda_calc_dsoln_w3 B m exd (istart blockDim blockIdx threadIdx) = exd := by
    unfold cuda_calc_dsoln_w3
    rw [if_neg (by omega)]
  have h2 : cuda_calcs_dsoln_w3 B m exd (istart blockDim blockIdx threadIdx) = exd := by
    unfold cuda_calcs_dsoln_w3
    rw [if_neg (by omega)]
  refine ⟨h1, h2, fun j => ?_⟩
  rw [h1, h2]
  exact ⟨rfl, rfl⟩

theorem wrapInt_id (x : Int) (h0 : -2147483648 ≤ x) (h1 : x ≤ 2147483647) : wrapInt x = x := by
  unfold wrapInt
  omega

theorem nblock_eq (ncell nthread : Int) (hc : 0 ≤ ncell) (ht : 1 ≤ nthread)
    (hov : ncell + nthread ≤ 2147483647) :
    nblock ncell nthread = (ncell - 1) / nthread + 1 := by
  unfold nblock
  rw [wrapInt_id _ (by omega) hov, wrapInt_id _ (by omega) (by omega),
    Int.tdiv_eq_ediv (by omega) (by omega)]
  have h : ncell + nthread - 1 = ncell - 1 + 1 * nthread := by ring
  rw [h, Int.add_mul_ediv_right _ _ (by omega)]

theorem divmod_unique (n a b r q : Int) (h0 : 0 ≤ r) (h1 : r < n) (h2 : 0 ≤ q) (h3 : q < n)
    (h : n * a + r = n * b + q) : a = b ∧ r = q := by
  have hN : n ≠ 0 := by omega
  have ha : (n * a + r) / n = a := by
    rw [add_comm, Int.add_mul_ediv_left _ _ hN, Int.ediv_eq_zero_of_lt h0 h1, zero_add]
  have hb : (n * b + q) / n = b := by
    rw [add_comm, Int.add_mul_ediv_left _ _ hN, Int.ediv_eq_zero_of_lt h2 h3, zero_add]
  have hab : a = b := by rw [← ha, ← hb, h]
  subst hab
  exact ⟨rfl, by omega⟩

/-- C25: the launch covers every cell.  For `ncell >= 0` and `nthread >= 1` with
`ncell + nthread <= INT_MAX` (no `int` overflow), the block count
`nblock = (ncell + nthread - 1) / nthread` satisfies `nblock*nthread >= ncell` and, when
`ncell > 0`, `(nblock - 1)*nthread < ncell`; every cell index in `[0, ncell)` is the thread
index `nthread*b + t` of exactly one pair with `0 <= b < nblock`, `0 <= t < nthread`; and
the launched threads that are out of range all lie in the last block, so there are
`nblock*nthread - ncell < nthread` of them. -/
theorem launch_covers_cells (ncell nthread : Int) (hc : 0 ≤ ncell) (ht : 1 ≤ nthread)
    (hov : ncell + nthread ≤ 2147483647) :
    nblock ncell nthread = (ncell + nthread - 1) / nthread
    ∧ 0 ≤ nblock ncell nthread
    ∧ ncell ≤ nblock ncell nthread * nthread
    ∧ (0 < ncell → (nblock ncell nthread - 1) * nthread < ncell)
    ∧ (∀ icl : Int, 0 ≤ icl → icl < ncell →
        ∃ b t : Int, (0 ≤ b ∧ b < nblock ncell nthread ∧ 0 ≤ t ∧ t < nthread
            ∧ icl = istart nthread b t)
          ∧ ∀ b2 t2 : Int, 0 ≤ b2 → b2 < nblock ncell nthread → 0 ≤ t2 → t2 < nthread →
              icl = istart nthread b2 t2 → b2 = b ∧ t2 = t)
    ∧ nblock ncell nthread * nthread - ncell < nthread
    ∧ (∀ b t : Int, 0 ≤ b → b < nblock ncell nthread → 0 ≤ t → t < nthread →
        ncell ≤ istart nthread b t →
          b = nblock ncell nthread - 1
          ∧ ncell - (nblock ncell nthread - 1) * nthread ≤ t) := by
  have hq := nblock_eq ncell nthread hc ht hov
  have hpos : 0 < nthread := by omega
  have hdm := Int.emod_add_ediv (ncell - 1) nthread
  have hr0 := Int.emod_nonneg (ncell - 1) (ne_of_gt hpos)
  have hr1 := Int.emod_lt_of_pos (ncell - 1) hpos
  have hmul : nblock ncell nthread * nthread
      = nthread * ((ncell - 1) / nthread) + nthread := by rw [hq]; ring
  have hlow : -1 ≤ (ncell - 1) / nthread := by
    have := Int.ediv_le_ediv hpos (by omega : (-1 : Int) * nthread ≤ ncell - 1)
    rwa [Int.mul_ediv_cancel _ (ne_of_gt hpos)] at this
  refine ⟨?_, ?_, ?_, ?_, ?_, ?_, ?_⟩
  · rw [hq]
    have h : ncell + nthread - 1 = ncell - 1 + 1 * nthread := by ring
    rw [h, Int.add_mul_ediv_right _ _ (ne_of_gt hpos)]
  · omega
  · omega
  · intro _
    have : (nblock ncell nthread - 1) * nthread = nthread * ((ncell - 1) / nthread) := by
      rw [hq]; ring
    omega
  · intro icl h0 h1
    have hdi := Int.emod_add_ediv icl nthread
    refine ⟨icl / nthread, icl % nthread,
      ⟨Int.ediv_nonneg h0 (by omega), ?_, Int.emod_nonneg _ (ne_of_gt hpos),
        Int.emod_lt_of_pos _ hpos, ?_⟩, ?_⟩
    · have := Int.ediv_le_ediv hpos (by omega : icl ≤ ncell - 1)
      omega
    · unfold istart; omega
    · intro b2 t2 hb0 _ ht0 ht1 he
      unfold istart at he
      have := divmod_unique nthread b2 (icl / nthread) t2 (icl % nthread) ht0 ht1
        (Int.emod_nonneg _ (ne_of_gt hpos)) (Int.emod_lt_of_pos _ hpos) (by omega)
      exact this
  · omega
  · intro b t hb0 hb1 ht0 ht1 hout
    unfold istart at hout
    have hb : b = nblock ncell nthread - 1 := by
      by_contra hne
      have hle : b + 1 ≤ (ncell - 1) / nthread := by omega
      have := Int.mul_le_mul_of_nonneg_left hle (le_of_lt hpos)
      have e : nthread * (b + 1) = nthread * b + nthread := by ring
      omega
    refine ⟨hb, ?_⟩
    have : (nblock ncell nthread - 1) * nthread = nthread * b := by rw [hb]; ring
    omega

end Lemmas

/-! ### The weights over the reals -/

theorem wgt_pos_real (B : Build ℝ) (exd : exedata ℝ) (nf : Int) (cg : Int → ℝ)
    (icl : Int) (ifg ieq : Nat) (heps : 0 < B.SOLVCON_ALMOST_ZERO) :
    0 < wgt B realLibm exd nf cg icl ifg ieq := by
  unfold wgt realLibm
  simp only
  apply one_div_pos.mpr
  apply Real.rpow_pos_of_pos
  apply Real.sqrt_pos.mpr
  have h0 := mul_self_nonneg (gfd B exd nf cg icl ifg ieq 0)
  have h1 := mul_self_nonneg (gfd B exd nf cg icl ifg ieq 1)
  have h2 := mul_self_nonneg (gfd B exd nf cg icl ifg ieq 2)
  split_ifs <;> linarith

theorem dla_pos_real (B : Build ℝ) (exd : exedata ℝ) (nf : Int) (cg : Int → ℝ)
    (icl : Int) (ieq : Nat) (heps : 0 < B.SOLVCON_ALMOST_ZERO) (hn : 0 < nsub exd icl) :
    0 < dla B realLibm exd nf cg icl ieq := by
  unfold dla
  rw [accum_eq_sum]
  apply Finset.sum_pos
  · intro i _
    exact wgt_pos_real B exd nf cg icl i ieq heps
  · exact Finset.nonempty_range_iff.mpr (by omega)

theorem exB_eps_pos : 0 < (exB ℝ).SOLVCON_ALMOST_ZERO := by
  norm_num [exB]

theorem exTri_nsub (st : ℝ) : nsub (exTri ℝ st) 0 = 3 := by
  rfl

theorem weights_sum_one_witness :
    accum (nsub (exTri ℝ 0) 0) (fun ifg => wfin (exB ℝ) realLibm (exTri ℝ 0) 0 ifg 0) = 1 :=
  (weights_sum_one (exB ℝ) realLibm (exTri ℝ 0) 0 0 (by decide) (by decide)
    (ne_of_gt (dla_pos_real _ _ _ _ 0 0 exB_eps_pos (by decide)))).2.2

theorem wgt_real_two (B : Build ℝ) (exd : exedata ℝ) (nf : Int) (cg : Int → ℝ)
    (icl : Int) (ifg ieq : Nat) (hd : B.dim3 = false) (ha : exd.alpha = 2)
    (heps : 0 ≤ B.SOLVCON_ALMOST_ZERO) :
    wgt B realLibm exd nf cg icl ifg ieq
      = 1 / (gfd B exd nf cg icl ifg ieq 0 * gfd B exd nf cg icl ifg ieq 0
          + gfd B exd nf cg icl ifg ieq 1 * gfd B exd nf cg icl ifg ieq 1
          + B.SOLVCON_ALMOST_ZERO) := by
  have h0 := mul_self_nonneg (gfd B exd nf cg icl ifg ieq 0)
  have h1 := mul_self_nonneg (gfd B exd nf cg icl ifg ieq 1)
  simp only [wgt, realLibm, hd, ha, Bool.false_eq_true, ↓reduceIte]
  rw [Real.rpow_two, Real.sq_sqrt (by linarith)]

theorem exTri_wgt :
    wgt (exB ℝ) realLibm (exTri ℝ 1) 3 (cndge (exB ℝ) (exTri ℝ 1) 0) 0 0 0
        = 1 / (8 / 25 + 1 / 10 ^ 200)
    ∧ wgt (exB ℝ) realLibm (exTri ℝ 1) 3 (cndge (exB ℝ) (exTri ℝ 1) 0) 0 1 0
        = 1 / (13 / 25 + 1 / 10 ^ 200)
    ∧ wgt (exB ℝ) realLibm (exTri ℝ 1) 3 (cndge (exB ℝ) (exTri ℝ 1) 0) 0 2 0
        = 1 / (17 / 25 + 1 / 10 ^ 200) := by
  obtain ⟨a0, a1, b0, b1, c0, c1⟩ := exTri_gfd (1 : ℝ)
  have he : (exB ℝ).SOLVCON_ALMOST_ZERO = 1 / 10 ^ 200 := rfl
  refine ⟨?_, ?_, ?_⟩ <;>
  · rw [wgt_real_two _ _ _ _ _ _ _ rfl rfl (by rw [he]; positivity)]
    simp only [a0, a1, b0, b1, c0, c1, he]
    norm_num

theorem exTri_calc_val :
    1 / 10 < calc_val (exB ℝ) realLibm (exTri ℝ 1) 0 0 0 := by
  obtain ⟨a0, a1, b0, b1, c0, c1⟩ := exTri_gfd (1 : ℝ)
  obtain ⟨w0, w1, w2⟩ := exTri_wgt
  have hn : nsub (exTri ℝ 1) 0 = 3 := rfl
  have hcl : clnfc (exB ℝ) (exTri ℝ 1) 0 = 3 := rfl
  have hofg : ofg1 (exTri ℝ 1) 0 = 1 / 3 := by
    simp only [ofg1, show ig1 (exTri ℝ 1) 0 - ig0 (exTri ℝ 1) 0 = 3 from rfl]; norm_num
  have hs : sgm0 (exTri ℝ 1) 0 = 3 := by simp [sgm0, exTri]
  have he : (exB ℝ).SOLVCON_ALMOST_ZERO = 1 / 10 ^ 200 := rfl
  simp only [calc_val, wfin, dlaSigma, sigmax, udfmax, udfmin, dlt, dla, hn, hcl, hofg, hs,
    accum_three, List.range_succ, List.range_zero, List.nil_append, List.cons_append,
    List.foldl_cons, List.foldl_nil, a0, c0, b0, w0, w1, w2, he]
  norm_num [max_def, min_def]

/-! ### Witnesses and counterexamples on the triangle `exTri` -/

theorem simplex_equivalence_witness :
    calc_cell (exB ℝ) realLibm (exTri ℝ 0) 0 = calcs_cell (exB ℝ) realLibm (exTri ℝ 0) 0
    ∧ calc_cell (exB3 ℝ) realLibm (exTet ℝ) 0 = calcs_cell (exB3 ℝ) realLibm (exTet ℝ) 0 :=
  ⟨(simplex_equivalence (exB ℝ) realLibm (exTri ℝ 0) 0 (Or.inl ⟨rfl, rfl⟩) rfl
      (by rw [exTri_vocge]; norm_num)).2.1,
    (simplex_equivalence (exB3 ℝ) realLibm (exTet ℝ) 0 (Or.inr ⟨rfl, rfl⟩) rfl
      (by rw [exTet_vocge]; norm_num)).2.1⟩

/-- C3 (counterexample): on the triangle `exTri` with `solt = [1, 0, 0, 0]` every cell holds
the same `soln`, `sol` and `solt` and `dsol` is zero, with `taylor = 1` and
`time_increment = 2`, yet both kernels write a non-zero first `dsoln` entry for cell 0. -/
theorem zero_gradient_counterexample :
    (∃ u0 s0 t0 : Nat → ℝ,
      (∀ (c : Int) (e : Nat), e < (exB ℝ).NEQ →
        (exTri ℝ 1).soln (c * (exB ℝ).NEQ + e) = u0 e)
      ∧ (∀ (c : Int) (e : Nat), e < (exB ℝ).NEQ →
        (exTri ℝ 1).sol (c * (exB ℝ).NEQ + e) = s0 e)
      ∧ (∀ (c : Int) (e : Nat), e < (exB ℝ).NEQ →
        (exTri ℝ 1).solt (c * (exB ℝ).NEQ + e) = t0 e)
      ∧ (∀ i, (exTri ℝ 1).dsol i = 0))
    ∧ (calc_dsoln_w3 (exB ℝ) realLibm (exTri ℝ 1)).dsoln 0 ≠ 0
    ∧ (calcs_dsoln_w3 (exB ℝ) realLibm (exTri ℝ 1) 0 1).dsoln 0 ≠ 0 := by
  have hv : calc_val (exB ℝ) realLibm (exTri ℝ 1) 0 0 0 ≠ 0 :=
    ne_of_gt (lt_trans (by norm_num) exTri_calc_val)
  have h1 := calc_dsoln_w3_at (exB ℝ) realLibm (exTri ℝ 1) 0 0 0 le_rfl (by decide)
    (by decide) le_rfl (by decide)
  have h2 := calcs_dsoln_w3_at (exB ℝ) realLibm (exTri ℝ 1) 0 1 0 0 0 le_rfl (by decide)
    (by decide) le_rfl (by decide)
  rw [← calc_val_eq_calcs_val (exB ℝ) realLibm (exTri ℝ 1) 0 (Or.inl ⟨rfl, rfl⟩) rfl
    (by rw [exTri_vocge]; norm_num)] at h2
  simp only [Nat.cast_zero, zero_mul, add_zero] at h1 h2
  refine ⟨⟨_, _, _, (exTri_uniform 1).1, (exTri_uniform 1).2.1, (exTri_uniform 1).2.2.1,
    (exTri_uniform 1).2.2.2⟩, ?_, ?_⟩
  · rw [h1]; exact hv
  · rw [h2]; exact hv

theorem weights_bounded_witness :
    0 ≤ wfin (exB ℝ) realLibm (exTri ℝ 0) 0 0 0 ∧ wfin (exB ℝ) realLibm (exTri ℝ 0) 0 0 0 ≤ 1 :=
  have h := weights_bounded (exB ℝ) realLibm (exTri ℝ 0) 0 0 0 exB_eps_pos
    (by norm_num [exTri]) (by norm_num [exTri])
    (dla_pos_real _ _ _ _ 0 0 exB_eps_pos (by decide)) (by decide)
  ⟨h.1, h.2.1⟩

theorem neighbour_selection_witness :
    jcl (exB ℚ) (exTri ℚ 0) 0 1 = 1
    ∧ jcl (exB ℚ) (exTri ℚ 0) (jcl (exB ℚ) (exTri ℚ 0) 0 1) 1 = 0 :=
  have h := neighbour_selection (exB ℚ) (exTri ℚ 0) 0 1 0 1 (by decide) (by decide)
    (Or.inl rfl)
  ⟨h.1 rfl, h.2.2.2⟩

/-! ### The smoothness weight -/

theorem wgt_real (B : Build ℝ) (exd : exedata ℝ) (nf : Int) (cg : Int → ℝ) (icl : Int)
    (ifg ieq : Nat) :
    wgt B realLibm exd nf cg icl ifg ieq
      = 1 / (Real.sqrt (gradSq B (gfd B exd nf cg icl ifg ieq) + B.SOLVCON_ALMOST_ZERO))
          ^ exd.alpha := by
  unfold wgt gradSq realLibm
  cases B.dim3 <;> simp

/-- C14 (amended): for every sub-element and equation, the weight stored in `dlt` before
normalisation equals `1 / (sqrt(||grad||^2 + eps))^alpha`, where `||grad||` is the
Euclidean norm of the sub-element gradient, `eps = SOLVCON_ALMOST_ZERO` and
`alpha = exd->alpha`: the small constant is added to the squared norm, inside the square
root.  The normalised deviation is this weight over the sum of the weights, minus the
base. -/
theorem smoothness_weight (B : Build ℝ) (exd : exedata ℝ) (nf : Int) (cg : Int → ℝ)
    (icl : Int) (ifg ieq : Nat) :
    wgt B realLibm exd nf cg icl ifg ieq
      = 1 / (Real.sqrt ((Real.sqrt (gradSq B (gfd B exd nf cg icl ifg ieq))) ^ 2
          + B.SOLVCON_ALMOST_ZERO)) ^ exd.alpha
    ∧ 0 ≤ gradSq B (gfd B exd nf cg icl ifg ieq)
    ∧ dla B realLibm exd nf cg icl ieq
        = accum (nsub exd icl) (fun k => wgt B realLibm exd nf cg icl k ieq)
    ∧ ∀ base : ℝ, dlt B realLibm exd nf cg base icl ifg ieq
        = wgt B realLibm exd nf cg icl ifg ieq / dla B realLibm exd nf cg icl ieq - base := by
  have h0 : 0 ≤ gradSq B (gfd B exd nf cg icl ifg ieq) := by
    unfold gradSq
    have a0 := mul_self_nonneg (gfd B exd nf cg icl ifg ieq 0)
    have a1 := mul_self_nonneg (gfd B exd nf cg icl ifg ieq 1)
    have a2 := mul_self_nonneg (gfd B exd nf cg icl ifg ieq 2)
    split_ifs <;> linarith
  refine ⟨?_, h0, rfl, fun _ => rfl⟩
  rw [Real.sq_sqrt h0]
  exact wgt_real B exd nf cg icl ifg ieq

/-- C14 (counterexample): on the triangle `exTri` with the uniform steady state the
gradient of sub-element 0 is zero, the stored weight is `1/(sqrt(0 + eps))^2 = 10^200`,
while `1/(||grad|| + eps)^alpha` is `10^400`. -/
theorem smoothness_weight_counterexample :
    (exB ℝ).SOLVCON_ALMOST_ZERO = 1 / 10 ^ 200 ∧ (exTri ℝ 0).alpha = 2
    ∧ gradSq (exB ℝ) (gfd (exB ℝ) (exTri ℝ 0) 3 (cndge (exB ℝ) (exTri ℝ 0) 0) 0 0 0) = 0
    ∧ wgt (exB ℝ) realLibm (exTri ℝ 0) 3 (cndge (exB ℝ) (exTri ℝ 0) 0) 0 0 0 = 10 ^ 200
    ∧ 1 / (Real.sqrt (gradSq (exB ℝ)
          (gfd (exB ℝ) (exTri ℝ 0) 3 (cndge (exB ℝ) (exTri ℝ 0) 0) 0 0 0))
        + (exB ℝ).SOLVCON_ALMOST_ZERO) ^ (exTri ℝ 0).alpha = 10 ^ 400
    ∧ wgt (exB ℝ) realLibm (exTri ℝ 0) 3 (cndge (exB ℝ) (exTri ℝ 0) 0) 0 0 0
      ≠ 1 / (Real.sqrt (gradSq (exB ℝ)
          (gfd (exB ℝ) (exTri ℝ 0) 3 (cndge (exB ℝ) (exTri ℝ 0) 0) 0 0 0))
        + (exB ℝ).SOLVCON_ALMOST_ZERO) ^ (exTri ℝ 0).alpha := by
  obtain ⟨a0, a1, _, _, _, _⟩ := exTri_gfd (0 : ℝ)
  have he : (exB ℝ).SOLVCON_ALMOST_ZERO = 1 / 10 ^ 200 := rfl
  have ha : (exTri ℝ 0).alpha = 2 := rfl
  have hg : gradSq (exB ℝ) (gfd (exB ℝ) (exTri ℝ 0) 3 (cndge (exB ℝ) (exTri ℝ 0) 0) 0 0 0)
      = 0 := by
    simp only [gradSq, show (exB ℝ).dim3 = false from rfl, a0, a1]
    norm_num
  have hw : wgt (exB ℝ) realLibm (exTri ℝ 0) 3 (cndge (exB ℝ) (exTri ℝ 0) 0) 0 0 0
      = 10 ^ 200 := by
    rw [wgt_real_two _ _ _ _ _ _ _ rfl rfl (by rw [he]; positivity), a0, a1, he]
    norm_num
  have hc : (1 : ℝ) / (Real.sqrt (gradSq (exB ℝ)
          (gfd (exB ℝ) (exTri ℝ 0) 3 (cndge (exB ℝ) (exTri ℝ 0) 0) 0 0 0))
        + (exB ℝ).SOLVCON_ALMOST_ZERO) ^ (exTri ℝ 0).alpha = 10 ^ 400 := by
    rw [hg, Real.sqrt_zero, ha, he, Real.rpow_two]
    norm_num
  refine ⟨he, ha, hg, hw, hc, ?_⟩
  rw [hw, hc]
  norm_num

/-! ### Further witnesses and counterexamples -/

theorem deviations_sum_zero_witness :
    accum (nsub (exTri ℝ 0) 0) (fun ifg =>
      dlt (exB ℝ) realLibm (exTri ℝ 0) (clnfc (exB ℝ) (exTri ℝ 0) 0)
        (cndge (exB ℝ) (exTri ℝ 0) 0) (ofg1 (exTri ℝ 0) 0) 0 ifg 0) = 0 :=
  (deviations_sum_zero (exB ℝ) realLibm (exTri ℝ 0) 0 0 (by decide)
    (ne_of_gt (dla_pos_real _ _ _ _ 0 0 exB_eps_pos (by decide)))
    (ne_of_gt (dla_pos_real _ _ _ _ 0 0 exB_eps_pos (by decide)))).1

theorem simplex_subelement_count_witness :
    nsub (exTri ℝ 0) 0 = 3 ∧ nsub (exTet ℝ) 0 = 4 :=
  ⟨(simplex_subelement_count (exB ℝ) realLibm (exTri ℝ 0) 0 (Or.inl ⟨rfl, rfl⟩)).2.2.1,
    (simplex_subelement_count (exB3 ℝ) realLibm (exTet ℝ) 0 (Or.inr ⟨rfl, rfl⟩)).2.2.1⟩

/-- C15 (counterexample): the triangle `exTri` (type 3 in the two-dimensional build) has
three sub-elements, not one, and its three stored gradient estimates of equation 0 are
different vectors. -/
theorem simplex_subelement_counterexample :
    (exB ℚ).dim3 = false ∧ (exTri ℚ 1).cltpn 0 = 3
    ∧ ig1 (exTri ℚ 1) 0 - ig0 (exTri ℚ 1) 0 = 3 ∧ nsub (exTri ℚ 1) 0 = 3
    ∧ ig1 (exTri ℚ 1) 0 - ig0 (exTri ℚ 1) 0 ≠ 1
    ∧ gfd (exB ℚ) (exTri ℚ 1) (CLNFC (exB ℚ)) (cndges (exB ℚ) (exTri ℚ 1) 0) 0 0 0 0 = 2 / 5
    ∧ gfd (exB ℚ) (exTri ℚ 1) (CLNFC (exB ℚ)) (cndges (exB ℚ) (exTri ℚ 1) 0) 0 1 0 0 = -3 / 5
    ∧ gfd (exB ℚ) (exTri ℚ 1) (CLNFC (exB ℚ)) (cndges (exB ℚ) (exTri ℚ 1) 0) 0 2 0 0
        = 1 / 5 := by
  have hcg : cndge (exB ℚ) (exTri ℚ 1) 0 = cndges (exB ℚ) (exTri ℚ 1) 0 :=
    cndge_eq_cndges_2d (exB ℚ) (exTri ℚ 1) 0 rfl rfl rfl (by rw [exTri_vocge]; norm_num)
  obtain ⟨a0, _, b0, _, c0, _⟩ := exTri_gfd (1 : ℚ)
  rw [hcg] at a0 b0 c0
  have hC : CLNFC (exB ℚ) = 3 := rfl
  rw [hC]
  refine ⟨rfl, rfl, by decide, by decide, by decide, ?_, ?_, ?_⟩
  · rw [a0]; norm_num
  · rw [b0]; norm_num
  · rw [c0]; norm_num

theorem tau_interpolation_witness :
    (dualPoints (exB ℚ) (exTri ℚ 0) 3 0 (fun _ _ => 0, fun _ _ => 0)).1 0 0
      = xps (exB ℚ) (exTri ℚ 0) 3 0 0 0 :=
  (tau_interpolation (exB ℚ) (exTri ℚ 0) 3 0 0 0 (fun _ _ => 0, fun _ _ => 0) le_rfl
    (by decide) le_rfl (by decide)).2.1

/-- C16 (counterexample): on the triangle `exTri` the first face of cell 0 has `tau = 1`,
neighbour centroid `3` and `shift = 3/2` in component 0; the vertex written is `3`, the
neighbour centroid, while `c_nbr + tau*(shift - c_nbr)` is `3/2`. -/
theorem tau_interpolation_counterexample :
    tau (exTri ℚ 0) 0 = 1
    ∧ (exTri ℚ 0).cecnd (jclOf (exB ℚ) (exTri ℚ 0) 0 1 * ((exB ℚ).CLMFC + 1) * (exB ℚ).NDIM + 0)
        = 3
    ∧ sftfc (exB ℚ) (exTri ℚ 0) 0 0 0 = 3 / 2
    ∧ (dualPoints (exB ℚ) (exTri ℚ 0) (clnfc (exB ℚ) (exTri ℚ 0) 0) 0
        (fun _ _ => 0, fun _ _ => 0)).1 0 0 = 3
    ∧ (dualPoints (exB ℚ) (exTri ℚ 0) (clnfc (exB ℚ) (exTri ℚ 0) 0) 0
        (fun _ _ => 0, fun _ _ => 0)).1 0 0
      ≠ (exTri ℚ 0).cecnd
          (jclOf (exB ℚ) (exTri ℚ 0) 0 1 * ((exB ℚ).CLMFC + 1) * (exB ℚ).NDIM + 0)
        + tau (exTri ℚ 0) 0 * (sftfc (exB ℚ) (exTri ℚ 0) 0 0 0
          - (exTri ℚ 0).cecnd
              (jclOf (exB ℚ) (exTri ℚ 0) 0 1 * ((exB ℚ).CLMFC + 1) * (exB ℚ).NDIM + 0)) := by
  have ht : tau (exTri ℚ 0) 0 = 1 := by norm_num [tau, exTri]
  have hc : (exTri ℚ 0).cecnd
      (jclOf (exB ℚ) (exTri ℚ 0) 0 1 * ((exB ℚ).CLMFC + 1) * (exB ℚ).NDIM + 0) = 3 := by
    norm_num [jclOf, jcl, exTri, exB, Build.NDIM]
  have hs : sftfc (exB ℚ) (exTri ℚ 0) 0 0 0 = 3 / 2 := by
    norm_num [sftfc, jclOf, jcl, exTri, exB, Build.NDIM]
  have hx : (dualPoints (exB ℚ) (exTri ℚ 0) (clnfc (exB ℚ) (exTri ℚ 0) 0) 0
        (fun _ _ => 0, fun _ _ => 0)).1 0 0 = 3 := by
    rw [(dualPoints_xps (exB ℚ) (exTri ℚ 0) _ 0 0 0 _ le_rfl (by decide)).1,
      if_pos (by decide), exTri_clnfc, (exTri_xps (0 : ℚ)).1]
  refine ⟨ht, hc, hs, hx, ?_⟩
  rw [hx, hc, hs, ht]
  norm_num

theorem gge_centroid_simplex_witness :
    cndge (exB ℝ) (exTri ℝ 0) 0 0 = cndges (exB ℝ) (exTri ℝ 0) 0 0
    ∧ cndge (exB3 ℝ) (exTet ℝ) 0 0 = cndges (exB3 ℝ) (exTet ℝ) 0 0 :=
  ⟨((gge_centroid_simplex (exB ℝ) (exTri ℝ 0) 0 (Or.inl ⟨rfl, rfl⟩) rfl
      (by rw [exTri_vocge]; norm_num)) 0).2.1,
    ((gge_centroid_simplex (exB3 ℝ) (exTet ℝ) 0 (Or.inr ⟨rfl, rfl⟩) rfl
      (by rw [exTet_vocge]; norm_num)) 0).2.1⟩


/-! ### The affine field `exAff` -/

theorem exTri_udf_zero (k : Nat) (_ : k < nsub (exTri ℝ 0) 0) (ivx : Int) (_ : 0 ≤ ivx)
    (_ : ivx < (exB ℝ).NDIM) :
    udf (exB ℝ) (exTri ℝ 0) (clnfc (exB ℝ) (exTri ℝ 0) 0) (cndge (exB ℝ) (exTri ℝ 0) 0) 0
      (ig0 (exTri ℝ 0) 0 + k) 0 ivx = 0 :=
  udf_zero_local (exB ℝ) (exTri ℝ 0) _ _ 0 _ 0 ivx (by simp [exTri, exB])
    (fun _ _ _ => rfl) (Or.inr (by simp [exTri, exB]))

theorem manycore_early_exit_witness :
    (exTri ℝ 0).ncell ≤ istart 4 0 1
    ∧ cuda_calc_dsoln_w3 (exB ℝ) realLibm (exTri ℝ 0) (istart 4 0 1) = exTri ℝ 0 :=
  ⟨by decide, (manycore_early_exit (exB ℝ) realLibm (exTri ℝ 0) 4 0 1 (by decide)).1⟩

theorem launch_covers_cells_witness :
    nblock 10 4 = 3 ∧ (10 : Int) ≤ nblock 10 4 * 4 ∧ nblock 10 4 * 4 - 10 < 4 := by
  have h := launch_covers_cells 10 4 (by decide) (by decide) (by decide)
  exact ⟨by rw [h.1]; decide, h.2.2.1, h.2.2.2.2.2.1⟩

/-! ### Zero divisors and weights outside the range of the doubles -/

theorem wgtDen_real_two (B : Build ℝ) (exd : exedata ℝ) (nf : Int) (cg : Int → ℝ)
    (icl : Int) (ifg ieq : Nat) (hd : B.dim3 = false) (ha : exd.alpha = 2)
    (heps : 0 ≤ B.SOLVCON_ALMOST_ZERO) :
    wgtDen B realLibm exd nf cg icl ifg ieq
      = gfd B exd nf cg icl ifg ieq 0 * gfd B exd nf cg icl ifg ieq 0
          + gfd B exd nf cg icl ifg ieq 1 * gfd B exd nf cg icl ifg ieq 1
          + B.SOLVCON_ALMOST_ZERO := by
  have h0 := mul_self_nonneg (gfd B exd nf cg icl ifg ieq 0)
  have h1 := mul_self_nonneg (gfd B exd nf cg icl ifg ieq 1)
  simp only [wgtDen, realLibm, hd, ha, Bool.false_eq_true, ↓reduceIte]
  rw [Real.rpow_two, Real.sq_sqrt (by linarith)]

theorem exTri_voc (st : ℝ) (k : Nat) (hk : k < 3) :
    voc (exB ℝ).dim3 (dst (exB ℝ) (exTri ℝ st) 3
      (cndge (exB ℝ) (exTri ℝ st) 0) 0 (ig0 (exTri ℝ st) 0 + k)) ≠ 0 := by
  obtain ⟨h00, h01, h10, h11, h20, h21⟩ := exTri_xps st
  obtain ⟨c0, c1⟩ := exTri_cndge st
  have hd : (exB ℝ).dim3 = false := rfl
  rw [show ig0 (exTri ℝ st) 0 = 4 from rfl]
  interval_cases k <;>
  · simp only [voc, dst, hd, c0, c1, Nat.cast_zero, Nat.cast_one, Nat.cast_ofNat, add_zero,
      Int.reduceAdd, show ggefcs 4 0 = 1 from rfl, show ggefcs 4 1 = 2 from rfl,
      show ggefcs 5 0 = 2 from rfl, show ggefcs 5 1 = 3 from rfl, show ggefcs 6 0 = 3 from rfl,
      show ggefcs 6 1 = 1 from rfl, Bool.false_eq_true, ↓reduceIte, Int.reduceSub, h00, h01,
      h10, h11, h20, h21]
    norm_num

theorem inRange_sq_add (x y : ℝ) (hx : |x| ≤ 1) (hy : |y| ≤ 1) :
    x * x + y * y + 1 / 10 ^ 200 ≤ DBL_MAX ℝ
    ∧ 1 / DBL_MAX ℝ ≤ x * x + y * y + 1 / 10 ^ 200
    ∧ x * x + y * y + 1 / 10 ^ 200 ≤ DBL_MAX ℝ := by
  have hD := (DBL_MAX_bounds (K := ℝ)).1
  have hten : (2 : ℝ) ≤ 10 ^ 200 := by norm_num
  have hlo : (1 : ℝ) / DBL_MAX ℝ ≤ 1 / 10 ^ 200 :=
    one_div_le_one_div_of_le (by positivity) hD
  have hε : (1 : ℝ) / 10 ^ 200 ≤ 1 := by
    rw [div_le_one (by positivity)]; linarith
  have hxx : x * x ≤ 1 := by
    have := abs_le.mp hx
    nlinarith
  have hyy : y * y ≤ 1 := by
    have := abs_le.mp hy
    nlinarith
  have hx0 := mul_self_nonneg x
  have hy0 := mul_self_nonneg y
  have hup : x * x + y * y + 1 / 10 ^ 200 ≤ DBL_MAX ℝ := by
    have h3 : (3 : ℝ) ≤ 10 ^ 200 := by norm_num
    linarith
  exact ⟨hup, by linarith, hup⟩

theorem exTri_wgtFinite (st : ℝ) (h0 : 0 ≤ st) (h1 : st ≤ 1) (k : Nat) (hk : k < 3) :
    wgtFinite (exB ℝ) realLibm (exTri ℝ st) 3 (cndge (exB ℝ) (exTri ℝ st) 0) 0 k 0 := by
  obtain ⟨a0, a1, b0, b1, c0, c1⟩ := exTri_gfd st
  have he : (exB ℝ).SOLVCON_ALMOST_ZERO = 1 / 10 ^ 200 := rfl
  have hd : (exB ℝ).dim3 = false := rfl
  unfold wgtFinite inRange
  rw [wgtDen_real_two _ _ _ _ _ _ _ rfl rfl (by rw [he]; positivity)]
  simp only [gradSq, hd, Bool.false_eq_true, ↓reduceIte]
  interval_cases k <;>
  · simp only [Nat.cast_zero, Nat.cast_one, Nat.cast_ofNat, a0, a1, b0, b1, c0, c1, he]
    apply inRange_sq_add <;> rw [abs_le] <;> constructor <;> linarith

theorem exTri_divisors (st : ℝ) (h0 : 0 ≤ st) (h1 : st ≤ 1) (base : ℝ) :
    divisorsDefined (exB ℝ) realLibm (exTri ℝ st) 3 (cndge (exB ℝ) (exTri ℝ st) 0)
      base 0 0 := by
  have hn : nsub (exTri ℝ st) 0 = 3 := rfl
  have hmax := (foldl_max_spec (fun k => dlt (exB ℝ) realLibm (exTri ℝ st) 3
    (cndge (exB ℝ) (exTri ℝ st) 0) base 0 k 0) (nsub (exTri ℝ st) 0)).1
  have hmin := (foldl_min_spec (fun k => dlt (exB ℝ) realLibm (exTri ℝ st) 3
    (cndge (exB ℝ) (exTri ℝ st) 0) base 0 k 0) (nsub (exTri ℝ st) 0)).1
  have heps := exB_eps_pos
  refine ⟨?_, ?_, ?_, ?_, ?_, ?_⟩
  · show (1 : ℝ) ≠ 0
    exact one_ne_zero
  · intro k hk
    rw [hn] at hk
    exact exTri_voc st k hk
  · intro k hk
    rw [hn] at hk
    exact exTri_wgtFinite st h0 h1 k hk
  · exact ne_of_gt (dla_pos_real _ _ _ _ 0 0 exB_eps_pos (by rw [hn]; norm_num))
  · unfold udfmax
    linarith
  · unfold udfmin
    linarith

theorem exTri_calcDefined (st : ℝ) (h0 : 0 ≤ st) (h1 : st ≤ 1) :
    calcDefined (exB ℝ) realLibm (exTri ℝ st) 0 0
    ∧ calcsDefined (exB ℝ) realLibm (exTri ℝ st) 0 0 := by
  have hv : vocge (exB ℝ) (exTri ℝ st) 0 ≠ 0 := by rw [exTri_vocge]; norm_num
  have hc := cndge_eq_cndges_2d (exB ℝ) (exTri ℝ st) 0 rfl rfl rfl hv
  have hig : ig1 (exTri ℝ st) 0 - ig0 (exTri ℝ st) 0 = 3 := rfl
  constructor
  · refine ⟨by rw [hig]; decide, by rw [exTri_clnfc]; decide, hv, ?_⟩
    rw [exTri_clnfc]
    exact exTri_divisors st h0 h1 _
  · unfold calcsDefined
    rw [← hc, show CLNFC (exB ℝ) = 3 from rfl]
    exact exTri_divisors st h0 h1 _

/-- C22 (amended): normalisation is well defined when the weights are finite.  In exact real
arithmetic with `SOLVCON_ALMOST_ZERO > 0` the weight `1 / (sqrt(|grad|^2 + eps))^alpha` is
strictly positive for every gradient and every exponent `alpha`.  In either kernel, for
any `sqrt` and `pow`, if every sub-element of the cell has `voc != 0` (its gradient is a
quotient by a non-zero number) and the argument of `sqrt` and the value of
`pow(sqrt(|grad|^2 + eps), alpha)` are within the range of the doubles (`wgtFinite`),
then every weight is a finite strictly positive number, the sum `dla[ieq]` is strictly
positive for a cell with at least one sub-element, and `dlt / dla` does not divide by
zero; the limiter denominators `udf[ieq][0] + eps` and `udf[ieq][1] - eps` are strictly
positive and strictly negative. -/
theorem normalisation_well_defined (B : Build ℝ) (m : Libm ℝ) (exd : exedata ℝ) (nf : Int)
    (cg : Int → ℝ) (base : ℝ) (icl : Int) (ieq : Nat) (heps : 0 < B.SOLVCON_ALMOST_ZERO)
    (hvoc : ∀ ifg : Nat, ifg < nsub exd icl →
      voc B.dim3 (dst B exd nf cg icl (ig0 exd icl + ifg)) ≠ 0)
    (hw : ∀ ifg : Nat, ifg < nsub exd icl → wgtFinite B m exd nf cg icl ifg ieq) :
    (∀ g0 g1 g2 alpha : ℝ,
        0 < 1 / (Real.sqrt (g0 * g0 + g1 * g1 + g2 * g2 + B.SOLVCON_ALMOST_ZERO)) ^ alpha)
    ∧ (∀ ifg : Nat, ifg < nsub exd icl → ∀ d : Int,
        grdChecked B.dim3 (dst B exd nf cg icl (ig0 exd icl + ifg))
            (udf B exd nf cg icl (ig0 exd icl + ifg) ieq) d
          = some (gfd B exd nf cg icl ifg ieq d))
    ∧ (∀ ifg : Nat, ifg < nsub exd icl →
        wgtChecked B m exd nf cg icl ifg ieq = some (wgt B m exd nf cg icl ifg ieq)
        ∧ 0 < wgt B m exd nf cg icl ifg ieq)
    ∧ (0 < nsub exd icl → 0 < dla B m exd nf cg icl ieq)
    ∧ (0 < nsub exd icl → ∀ ifg : Nat,
        dla B m exd nf cg icl ieq ≠ 0
        ∧ dlt B m exd nf cg base icl ifg ieq
          = wgt B m exd nf cg icl ifg ieq / dla B m exd nf cg icl ieq - base)
    ∧ 0 < udfmax B m exd nf cg base icl ieq + B.SOLVCON_ALMOST_ZERO
    ∧ udfmin B m exd nf cg base icl ieq - B.SOLVCON_ALMOST_ZERO < 0
    ∧ sigmax B m exd nf cg base icl ieq
        = min ((1 - base) / (udfmax B m exd nf cg base icl ieq + B.SOLVCON_ALMOST_ZERO))
            (-base / (udfmin B m exd nf cg base icl ieq - B.SOLVCON_ALMOST_ZERO)) := by
  have hmax := (foldl_max_spec (fun k => dlt B m exd nf cg base icl k ieq)
    (nsub exd icl)).1
  have hmin := (foldl_min_spec (fun k => dlt B m exd nf cg base icl k ieq)
    (nsub exd icl)).1
  refine ⟨?_, fun ifg hi d => grdChecked_some _ _ _ d (hvoc ifg hi),
    fun ifg hi => ⟨(wgt_of_finite B m exd nf cg icl ifg ieq (hw ifg hi)).1,
      (wgt_of_finite B m exd nf cg icl ifg ieq (hw ifg hi)).2.1⟩,
    fun hn => dla_pos_of_finite B m exd nf cg icl ieq hw hn,
    fun hn ifg => ⟨ne_of_gt (dla_pos_of_finite B m exd nf cg icl ieq hw hn), rfl⟩, ?_, ?_, rfl⟩
  · intro g0 g1 g2 alpha
    have h0 := mul_self_nonneg g0
    have h1 := mul_self_nonneg g1
    have h2 := mul_self_nonneg g2
    exact one_div_pos.mpr (Real.rpow_pos_of_pos (Real.sqrt_pos.mpr (by linarith)) _)
  · unfold udfmax
    linarith
  · unfold udfmin
    linarith

theorem cfl_ceiling_witness :
    (exTri ℝ 0).cfl 0 ≠ 0
    ∧ sgm0Checked (exTri ℝ 0) 0 = some 3
    ∧ dlaSigma (exB ℝ) realLibm (exTri ℝ 0) 0 0 ≤ 3 := by
  have hc : (exTri ℝ 0).cfl 0 ≠ 0 := by
    show (1 : ℝ) ≠ 0
    exact one_ne_zero
  have h := cfl_ceiling (exB ℝ) realLibm (exTri ℝ 0) 0 0 0 hc
  have e : (exTri ℝ 0).sigma0 / |(exTri ℝ 0).cfl 0| = 3 := by
    show (3 : ℝ) / |(1 : ℝ)| = 3
    norm_num
  rw [e] at h
  exact ⟨hc, h.1, h.2.1⟩

/-- C5 (counterexample): on the triangle `exZero`, where `cfl = 0` and `sigma0 = 0`, the
quotient `sigma0 / fabs(cfl[icl])` is `0.0/0.0`: the ceiling is not a number, and the
limiter `dla[ieq]` of cell 0 is not less than or equal to it, whatever its value. -/
theorem cfl_ceiling_counterexample :
    (exZero ℝ).sigma0 = 0 ∧ |(exZero ℝ).cfl 0| = 0
    ∧ sgm0Checked (exZero ℝ) 0 = none
    ∧ ¬ ∃ s : ℝ, sgm0Checked (exZero ℝ) 0 = some s
        ∧ dlaSigma (exB ℝ) realLibm (exZero ℝ) 0 0 ≤ s := by
  have h0 : |(exZero ℝ).cfl 0| = 0 := by
    show |(0 : ℝ)| = 0
    exact abs_zero
  have hn : sgm0Checked (exZero ℝ) 0 = none := by
    simp only [sgm0Checked, divChecked, h0, if_true]
  refine ⟨rfl, h0, hn, ?_⟩
  rintro ⟨s, hs, _⟩
  rw [hn] at hs
  exact Option.noConfusion hs

theorem zero_gradient_invariance_witness :
    calcDefined (exB ℝ) realLibm (exTri ℝ 0) 0 0
    ∧ calcsDefined (exB ℝ) realLibm (exTri ℝ 0) 0 0
    ∧ (calc_dsoln_w3 (exB ℝ) realLibm (exTri ℝ 0)).dsoln 0 = 0
    ∧ (calcs_dsoln_w3 (exB ℝ) realLibm (exTri ℝ 0) 0 1).dsoln 0 = 0 := by
  have hdef := exTri_calcDefined 0 le_rfl zero_le_one
  have h := zero_gradient_invariance (exB ℝ) realLibm (exTri ℝ 0) _ _ _
    (exTri_uniform 0).1 (exTri_uniform 0).2.1 (exTri_uniform 0).2.2.1 (exTri_uniform 0).2.2.2
    (fun e _ => by simp [exTri]) 0 0 0 (by decide) le_rfl (by decide)
  have h1 := (h.1 hdef.1).2 le_rfl (by decide)
  have h2 := (h.2 hdef.2).2 0 1 le_rfl (by decide)
  simp only [Nat.cast_zero, zero_mul, add_zero] at h1 h2
  exact ⟨hdef.1, hdef.2, h1, h2⟩

theorem zero_difference_zero_gradient_witness :
    calcDefined (exB ℝ) realLibm (exTri ℝ 0) 0 0
    ∧ calc_checked (exB ℝ) realLibm (exTri ℝ 0) 0 0 0 = some 0
    ∧ (calc_dsoln_w3 (exB ℝ) realLibm (exTri ℝ 0)).dsoln 0 = 0
    ∧ (calc_dsoln_w3 (exB ℝ) realLibm (exTri ℝ 0)).dsoln 1 = 0 := by
  have hdef := (exTri_calcDefined 0 le_rfl zero_le_one).1
  have h := zero_difference_zero_gradient (exB ℝ) realLibm (exTri ℝ 0) 0 0
    exTri_udf_zero hdef
  have h3 := h.2.2.2 (by decide)
  exact ⟨hdef, h.2.2.1 0, ((h3 0 le_rfl (by decide)).2 le_rfl (by decide)),
    ((h3 1 (by decide) (by decide)).2 le_rfl (by decide))⟩

theorem normalisation_well_defined_witness :
    0 < (exB ℝ).SOLVCON_ALMOST_ZERO
    ∧ (∀ ifg : Nat, ifg < nsub (exTri ℝ 1) 0 →
        wgtFinite (exB ℝ) realLibm (exTri ℝ 1) 3 (cndge (exB ℝ) (exTri ℝ 1) 0) 0 ifg 0)
    ∧ 0 < dla (exB ℝ) realLibm (exTri ℝ 1) 3 (cndge (exB ℝ) (exTri ℝ 1) 0) 0 0 :=
  have hw : ∀ ifg : Nat, ifg < nsub (exTri ℝ 1) 0 →
      wgtFinite (exB ℝ) realLibm (exTri ℝ 1) 3 (cndge (exB ℝ) (exTri ℝ 1) 0) 0 ifg 0 :=
    fun ifg hi => exTri_wgtFinite 1 zero_le_one le_rfl ifg hi
  ⟨exB_eps_pos, hw, (normalisation_well_defined (exB ℝ) realLibm (exTri ℝ 1) 3
    (cndge (exB ℝ) (exTri ℝ 1) 0) (1 / 3) 0 0 exB_eps_pos
    (fun ifg hi => exTri_voc 1 ifg hi) hw).2.2.2.1 (by decide)⟩

/-! ### The exponent `alpha` outside the range of the doubles -/

theorem exAlpha_udf_zero (a : ℝ) (nf : Int) (cg : Int → ℝ) (ig ivx : Int) :
    udf (exB ℝ) (exAlpha ℝ a) nf cg 0 ig 0 ivx = 0 :=
  udf_zero_local (exB ℝ) (exAlpha ℝ a) _ _ 0 _ 0 ivx (by simp [exAlpha, exTri, exB])
    (fun _ _ _ => rfl) (Or.inr (by simp [exAlpha, exTri, exB]))

theorem exAlpha_wgtDen (a : ℝ) (nf : Int) (cg : Int → ℝ) (k : Nat) :
    gradSq (exB ℝ) (gfd (exB ℝ) (exAlpha ℝ a) nf cg 0 k 0) = 0
    ∧ wgtDen (exB ℝ) realLibm (exAlpha ℝ a) nf cg 0 k 0 = (1 / 10 ^ 100 : ℝ) ^ a := by
  have hg : ∀ d : Int, gfd (exB ℝ) (exAlpha ℝ a) nf cg 0 k 0 d = 0 := by
    intro d
    unfold gfd
    exact grd_zero_of _ _ _ d (fun ivx _ _ => exAlpha_udf_zero a nf cg _ ivx)
  have hd : (exB ℝ).dim3 = false := rfl
  have he : (exB ℝ).SOLVCON_ALMOST_ZERO = 1 / 10 ^ 200 := rfl
  have ha : (exAlpha ℝ a).alpha = a := rfl
  have hs : Real.sqrt (1 / 10 ^ 200) = 1 / 10 ^ 100 := by
    rw [show (1 : ℝ) / 10 ^ 200 = (1 / 10 ^ 100) ^ 2 by norm_num]
    exact Real.sqrt_sq (by positivity)
  constructor
  · simp only [gradSq, hd, hg, Bool.false_eq_true, ↓reduceIte, mul_zero, add_zero]
  · simp only [wgtDen, realLibm, hd, hg, he, ha, Bool.false_eq_true, ↓reduceIte, mul_zero,
      zero_add, hs]

theorem exAlpha_underflow (nf : Int) (cg : Int → ℝ) (k : Nat) :
    wgtDen (exB ℝ) realLibm (exAlpha ℝ 4) nf cg 0 k 0 = 1 / 10 ^ 400
    ∧ ¬ wgtFinite (exB ℝ) realLibm (exAlpha ℝ 4) nf cg 0 k 0 := by
  have hv : wgtDen (exB ℝ) realLibm (exAlpha ℝ 4) nf cg 0 k 0 = 1 / 10 ^ 400 := by
    rw [(exAlpha_wgtDen 4 nf cg k).2, show (4 : ℝ) = ((4 : Nat) : ℝ) by norm_num,
      Real.rpow_natCast]
    norm_num
  refine ⟨hv, ?_⟩
  rintro ⟨_, h1, _⟩
  rw [hv] at h1
  have hD := (DBL_MAX_bounds (K := ℝ)).2
  have hP : (0 : ℝ) < DBL_MAX ℝ := DBL_MAX_pos
  have := one_div_lt_one_div_of_lt hP hD
  linarith

theorem exAlpha_overflow (nf : Int) (cg : Int → ℝ) (k : Nat) :
    wgtDen (exB ℝ) realLibm (exAlpha ℝ (-4)) nf cg 0 k 0 = 10 ^ 400
    ∧ ¬ wgtFinite (exB ℝ) realLibm (exAlpha ℝ (-4)) nf cg 0 k 0 := by
  have hv : wgtDen (exB ℝ) realLibm (exAlpha ℝ (-4)) nf cg 0 k 0 = 10 ^ 400 := by
    rw [(exAlpha_wgtDen (-4) nf cg k).2, Real.rpow_neg (by positivity),
      show (4 : ℝ) = ((4 : Nat) : ℝ) by norm_num, Real.rpow_natCast]
    norm_num
  refine ⟨hv, ?_⟩
  rintro ⟨_, _, h2⟩
  rw [hv] at h2
  have hD := (DBL_MAX_bounds (K := ℝ)).2
  linarith

/-- C21 (counterexample): on the triangle `exAlpha 4` (uniform state, `alpha = 4`) the
solution difference `udf[0][ivx]` is zero at every vertex of every sub-element of cell
0, but `pow(sqrt(0 + 1e-200), 4) = 1e-400` is below the smallest double: the code gets
`0.0` from `pow`, the weight `1.0/0.0` is infinite, and the `dsoln` entries of cell 0 and
equation 0 are not the number 0 (the code stores NaN). -/
theorem zero_difference_counterexample :
    (∀ k : Nat, k < nsub (exAlpha ℝ 4) 0 → ∀ ivx : Int, 0 ≤ ivx → ivx < (exB ℝ).NDIM →
      udf (exB ℝ) (exAlpha ℝ 4) (clnfc (exB ℝ) (exAlpha ℝ 4) 0)
        (cndge (exB ℝ) (exAlpha ℝ 4) 0) 0 (ig0 (exAlpha ℝ 4) 0 + k) 0 ivx = 0)
    ∧ (∀ k : Nat, k < nsub (exAlpha ℝ 4) 0 →
      wgtDen (exB ℝ) realLibm (exAlpha ℝ 4) (clnfc (exB ℝ) (exAlpha ℝ 4) 0)
          (cndge (exB ℝ) (exAlpha ℝ 4) 0) 0 k 0 = 1 / 10 ^ 400
      ∧ wgtChecked (exB ℝ) realLibm (exAlpha ℝ 4) (clnfc (exB ℝ) (exAlpha ℝ 4) 0)
          (cndge (exB ℝ) (exAlpha ℝ 4) 0) 0 k 0 = none)
    ∧ ∀ d : Int, calc_checked (exB ℝ) realLibm (exAlpha ℝ 4) 0 0 d ≠ some 0 := by
  refine ⟨fun k _ ivx _ _ => exAlpha_udf_zero 4 _ _ _ ivx, fun k _ =>
    ⟨(exAlpha_underflow _ _ k).1, by
      simp only [wgtChecked, if_neg (exAlpha_underflow _ _ k).2]⟩, ?_⟩
  intro d
  have hnd : ¬ calcDefined (exB ℝ) realLibm (exAlpha ℝ 4) 0 0 := by
    rintro ⟨_, _, _, _, _, hw, _⟩
    exact (exAlpha_underflow _ _ 0).2 (hw 0 (by decide))
  simp only [calc_checked, if_neg hnd]
  exact fun h => Option.noConfusion h

/-- C22 (counterexample): with `SOLVCON_ALMOST_ZERO = 1e-200 > 0` and a zero gradient, the
value of `pow(sqrt(0 + 1e-200), alpha)` is `1e400` for `alpha = -4`, above `DBL_MAX`, and
`1e-400` for `alpha = 4`, below `1/DBL_MAX`: in the code `pow` returns `inf` or `0.0`, the
weight is `0.0` or `inf`, and no sub-element of cell 0 has a finite strictly positive
weight. -/
theorem normalisation_counterexample :
    0 < (exB ℝ).SOLVCON_ALMOST_ZERO
    ∧ (∀ k : Nat, k < nsub (exAlpha ℝ (-4)) 0 →
      wgtDen (exB ℝ) realLibm (exAlpha ℝ (-4)) 3 (cndge (exB ℝ) (exAlpha ℝ (-4)) 0) 0 k 0
          = 10 ^ 400
      ∧ DBL_MAX ℝ < 10 ^ 400
      ∧ ¬ ∃ w : ℝ, wgtChecked (exB ℝ) realLibm (exAlpha ℝ (-4)) 3
          (cndge (exB ℝ) (exAlpha ℝ (-4)) 0) 0 k 0 = some w ∧ 0 < w)
    ∧ (∀ k : Nat, k < nsub (exAlpha ℝ 4) 0 →
      wgtDen (exB ℝ) realLibm (exAlpha ℝ 4) 3 (cndge (exB ℝ) (exAlpha ℝ 4) 0) 0 k 0
          = 1 / 10 ^ 400
      ∧ (1 : ℝ) / 10 ^ 400 < 1 / DBL_MAX ℝ
      ∧ ¬ ∃ w : ℝ, wgtChecked (exB ℝ) realLibm (exAlpha ℝ 4) 3
          (cndge (exB ℝ) (exAlpha ℝ 4) 0) 0 k 0 = some w ∧ 0 < w) := by
  have hD := (DBL_MAX_bounds (K := ℝ)).2
  have hP : (0 : ℝ) < DBL_MAX ℝ := DBL_MAX_pos
  refine ⟨exB_eps_pos, fun k _ => ⟨(exAlpha_overflow _ _ k).1, hD, ?_⟩,
    fun k _ => ⟨(exAlpha_underflow _ _ k).1, one_div_lt_one_div_of_lt hP hD, ?_⟩⟩
  · rintro ⟨w, hw, _⟩
    simp only [wgtChecked, if_neg (exAlpha_overflow _ _ k).2] at hw
    exact Option.noConfusion hw
  · rintro ⟨w, hw, _⟩
    simp only [wgtChecked, if_neg (exAlpha_underflow _ _ k).2] at hw
    exact Option.noConfusion hw

/-! ## The no-slip wall boundary condition: lemmas and theorems -/

namespace eulerb

section BoundaryLemmas

variable {K : Type} [LinearOrderedField K]

/-! ### The boundary functions as folds over the array they write -/

theorem geom_soln (B : Build) (m : Libm K) (exd : exedata K) (s2 : Int → K) (ifc : Int) :
    icl B { exd with soln := s2 } ifc = icl B exd ifc
    ∧ jcl B { exd with soln := s2 } ifc = jcl B exd ifc
    ∧ (∀ d, nml B { exd with soln := s2 } ifc d = nml B exd ifc d)
    ∧ (∀ d, tvec B { exd with soln := s2 } ifc d = tvec B exd ifc d)
    ∧ len B m { exd with soln := s2 } ifc = len B m exd ifc :=
  ⟨rfl, rfl, fun _ => rfl, fun _ => rfl, rfl⟩

theorem geom_dsoln (B : Build) (m : Libm K) (exd : exedata K) (s2 : Int → K) (ifc : Int) :
    icl B { exd with dsoln := s2 } ifc = icl B exd ifc
    ∧ jcl B { exd with dsoln := s2 } ifc = jcl B exd ifc
    ∧ (∀ d, nml B { exd with dsoln := s2 } ifc d = nml B exd ifc d)
    ∧ (∀ d, tvec B { exd with dsoln := s2 } ifc d = tvec B exd ifc d)
    ∧ len B m { exd with dsoln := s2 } ifc = len B m exd ifc :=
  ⟨rfl, rfl, fun _ => rfl, fun _ => rfl, rfl⟩

theorem soln_face_geom (B : Build) (m : Libm K) (exd : exedata K) (s s2 : Int → K)
    (ifc : Int) :
    soln_face B m { exd with soln := s2 } s ifc = soln_face B m exd s ifc := by
  obtain ⟨h1, h2, h3, h4, h5⟩ := geom_soln B m exd s2 ifc
  simp only [soln_face, matinv, mat, h1, h2, h3, h4, h5]

theorem mat_geom (B : Build) (m : Libm K) (exd : exedata K) (s2 : Int → K) (ifc : Int) :
    mat B m { exd with dsoln := s2 } ifc = mat B m exd ifc := by
  obtain ⟨_, _, h3, h4, h5⟩ := geom_dsoln B m exd s2 ifc
  funext i j
  simp only [mat, h3, h4, h5]

theorem vecRot_geom (B : Build) (m : Libm K) (exd : exedata K) (s s2 : Int → K)
    (ifc : Int) :
    vecRot B m { exd with dsoln := s2 } s ifc = vecRot B m exd s ifc := by
  obtain ⟨h1, _, _, _, _⟩ := geom_dsoln B m exd s2 ifc
  funext ieq d
  simp only [vecRot, mat_geom, h1]

theorem dsoln_face_geom (B : Build) (m : Libm K) (exd : exedata K) (s s2 : Int → K)
    (ifc : Int) :
    dsoln_face B m { exd with dsoln := s2 } s ifc = dsoln_face B m exd s ifc := by
  obtain ⟨_, h2, _, _, _⟩ := geom_dsoln B m exd s2 ifc
  have hm : matinv B m { exd with dsoln := s2 } ifc = matinv B m exd ifc := by
    funext i j
    simp only [matinv, mat_geom]
  simp only [dsoln_face, vecRot_geom, hm, h2]

theorem soln_fold (B : Build) (m : Libm K) (exd : exedata K) (facn : Int → Int)
    (l : List Nat) :
    l.foldl (fun e (ibnd : Nat) => soln_body B m e (facn ((ibnd : Int) * B.BFREL))) exd
      = { exd with soln := l.foldl (fun s (ibnd : Nat) =>
            soln_face B m exd s (facn ((ibnd : Int) * B.BFREL))) exd.soln } := by
  induction l using List.reverseRecOn with
  | nil => rfl
  | append_singleton l a ih =>
    rw [List.foldl_append, List.foldl_append, ih]
    simp only [List.foldl_cons, List.foldl_nil, soln_body, soln_face_geom]

theorem dsoln_fold (B : Build) (m : Libm K) (exd : exedata K) (facn : Int → Int)
    (l : List Nat) :
    l.foldl (fun e (ibnd : Nat) => dsoln_body B m e (facn ((ibnd : Int) * B.BFREL))) exd
      = { exd with dsoln := l.foldl (fun s (ibnd : Nat) =>
            dsoln_face B m exd s (facn ((ibnd : Int) * B.BFREL))) exd.dsoln } := by
  induction l using List.reverseRecOn with
  | nil => rfl
  | append_singleton l a ih =>
    rw [List.foldl_append, List.foldl_append, ih]
    simp only [List.foldl_cons, List.foldl_nil, dsoln_body, dsoln_face_geom]

theorem bound_nonslipwall_soln_eq (B : Build) (m : Libm K) (exd : exedata K) (nbnd : Int)
    (facn : Int → Int) :
    (bound_nonslipwall_soln B m exd nbnd facn).soln
      = (faces B nbnd facn).foldl (soln_face B m exd) exd.soln := by
  rw [bound_nonslipwall_soln, soln_fold, faces, List.foldl_map]

theorem bound_nonslipwall_dsoln_eq (B : Build) (m : Libm K) (exd : exedata K) (nbnd : Int)
    (facn : Int → Int) :
    (bound_nonslipwall_dsoln B m exd nbnd facn).dsoln
      = (faces B nbnd facn).foldl (dsoln_face B m exd) exd.dsoln := by
  rw [bound_nonslipwall_dsoln, dsoln_fold, faces, List.foldl_map]

/-! ### A loop over faces that write separate blocks -/

theorem foldl_faces {A : Type} (step : (Int → A) → Int → (Int → A)) (W : Int → Int → Prop)
    (R T : Int → Prop) (s0 v : Int → A) (f0 : Int)
    (hframe : ∀ s f i, ¬ W f i → step s f i = s i)
    (hval : ∀ s, (∀ i, R i → s i = s0 i) → ∀ i, T i → step s f0 i = v i)
    (l : List Int) (hR : ∀ f, f ∈ l → ∀ i, R i → ¬ W f i)
    (hT : ∀ f, f ∈ l → f ≠ f0 → ∀ i, T i → ¬ W f i)
    (s : Int → A) (hs : ∀ i, R i → s i = s0 i) (h : f0 ∈ l ∨ ∀ i, T i → s i = v i) :
    ∀ i, T i → l.foldl step s i = v i := by
  induction l generalizing s with
  | nil =>
    rcases h with h | h
    · exact absurd h (List.not_mem_nil _)
    · exact h
  | cons f l ih =>
    rw [List.foldl_cons]
    have hs2 : ∀ i, R i → step s f i = s0 i := fun i hi => by
      rw [hframe s f i (hR f (List.mem_cons_self _ _) i hi), hs i hi]
    apply ih (fun g hg => hR g (List.mem_cons_of_mem _ hg))
      (fun g hg => hT g (List.mem_cons_of_mem _ hg)) _ hs2
    by_cases hf : f = f0
    · right
      rw [hf]
      exact hval s hs
    · rcases h with h | h
      · left
        rcases List.mem_cons.mp h with h | h
        · exact absurd h.symm hf
        · exact h
      · right
        intro i hi
        rw [hframe s f i (hT f (List.mem_cons_self _ _) hf i hi), h i hi]

/-! ### Blocks of distinct cells do not overlap -/

theorem block_sep (a b N r q : Int) (h0 : 0 ≤ r) (h1 : r < N) (h2 : 0 ≤ q) (h3 : q < N)
    (h : a * N + r = b * N + q) : a = b ∧ r = q := by
  have hN : N ≠ 0 := by omega
  have ha : (a * N + r) / N = a := by
    rw [add_comm, Int.add_mul_ediv_right _ _ hN, Int.ediv_eq_zero_of_lt h0 h1, zero_add]
  have hb : (b * N + q) / N = b := by
    rw [add_comm, Int.add_mul_ediv_right _ _ hN, Int.ediv_eq_zero_of_lt h2 h3, zero_add]
  have hab : a = b := by rw [← ha, ← hb, h]
  subst hab
  exact ⟨rfl, by omega⟩

/-! ### One iteration of `bound_nonslipwall_soln` -/

theorem soln_face_frame (B : Build) (m : Libm K) (exd : exedata K) (s : Int → K)
    (ifc i : Int)
    (h : ¬ ∃ r : Int, 0 ≤ r ∧ r ≤ B.NDIM + 1 ∧ i = jcl B exd ifc * B.NEQ + r) :
    soln_face B m exd s ifc i = s i := by
  have hne : ∀ r : Int, 0 ≤ r → r ≤ B.NDIM + 1 → i ≠ jcl B exd ifc * B.NEQ + r :=
    fun r h0 h1 he => h ⟨r, h0, h1, he⟩
  cases h3 : B.dim3
  · have hN : B.NDIM = 2 := by simp [Build.NDIM, h3]
    rw [hN] at hne
    simp only [soln_face, store, h3, hN, Bool.false_eq_true, ↓reduceIte,
      if_neg (hne 0 (by decide) (by decide)), if_neg (hne 1 (by decide) (by decide)),
      if_neg (hne 2 (by decide) (by decide)), if_neg (hne (1 + 2) (by decide) (by decide))]
  · have hN : B.NDIM = 3 := by simp [Build.NDIM, h3]
    rw [hN] at hne
    simp only [soln_face, store, h3, hN, ↓reduceIte,
      if_neg (hne 0 (by decide) (by decide)), if_neg (hne 1 (by decide) (by decide)),
      if_neg (hne 2 (by decide) (by decide)), if_neg (hne 3 (by decide) (by decide)),
      if_neg (hne (1 + 3) (by decide) (by decide))]

theorem soln_face_two (B : Build) (m : Libm K) (exd : exedata K) (s : Int → K) (ifc : Int)
    (h3 : B.dim3 = false) (hneq : B.NDIM + 2 ≤ B.NEQ) :
    soln_face B m exd s ifc (jcl B exd ifc * B.NEQ + 0) = s (icl B exd ifc * B.NEQ + 0)
    ∧ soln_face B m exd s ifc (jcl B exd ifc * B.NEQ + 1)
        = nml B exd ifc 0 * -(nml B exd ifc 0 * s (icl B exd ifc * B.NEQ + 1)
              + nml B exd ifc 1 * s (icl B exd ifc * B.NEQ + 2))
          + nml B exd ifc 1 * -(nml B exd ifc 1 * s (icl B exd ifc * B.NEQ + 1)
              + -nml B exd ifc 0 * s (icl B exd ifc * B.NEQ + 2))
    ∧ soln_face B m exd s ifc (jcl B exd ifc * B.NEQ + 2)
        = nml B exd ifc 1 * -(nml B exd ifc 0 * s (icl B exd ifc * B.NEQ + 1)
              + nml B exd ifc 1 * s (icl B exd ifc * B.NEQ + 2))
          + -nml B exd ifc 0 * -(nml B exd ifc 1 * s (icl B exd ifc * B.NEQ + 1)
              + -nml B exd ifc 0 * s (icl B exd ifc * B.NEQ + 2))
    ∧ soln_face B m exd s ifc (jcl B exd ifc * B.NEQ + 3) = s (icl B exd ifc * B.NEQ + 3) := by
  have hN : B.NDIM = 2 := by simp [Build.NDIM, h3]
  rw [hN] at hneq
  have hA : ∀ r q : Int, 0 ≤ r → r < 4 → 0 ≤ q → q < 4 → r ≠ q →
      icl B exd ifc * B.NEQ + r ≠ jcl B exd ifc * B.NEQ + q := fun r q h0 h1 h2 h4 hrq he =>
    hrq (block_sep _ _ _ r q h0 (by omega) h2 (by omega) he).2
  have hB : ∀ r q : Int, r ≠ q → jcl B exd ifc * B.NEQ + r ≠ jcl B exd ifc * B.NEQ + q :=
    fun r q hrq he => hrq (by omega)
  simp only [soln_face, store, matinv, mat, h3, hN, Bool.false_eq_true, ↓reduceIte,
    if_neg (hA 0 1 (by decide) (by decide) (by decide) (by decide) (by decide)),
    if_neg (hA 0 2 (by decide) (by decide) (by decide) (by decide) (by decide)),
    if_neg (hA 3 0 (by decide) (by decide) (by decide) (by decide) (by decide)),
    if_neg (hA 3 1 (by decide) (by decide) (by decide) (by decide) (by decide)),
    if_neg (hA 3 2 (by decide) (by decide) (by decide) (by decide) (by decide)),
    if_neg (hB 0 3 (by decide)), if_neg (hB 1 3 (by decide)),
    if_neg (hB 2 3 (by decide)), if_neg (hB 1 0 (by decide)),
    if_neg (hB 2 0 (by decide)), if_neg (hB 1 2 (by decide)),
    one_ne_zero, Int.reduceAdd]
  exact ⟨trivial, trivial, trivial, trivial⟩

theorem soln_face_three (B : Build) (m : Libm K) (exd : exedata K) (s : Int → K) (ifc : Int)
    (h3 : B.dim3 = true) (hneq : B.NDIM + 2 ≤ B.NEQ) :
    soln_face B m exd s ifc (jcl B exd ifc * B.NEQ + 0) = s (icl B exd ifc * B.NEQ + 0)
    ∧ soln_face B m exd s ifc (jcl B exd ifc * B.NEQ + 1)
        = mat B m exd ifc 0 0 * -(mat B m exd ifc 0 0 * s (icl B exd ifc * B.NEQ + 1)
              + mat B m exd ifc 0 1 * s (icl B exd ifc * B.NEQ + 2)
              + mat B m exd ifc 0 2 * s (icl B exd ifc * B.NEQ + 3))
          + mat B m exd ifc 1 0 * -(mat B m exd ifc 1 0 * s (icl B exd ifc * B.NEQ + 1)
              + mat B m exd ifc 1 1 * s (icl B exd ifc * B.NEQ + 2)
              + mat B m exd ifc 1 2 * s (icl B exd ifc * B.NEQ + 3))
          + mat B m exd ifc 2 0 * -(mat B m exd ifc 2 0 * s (icl B exd ifc * B.NEQ + 1)
              + mat B m exd ifc 2 1 * s (icl B exd ifc * B.NEQ + 2)
              + mat B m exd ifc 2 2 * s (icl B exd ifc * B.NEQ + 3))
    ∧ soln_face B m exd s ifc (jcl B exd ifc * B.NEQ + 2)
        = mat B m exd ifc 0 1 * -(mat B m exd ifc 0 0 * s (icl B exd ifc * B.NEQ + 1)
              + mat B m exd ifc 0 1 * s (icl B exd ifc * B.NEQ + 2)
              + mat B m exd ifc 0 2 * s (icl B exd ifc * B.NEQ + 3))
          + mat B m exd ifc 1 1 * -(mat B m exd ifc 1 0 * s (icl B exd ifc * B.NEQ + 1)
              + mat B m exd ifc 1 1 * s (icl B exd ifc * B.NEQ + 2)
              + mat B m exd ifc 1 2 * s (icl B exd ifc * B.NEQ + 3))
          + mat B m exd ifc 2 1 * -(mat B m exd ifc 2 0 * s (icl B exd ifc * B.NEQ + 1)
              + mat B m exd ifc 2 1 * s (icl B exd ifc * B.NEQ + 2)
              + mat B m exd ifc 2 2 * s (icl B exd ifc * B.NEQ + 3))
    ∧ soln_face B m exd s ifc (jcl B exd ifc * B.NEQ + 3)
        = mat B m exd ifc 0 2 * -(mat B m exd ifc 0 0 * s (icl B exd ifc * B.NEQ + 1)
              + mat B m exd ifc 0 1 * s (icl B exd ifc * B.NEQ + 2)
              + mat B m exd ifc 0 2 * s (icl B exd ifc * B.NEQ + 3))
          + mat B m exd ifc 1 2 * -(mat B m exd ifc 1 0 * s (icl B exd ifc * B.NEQ + 1)
              + mat B m exd ifc 1 1 * s (icl B exd ifc * B.NEQ + 2)
              + mat B m exd ifc 1 2 * s (icl B exd ifc * B.NEQ + 3))
          + mat B m exd ifc 2 2 * -(mat B m exd ifc 2 0 * s (icl B exd ifc * B.NEQ + 1)
              + mat B m exd ifc 2 1 * s (icl B exd ifc * B.NEQ + 2)
              + mat B m exd ifc 2 2 * s (icl B exd ifc * B.NEQ + 3))
    ∧ soln_face B m exd s ifc (jcl B exd ifc * B.NEQ + 4) = s (icl B exd ifc * B.NEQ + 4) := by
  have hN : B.NDIM = 3 := by simp [Build.NDIM, h3]
  rw [hN] at hneq
  have hA : ∀ r q : Int, 0 ≤ r → r < 5 → 0 ≤ q → q < 5 → r ≠ q →
      icl B exd ifc * B.NEQ + r ≠ jcl B exd ifc * B.NEQ + q := fun r q h0 h1 h2 h4 hrq he =>
    hrq (block_sep _ _ _ r q h0 (by omega) h2 (by omega) he).2
  have hB : ∀ r q : Int, r ≠ q → jcl B exd ifc * B.NEQ + r ≠ jcl B exd ifc * B.NEQ + q :=
    fun r q hrq he => hrq (by omega)
  simp only [soln_face, store, matinv, h3, hN, ↓reduceIte,
    if_neg (hA 0 1 (by decide) (by decide) (by decide) (by decide) (by decide)),
    if_neg (hA 0 2 (by decide) (by decide) (by decide) (by decide) (by decide)),
    if_neg (hA 0 3 (by decide) (by decide) (by decide) (by decide) (by decide)),
    if_neg (hA 4 0 (by decide) (by decide) (by decide) (by decide) (by decide)),
    if_neg (hA 4 1 (by decide) (by decide) (by decide) (by decide) (by decide)),
    if_neg (hA 4 2 (by decide) (by decide) (by decide) (by decide) (by decide)),
    if_neg (hA 4 3 (by decide) (by decide) (by decide) (by decide) (by decide)),
    if_neg (hB 0 4 (by decide)), if_neg (hB 1 4 (by decide)),
    if_neg (hB 2 4 (by decide)), if_neg (hB 3 4 (by decide)), if_neg (hB 1 0 (by decide)),
    if_neg (hB 2 0 (by decide)), if_neg (hB 3 0 (by decide)), if_neg (hB 1 2 (by decide)),
    if_neg (hB 1 3 (by decide)), if_neg (hB 2 3 (by decide)), Int.reduceAdd]
  exact ⟨trivial, trivial, trivial, trivial, trivial⟩

/-! ### The rotation matrix of an orthonormal frame -/

theorem rot_two (n0 n1 a b : K) (hn : n0 * n0 + n1 * n1 = 1) :
    n0 * -(n0 * a + n1 * b) + n1 * -(n1 * a + -n0 * b) = -a
    ∧ n1 * -(n0 * a + n1 * b) + -n0 * -(n1 * a + -n0 * b) = -b := by
  constructor
  · linear_combination (-a) * hn
  · linear_combination (-b) * hn

theorem rot_three (n0 n1 n2 t0 t1 t2 a b c : K) (hn : n0 * n0 + n1 * n1 + n2 * n2 = 1)
    (ht : t0 * t0 + t1 * t1 + t2 * t2 = 1) (hd : n0 * t0 + n1 * t1 + n2 * t2 = 0) :
    n0 * -(n0 * a + n1 * b + n2 * c) + t0 * -(t0 * a + t1 * b + t2 * c)
        + (n1 * t2 - n2 * t1) * -((n1 * t2 - n2 * t1) * a + (n2 * t0 - n0 * t2) * b
            + (n0 * t1 - n1 * t0) * c) = -a
    ∧ n1 * -(n0 * a + n1 * b + n2 * c) + t1 * -(t0 * a + t1 * b + t2 * c)
        + (n2 * t0 - n0 * t2) * -((n1 * t2 - n2 * t1) * a + (n2 * t0 - n0 * t2) * b
            + (n0 * t1 - n1 * t0) * c) = -b
    ∧ n2 * -(n0 * a + n1 * b + n2 * c) + t2 * -(t0 * a + t1 * b + t2 * c)
        + (n0 * t1 - n1 * t0) * -((n1 * t2 - n2 * t1) * a + (n2 * t0 - n0 * t2) * b
            + (n0 * t1 - n1 * t0) * c) = -c := by
  have e00 : n0 * n0 + t0 * t0 + (n1 * t2 - n2 * t1) * (n1 * t2 - n2 * t1) = 1 := by
    linear_combination (t1 * t1 + t2 * t2) * hn + (1 - n0 * n0) * ht
      - (n1 * t1 + n2 * t2 - n0 * t0) * hd
  have e11 : n1 * n1 + t1 * t1 + (n2 * t0 - n0 * t2) * (n2 * t0 - n0 * t2) = 1 := by
    linear_combination (t0 * t0 + t2 * t2) * hn + (1 - n1 * n1) * ht
      - (n0 * t0 + n2 * t2 - n1 * t1) * hd
  have e22 : n2 * n2 + t2 * t2 + (n0 * t1 - n1 * t0) * (n0 * t1 - n1 * t0) = 1 := by
    linear_combination (t0 * t0 + t1 * t1) * hn + (1 - n2 * n2) * ht
      - (n0 * t0 + n1 * t1 - n2 * t2) * hd
  have e01 : n0 * n1 + t0 * t1 + (n1 * t2 - n2 * t1) * (n2 * t0 - n0 * t2) = 0 := by
    linear_combination (-(t0 * t1)) * hn + (-(n0 * n1)) * ht + (n0 * t1 + t0 * n1) * hd
  have e02 : n0 * n2 + t0 * t2 + (n1 * t2 - n2 * t1) * (n0 * t1 - n1 * t0) = 0 := by
    linear_combination (-(t0 * t2)) * hn + (-(n0 * n2)) * ht + (n0 * t2 + t0 * n2) * hd
  have e12 : n1 * n2 + t1 * t2 + (n2 * t0 - n0 * t2) * (n0 * t1 - n1 * t0) = 0 := by
    linear_combination (-(t1 * t2)) * hn + (-(n1 * n2)) * ht + (n1 * t2 + t1 * n2) * hd
  refine ⟨?_, ?_, ?_⟩
  · linear_combination (-a) * e00 - b * e01 - c * e02
  · linear_combination (-a) * e01 - b * e11 - c * e12
  · linear_combination (-a) * e02 - b * e12 - c * e22

theorem unit_tangent (B : Build) (m : Libm K) (exd : exedata K) (ifc : Int)
    (hsq : ∀ x : K, 0 ≤ x → m.sqrt x * m.sqrt x = x)
    (ht : tvec B exd ifc 0 ≠ 0 ∨ tvec B exd ifc 1 ≠ 0 ∨ tvec B exd ifc 2 ≠ 0) :
    len B m exd ifc ≠ 0
    ∧ tvec B exd ifc 0 / len B m exd ifc * (tvec B exd ifc 0 / len B m exd ifc)
      + tvec B exd ifc 1 / len B m exd ifc * (tvec B exd ifc 1 / len B m exd ifc)
      + tvec B exd ifc 2 / len B m exd ifc * (tvec B exd ifc 2 / len B m exd ifc) = 1 := by
  have h0 := mul_self_nonneg (tvec B exd ifc 0)
  have h1 := mul_self_nonneg (tvec B exd ifc 1)
  have h2 := mul_self_nonneg (tvec B exd ifc 2)
  have hpos : 0 < tvec B exd ifc 0 * tvec B exd ifc 0 + tvec B exd ifc 1 * tvec B exd ifc 1
      + tvec B exd ifc 2 * tvec B exd ifc 2 := by
    rcases ht with h | h | h
    · have := mul_self_pos.mpr h; linarith
    · have := mul_self_pos.mpr h; linarith
    · have := mul_self_pos.mpr h; linarith
  have hl := hsq _ (le_of_lt hpos)
  have hne : len B m exd ifc ≠ 0 := by
    intro h0
    unfold len at h0
    rw [h0, mul_zero] at hl
    exact absurd hl (ne_of_lt hpos)
  refine ⟨hne, ?_⟩
  have hl2 : len B m exd ifc * len B m exd ifc
      = tvec B exd ifc 0 * tvec B exd ifc 0 + tvec B exd ifc 1 * tvec B exd ifc 1
        + tvec B exd ifc 2 * tvec B exd ifc 2 := hl
  field_simp
  linear_combination -hl2

theorem soln_face_mirror (B : Build) (m : Libm K) (exd : exedata K) (s : Int → K) (ifc : Int)
    (hneq : B.NDIM + 2 ≤ B.NEQ) (hsq : ∀ x : K, 0 ≤ x → m.sqrt x * m.sqrt x = x)
    (hfr : orthonormal B exd ifc) :
    soln_face B m exd s ifc (jcl B exd ifc * B.NEQ + 0) = s (icl B exd ifc * B.NEQ + 0)
    ∧ (∀ k : Int, 1 ≤ k → k ≤ B.NDIM →
        soln_face B m exd s ifc (jcl B exd ifc * B.NEQ + k) = -s (icl B exd ifc * B.NEQ + k))
    ∧ soln_face B m exd s ifc (jcl B exd ifc * B.NEQ + (1 + B.NDIM))
        = s (icl B exd ifc * B.NEQ + (1 + B.NDIM)) := by
  cases h3 : B.dim3
  · have hN : B.NDIM = 2 := by simp [Build.NDIM, h3]
    obtain ⟨a0, a1, a2, a3⟩ := soln_face_two B m exd s ifc h3 hneq
    simp only [orthonormal, h3, Bool.false_eq_true, ↓reduceIte] at hfr
    obtain ⟨r1, r2⟩ := rot_two _ _ (s (icl B exd ifc * B.NEQ + 1))
      (s (icl B exd ifc * B.NEQ + 2)) hfr
    rw [hN]
    refine ⟨a0, ?_, a3⟩
    intro k hk0 hk1
    have hk : k = 1 ∨ k = 2 := by omega
    rcases hk with rfl | rfl
    · rw [a1, r1]
    · rw [a2, r2]
  · have hN : B.NDIM = 3 := by simp [Build.NDIM, h3]
    obtain ⟨a0, a1, a2, a3, a4⟩ := soln_face_three B m exd s ifc h3 hneq
    simp only [orthonormal, h3, ↓reduceIte] at hfr
    obtain ⟨hn, ht, hd⟩ := hfr
    obtain ⟨hl, hu⟩ := unit_tangent B m exd ifc hsq ht
    have hd2 : nml B exd ifc 0 * (tvec B exd ifc 0 / len B m exd ifc)
        + nml B exd ifc 1 * (tvec B exd ifc 1 / len B m exd ifc)
        + nml B exd ifc 2 * (tvec B exd ifc 2 / len B m exd ifc) = 0 := by
      field_simp
      linear_combination hd
    obtain ⟨r1, r2, r3⟩ := rot_three _ _ _ _ _ _ (s (icl B exd ifc * B.NEQ + 1))
      (s (icl B exd ifc * B.NEQ + 2)) (s (icl B exd ifc * B.NEQ + 3)) hn hu hd2
    simp only [mat, h3, ↓reduceIte, one_ne_zero, OfNat.ofNat_ne_zero, OfNat.ofNat_ne_one]
      at a1 a2 a3
    rw [hN]
    refine ⟨a0, ?_, a4⟩
    intro k hk0 hk1
    have hk : k = 1 ∨ k = 2 ∨ k = 3 := by omega
    rcases hk with rfl | rfl | rfl
    · rw [a1, r1]
    · rw [a2, r2]
    · rw [a3, r3]

/-! ### The whole face loop -/

theorem foldl_frame {A : Type} (step : (Int → A) → Int → (Int → A)) (W : Int → Int → Prop)
    (hframe : ∀ s f i, ¬ W f i → step s f i = s i) (l : List Int) (i : Int)
    (h : ∀ f, f ∈ l → ¬ W f i) (s : Int → A) : l.foldl step s i = s i := by
  induction l generalizing s with
  | nil => rfl
  | cons f l ih =>
    rw [List.foldl_cons, ih (fun g hg => h g (List.mem_cons_of_mem _ hg)),
      hframe s f i (h f (List.mem_cons_self _ _))]

/-! ### One iteration of `bound_nonslipwall_dsoln` -/

theorem grad_block_sep (B : Build) (a b : Int) (e q : Nat) (d c : Int) (he : e < B.NEQ)
    (hq : q < B.NEQ) (hd0 : 0 ≤ d) (hd1 : d < B.NDIM) (hc0 : 0 ≤ c) (hc1 : c < B.NDIM)
    (h : a * B.NEQ * B.NDIM + e * B.NDIM + d = b * B.NEQ * B.NDIM + q * B.NDIM + c) :
    a = b ∧ e = q ∧ d = c := by
  have h1 : (a * B.NEQ + e) * B.NDIM + d = (b * B.NEQ + q) * B.NDIM + c := by
    linear_combination h
  obtain ⟨h2, h3⟩ := block_sep _ _ _ d c hd0 hd1 hc0 hc1 h1
  obtain ⟨h4, h5⟩ := block_sep a b (B.NEQ : Int) e q (by omega) (by omega) (by omega)
    (by omega) h2
  exact ⟨h4, by omega, h3⟩

theorem ghostLoop_frame (B : Build) (Mi v : Int → Int → K) (base : Int) (n : Nat)
    (ds : Int → K) (i : Int)
    (h : ∀ e : Nat, e < n → ∀ d : Int, 0 ≤ d → d < B.NDIM → i ≠ base + e * B.NDIM + d) :
    ghostLoop B Mi v base n ds i = ds i := by
  induction n with
  | zero => rfl
  | succ n ih =>
    have ih2 := ih (fun e he => h e (by omega))
    unfold ghostLoop at ih2 ⊢
    rw [List.range_succ, List.foldl_append]
    simp only [List.foldl_cons, List.foldl_nil]
    have hn := h n (by omega)
    cases h3 : B.dim3
    · have hN : B.NDIM = 2 := by simp [Build.NDIM, h3]
      rw [hN] at hn
      simp only [h3, store, Bool.false_eq_true, ↓reduceIte, hN] at ih2 ⊢
      rw [if_neg (hn 1 (by decide) (by decide)), if_neg (hn 0 (by decide) (by decide))]
      exact ih2
    · have hN : B.NDIM = 3 := by simp [Build.NDIM, h3]
      rw [hN] at hn
      simp only [h3, store, ↓reduceIte, hN] at ih2 ⊢
      rw [if_neg (hn 2 (by decide) (by decide)), if_neg (hn 1 (by decide) (by decide)),
        if_neg (hn 0 (by decide) (by decide))]
      exact ih2

theorem ghostLoop_value (B : Build) (Mi v : Int → Int → K) (base : Int) (n : Nat)
    (ds : Int → K) (e : Nat) (he : e < n) (d : Int) (hd0 : 0 ≤ d) (hd1 : d < B.NDIM) :
    ghostLoop B Mi v base n ds (base + e * B.NDIM + d)
      = if B.dim3 then Mi d 0 * v e 0 + Mi d 1 * v e 1 + Mi d 2 * v e 2
        else Mi d 0 * v e 0 + Mi d 1 * v e 1 := by
  induction n with
  | zero => omega
  | succ n ih =>
    unfold ghostLoop at ih ⊢
    rw [List.range_succ, List.foldl_append]
    simp only [List.foldl_cons, List.foldl_nil]
    cases h3 : B.dim3
    · have hN : B.NDIM = 2 := by simp [Build.NDIM, h3]
      rw [hN] at hd1
      simp only [h3, store, Bool.false_eq_true, ↓reduceIte, hN] at ih ⊢
      by_cases hen : e = n
      · subst hen
        have hd : d = 0 ∨ d = 1 := by omega
        rcases hd with rfl | rfl
        · rw [if_neg (by omega), if_pos rfl]
        · rw [if_pos rfl]
      · rw [if_neg (by omega), if_neg (by omega)]
        exact ih (by omega)
    · have hN : B.NDIM = 3 := by simp [Build.NDIM, h3]
      rw [hN] at hd1
      simp only [h3, store, ↓reduceIte, hN] at ih ⊢
      by_cases hen : e = n
      · subst hen
        have hd : d = 0 ∨ d = 1 ∨ d = 2 := by omega
        rcases hd with rfl | rfl | rfl
        · rw [if_neg (by omega), if_neg (by omega), if_pos rfl]
        · rw [if_neg (by omega), if_pos rfl]
        · rw [if_pos rfl]
      · rw [if_neg (by omega), if_neg (by omega), if_neg (by omega)]
        exact ih (by omega)

theorem dsoln_face_frame (B : Build) (m : Libm K) (exd : exedata K) (s : Int → K)
    (ifc i : Int)
    (h : ¬ ∃ e : Nat, e < B.NEQ ∧ ∃ d : Int, 0 ≤ d ∧ d < B.NDIM
        ∧ i = jcl B exd ifc * B.NEQ * B.NDIM + e * B.NDIM + d) :
    dsoln_face B m exd s ifc i = s i :=
  ghostLoop_frame B _ _ _ _ s i (fun e he d hd0 hd1 hi => h ⟨e, he, d, hd0, hd1, hi⟩)

theorem vecRot_congr (B : Build) (m : Libm K) (exd : exedata K) (s s0 : Int → K) (ifc : Int)
    (hs : ∀ e : Nat, e < B.NEQ → ∀ d : Int, 0 ≤ d → d < B.NDIM →
      s (icl B exd ifc * B.NEQ * B.NDIM + e * B.NDIM + d)
        = s0 (icl B exd ifc * B.NEQ * B.NDIM + e * B.NDIM + d)) :
    vecRot B m exd s ifc = vecRot B m exd s0 ifc := by
  funext ieq d
  unfold vecRot
  split_ifs with h1 h2
  · have hD : B.NDIM = 3 := by simp [Build.NDIM, h2]
    have he : ((ieq.toNat : Nat) : Int) = ieq := Int.toNat_of_nonneg h1.1
    have h := hs ieq.toNat (by omega)
    rw [he, hD] at h
    simp only [hD]
    rw [h 0 (by decide) (by decide), h 1 (by decide) (by decide),
      h 2 (by decide) (by decide)]
  · have hD : B.NDIM = 2 := by simp [Build.NDIM, h2]
    have he : ((ieq.toNat : Nat) : Int) = ieq := Int.toNat_of_nonneg h1.1
    have h := hs ieq.toNat (by omega)
    rw [he, hD] at h
    simp only [hD]
    rw [h 0 (by decide) (by decide), h 1 (by decide) (by decide)]
  · rfl

theorem dsoln_face_congr (B : Build) (m : Libm K) (exd : exedata K) (s s0 : Int → K)
    (ifc : Int)
    (hs : ∀ e : Nat, e < B.NEQ → ∀ d : Int, 0 ≤ d → d < B.NDIM →
      s (icl B exd ifc * B.NEQ * B.NDIM + e * B.NDIM + d)
        = s0 (icl B exd ifc * B.NEQ * B.NDIM + e * B.NDIM + d))
    (e : Nat) (he : e < B.NEQ) (d : Int) (hd0 : 0 ≤ d) (hd1 : d < B.NDIM) :
    dsoln_face B m exd s ifc (jcl B exd ifc * B.NEQ * B.NDIM + e * B.NDIM + d)
      = dsoln_face B m exd s0 ifc (jcl B exd ifc * B.NEQ * B.NDIM + e * B.NDIM + d) := by
  unfold dsoln_face
  rw [ghostLoop_value B _ _ _ _ s e he d hd0 hd1, ghostLoop_value B _ _ _ _ s0 e he d hd0 hd1,
    vecRot_congr B m exd s s0 ifc hs]

theorem vecWall_two (B : Build) (v : Int → Int → K) (h3 : B.dim3 = false) :
    vecWall B v 0 0 = -v 0 0 ∧ vecWall B v 0 1 = v 0 1
    ∧ vecWall B v 1 0 = v 1 0 ∧ vecWall B v 1 1 = -v 1 1
    ∧ vecWall B v 2 0 = v 2 0 ∧ vecWall B v 2 1 = -v 2 1
    ∧ vecWall B v 3 0 = -v 3 0 ∧ vecWall B v 3 1 = v 3 1 := by
  have hN : B.NDIM = 2 := by simp [Build.NDIM, h3]
  refine ⟨?_, ?_, ?_, ?_, ?_, ?_, ?_, ?_⟩ <;>
    simp [vecWall, negAt, store2, h3, hN]

theorem mirror_alg (n0 n1 g0 g1 : K) (hn : n0 * n0 + n1 * n1 = 1) :
    n0 * -(n0 * g0 + n1 * g1) + n1 * (n1 * g0 + -n0 * g1)
        = g0 - 2 * (n0 * g0 + n1 * g1) * n0
    ∧ n1 * -(n0 * g0 + n1 * g1) + -n0 * (n1 * g0 + -n0 * g1)
        = g1 - 2 * (n0 * g0 + n1 * g1) * n1
    ∧ n0 * (n0 * g0 + n1 * g1) + n1 * -(n1 * g0 + -n0 * g1)
        = -(g0 - 2 * (n0 * g0 + n1 * g1) * n0)
    ∧ n1 * (n0 * g0 + n1 * g1) + -n0 * -(n1 * g0 + -n0 * g1)
        = -(g1 - 2 * (n0 * g0 + n1 * g1) * n1) := by
  refine ⟨?_, ?_, ?_, ?_⟩
  · linear_combination g0 * hn
  · linear_combination g1 * hn
  · linear_combination (-g0) * hn
  · linear_combination (-g1) * hn

theorem dsoln_face_entry (B : Build) (m : Libm K) (exd : exedata K) (ifc : Int)
    (h3 : B.dim3 = false) (e : Nat) (he : e < B.NEQ) (d : Int) (hd0 : 0 ≤ d)
    (hd1 : d < B.NDIM) :
    dsoln_face B m exd exd.dsoln ifc (jcl B exd ifc * B.NEQ * B.NDIM + e * B.NDIM + d)
      = mat B m exd ifc 0 d * vecWall B (vecRot B m exd exd.dsoln ifc) e 0
        + mat B m exd ifc 1 d * vecWall B (vecRot B m exd exd.dsoln ifc) e 1 := by
  unfold dsoln_face
  rw [ghostLoop_value B _ _ _ _ _ e he d hd0 hd1]
  simp only [h3, matinv, Bool.false_eq_true, ↓reduceIte]

theorem vecRot_two (B : Build) (m : Libm K) (exd : exedata K) (ifc : Int)
    (h3 : B.dim3 = false) (e : Int) (he0 : 0 ≤ e) (he1 : e < B.NEQ) :
    vecRot B m exd exd.dsoln ifc e 0
        = nml B exd ifc 0 * gradAt B exd ifc e 0 + nml B exd ifc 1 * gradAt B exd ifc e 1
    ∧ vecRot B m exd exd.dsoln ifc e 1
        = nml B exd ifc 1 * gradAt B exd ifc e 0 + -nml B exd ifc 0 * gradAt B exd ifc e 1 := by
  have hN : B.NDIM = 2 := by simp [Build.NDIM, h3]
  have c0 : 0 ≤ e ∧ e < (B.NEQ : Int) ∧ (0 : Int) ≤ 0 ∧ (0 : Int) < 2 :=
    ⟨he0, he1, le_rfl, by decide⟩
  have c1 : 0 ≤ e ∧ e < (B.NEQ : Int) ∧ (0 : Int) ≤ 1 ∧ (1 : Int) < 2 :=
    ⟨he0, he1, by decide, by decide⟩
  constructor
  · simp only [vecRot, gradAt, mat, h3, hN, if_pos c0, Bool.false_eq_true, ↓reduceIte,
      one_ne_zero]
  · simp only [vecRot, gradAt, mat, h3, hN, if_pos c1, Bool.false_eq_true, ↓reduceIte,
      one_ne_zero]

theorem mat_two (B : Build) (m : Libm K) (exd : exedata K) (ifc : Int)
    (h3 : B.dim3 = false) :
    mat B m exd ifc 0 0 = nml B exd ifc 0 ∧ mat B m exd ifc 0 1 = nml B exd ifc 1
    ∧ mat B m exd ifc 1 0 = nml B exd ifc 1 ∧ mat B m exd ifc 1 1 = -nml B exd ifc 0 := by
  refine ⟨?_, ?_, ?_, ?_⟩ <;>
    simp only [mat, h3, Bool.false_eq_true, ↓reduceIte, one_ne_zero]

theorem dsoln_face_mirror (B : Build) (m : Libm K) (exd : exedata K) (ifc : Int)
    (h3 : B.dim3 = false) (hneq : B.NDIM + 2 ≤ B.NEQ) (hfr : orthonormal B exd ifc) :
    mirroredGrad B exd (dsoln_face B m exd exd.dsoln ifc) ifc := by
  have hN : B.NDIM = 2 := by simp [Build.NDIM, h3]
  rw [hN] at hneq
  simp only [orthonormal, h3, Bool.false_eq_true, ↓reduceIte] at hfr
  obtain ⟨w00, w01, w10, w11, w20, w21, w30, w31⟩ := vecWall_two B
    (vecRot B m exd exd.dsoln ifc) h3
  obtain ⟨v00, v01⟩ := vecRot_two B m exd ifc h3 0 le_rfl (by omega)
  obtain ⟨v10, v11⟩ := vecRot_two B m exd ifc h3 1 (by decide) (by omega)
  obtain ⟨v20, v21⟩ := vecRot_two B m exd ifc h3 2 (by decide) (by omega)
  obtain ⟨v30, v31⟩ := vecRot_two B m exd ifc h3 3 (by decide) (by omega)
  obtain ⟨m00, m01, m10, m11⟩ := mat_two B m exd ifc h3
  obtain ⟨p0, p1, _, _⟩ := mirror_alg _ _ (gradAt B exd ifc 0 0) (gradAt B exd ifc 0 1) hfr
  obtain ⟨_, _, q0, q1⟩ := mirror_alg _ _ (gradAt B exd ifc 1 0) (gradAt B exd ifc 1 1) hfr
  obtain ⟨_, _, r0, r1⟩ := mirror_alg _ _ (gradAt B exd ifc 2 0) (gradAt B exd ifc 2 1) hfr
  obtain ⟨t0, t1, _, _⟩ := mirror_alg _ _ (gradAt B exd ifc 3 0) (gradAt B exd ifc 3 1) hfr
  intro d hd0 hd1
  have a0 := dsoln_face_entry B m exd ifc h3 0 (by omega) d hd0 hd1
  have a1 := dsoln_face_entry B m exd ifc h3 1 (by omega) d hd0 hd1
  have a2 := dsoln_face_entry B m exd ifc h3 2 (by omega) d hd0 hd1
  have a3 := dsoln_face_entry B m exd ifc h3 3 (by omega) d hd0 hd1
  simp only [Nat.cast_zero, Nat.cast_one, Nat.cast_ofNat] at a0 a1 a2 a3
  rw [hN] at hd1 ⊢
  have hd : d = 0 ∨ d = 1 := by omega
  rcases hd with rfl | rfl
  · refine ⟨?_, ?_, ?_⟩
    · rw [hN] at a0
      rw [a0, w00, w01, v00, v01, m00, m10]
      exact p0
    · intro e e0 e1
      have he : e = 1 ∨ e = 2 := by omega
      rcases he with rfl | rfl
      · rw [hN] at a1
        rw [a1, w10, w11, v10, v11, m00, m10]
        exact q0
      · rw [hN] at a2
        rw [a2, w20, w21, v20, v21, m00, m10]
        exact r0
    · rw [hN] at a3
      rw [show (1 : Int) + 2 = 3 from rfl, a3, w30, w31, v30, v31, m00, m10]
      exact t0
  · refine ⟨?_, ?_, ?_⟩
    · rw [hN] at a0
      rw [a0, w00, w01, v00, v01, m01, m11]
      exact p1
    · intro e e0 e1
      have he : e = 1 ∨ e = 2 := by omega
      rcases he with rfl | rfl
      · rw [hN] at a1
        rw [a1, w10, w11, v10, v11, m01, m11]
        exact q1
      · rw [hN] at a2
        rw [a2, w20, w21, v20, v21, m01, m11]
        exact r1
    · rw [hN] at a3
      rw [show (1 : Int) + 2 = 3 from rfl, a3, w30, w31, v30, v31, m01, m11]
      exact t1

/-- C11: no-slip ghost state.  Let `NDIM + 2 <= NEQ`, let `sqrt` satisfy
`sqrt(x)*sqrt(x) = x` for `x >= 0`, and let the local frame of face `ifc` be orthonormal
(the normal has unit length; for `NDIM == 3` the vector from the face centroid to the
first node is non-zero and perpendicular to the normal).  One iteration of the face loop
of `bound_nonslipwall_soln` leaves (density, -momentum, energy) of the interior cell in
the ghost cell, and interior plus ghost momentum is zero when the two cells are
different.  When `ifc` is a listed boundary face whose interior cell is no ghost cell
and whose ghost cell belongs to no other listed face, the same holds after the whole
function, the interior cell is unchanged, and interior plus ghost momentum is zero. -/
theorem noslip_ghost_state (B : Build) (m : Libm K) (exd : exedata K) (nbnd : Int)
    (facn : Int → Int) (ifc : Int) (hneq : B.NDIM + 2 ≤ B.NEQ)
    (hsq : ∀ x : K, 0 ≤ x → m.sqrt x * m.sqrt x = x) (hfr : orthonormal B exd ifc) :
    mirrored B exd (soln_body B m exd ifc).soln ifc
    ∧ (icl B exd ifc ≠ jcl B exd ifc → ∀ k : Int, 1 ≤ k → k ≤ B.NDIM →
        (soln_body B m exd ifc).soln (icl B exd ifc * B.NEQ + k)
          + (soln_body B m exd ifc).soln (jcl B exd ifc * B.NEQ + k) = 0)
    ∧ (ifc ∈ faces B nbnd facn → separated B exd nbnd facn ifc →
        mirrored B exd (bound_nonslipwall_soln B m exd nbnd facn).soln ifc
        ∧ (∀ r : Int, 0 ≤ r → r < B.NEQ →
            (bound_nonslipwall_soln B m exd nbnd facn).soln (icl B exd ifc * B.NEQ + r)
              = exd.soln (icl B exd ifc * B.NEQ + r))
        ∧ (∀ k : Int, 1 ≤ k → k ≤ B.NDIM →
            (bound_nonslipwall_soln B m exd nbnd facn).soln (icl B exd ifc * B.NEQ + k)
              + (bound_nonslipwall_soln B m exd nbnd facn).soln (jcl B exd ifc * B.NEQ + k)
              = 0)) := by
  have hbody : mirrored B exd (soln_body B m exd ifc).soln ifc :=
    soln_face_mirror B m exd exd.soln ifc hneq hsq hfr
  have hD : 2 ≤ B.NDIM := by unfold Build.NDIM; split <;> decide
  refine ⟨hbody, ?_, ?_⟩
  · intro hne k k0 k1
    have hfrm : (soln_body B m exd ifc).soln (icl B exd ifc * B.NEQ + k)
        = exd.soln (icl B exd ifc * B.NEQ + k) :=
      soln_face_frame B m exd exd.soln ifc _ (fun ⟨q, q0, q1, hq⟩ =>
        hne (block_sep _ _ _ k q (by omega) (by omega) q0 (by omega) hq).1)
    rw [hfrm, hbody.2.1 k k0 k1]
    ring
  intro hmem hsep
  have hint : ∀ r : Int, 0 ≤ r → r < B.NEQ →
      (bound_nonslipwall_soln B m exd nbnd facn).soln (icl B exd ifc * B.NEQ + r)
        = exd.soln (icl B exd ifc * B.NEQ + r) := by
    intro r h0 h1
    rw [bound_nonslipwall_soln_eq]
    apply foldl_frame (soln_face B m exd)
      (fun f i => ∃ r : Int, 0 ≤ r ∧ r ≤ B.NDIM + 1 ∧ i = jcl B exd f * B.NEQ + r)
      (fun s f i h => soln_face_frame B m exd s f i h)
    intro f hf ⟨q, q0, q1, hq⟩
    exact (hsep f hf).1 (block_sep _ _ _ r q h0 h1 q0 (by omega) hq).1.symm
  have hgh : ∀ i : Int,
      (∃ r : Int, 0 ≤ r ∧ r ≤ B.NDIM + 1 ∧ i = jcl B exd ifc * B.NEQ + r) →
      (bound_nonslipwall_soln B m exd nbnd facn).soln i
        = soln_face B m exd exd.soln ifc i := by
    rw [bound_nonslipwall_soln_eq]
    apply foldl_faces (soln_face B m exd)
      (fun f i => ∃ r : Int, 0 ≤ r ∧ r ≤ B.NDIM + 1 ∧ i = jcl B exd f * B.NEQ + r)
      (fun i => ∃ r : Int, 0 ≤ r ∧ r < B.NEQ ∧ i = icl B exd ifc * B.NEQ + r)
      (fun i => ∃ r : Int, 0 ≤ r ∧ r ≤ B.NDIM + 1 ∧ i = jcl B exd ifc * B.NEQ + r)
      exd.soln (soln_face B m exd exd.soln ifc) ifc
      (fun s f i h => soln_face_frame B m exd s f i h)
    · intro s hs i ⟨r, r0, r1, hr⟩
      obtain ⟨a0, a1, a2⟩ := soln_face_mirror B m exd s ifc hneq hsq hfr
      obtain ⟨b0, b1, b2⟩ := soln_face_mirror B m exd exd.soln ifc hneq hsq hfr
      have hc : r = 0 ∨ (1 ≤ r ∧ r ≤ B.NDIM) ∨ r = 1 + B.NDIM := by omega
      subst hr
      rcases hc with rfl | ⟨c0, c1⟩ | rfl
      · rw [a0, b0, hs _ ⟨0, le_rfl, by omega, rfl⟩]
      · rw [a1 r c0 c1, b1 r c0 c1, hs _ ⟨r, r0, by omega, rfl⟩]
      · rw [a2, b2, hs _ ⟨1 + B.NDIM, by omega, by omega, rfl⟩]
    · intro f hf i ⟨r, r0, r1, hr⟩ ⟨q, q0, q1, hq⟩
      exact (hsep f hf).1 (block_sep _ _ _ r q r0 r1 q0 (by omega) (hr.symm.trans hq)).1.symm
    · intro f hf hne i ⟨r, r0, r1, hr⟩ ⟨q, q0, q1, hq⟩
      exact hne ((hsep f hf).2
        (block_sep _ _ _ r q r0 (by omega) q0 (by omega) (hr.symm.trans hq)).1.symm)
    · intro i _
      rfl
    · exact Or.inl hmem
  have hmir : mirrored B exd (bound_nonslipwall_soln B m exd nbnd facn).soln ifc := by
    obtain ⟨b0, b1, b2⟩ := hbody
    refine ⟨?_, ?_, ?_⟩
    · rw [hgh _ ⟨0, le_rfl, by omega, rfl⟩]; exact b0
    · intro k k0 k1
      rw [hgh _ ⟨k, by omega, by omega, rfl⟩]; exact b1 k k0 k1
    · rw [hgh _ ⟨1 + B.NDIM, by omega, by omega, rfl⟩]; exact b2
  refine ⟨hmir, hint, ?_⟩
  intro k k0 k1
  rw [hint k (by omega) (by omega), hmir.2.1 k k0 k1]
  ring

/-- C12: no-slip ghost gradient for `NDIM == 2`.  Let `NDIM + 2 <= NEQ` and let the face
normal `n` of face `ifc` have unit length.  One iteration of the face loop of
`bound_nonslipwall_dsoln` sets the ghost gradient of density (equation 0) and of energy
(equation `1+NDIM`) to the mirror image `R g = g - 2 (n . g) n` of the interior gradient `g`
of that equation, and the ghost gradient of each momentum component to `-R g`.  When `ifc`
is a listed boundary face whose interior cell is no ghost cell and whose ghost cell belongs
to no other listed face, the same holds after the whole function, and the interior
gradients are unchanged. -/
theorem noslip_ghost_gradient (B : Build) (m : Libm K) (exd : exedata K) (nbnd : Int)
    (facn : Int → Int) (ifc : Int) (h3 : B.dim3 = false) (hneq : B.NDIM + 2 ≤ B.NEQ)
    (hfr : orthonormal B exd ifc) :
    mirroredGrad B exd (dsoln_body B m exd ifc).dsoln ifc
    ∧ (ifc ∈ faces B nbnd facn → separated B exd nbnd facn ifc →
        mirroredGrad B exd (bound_nonslipwall_dsoln B m exd nbnd facn).dsoln ifc
        ∧ (∀ e : Nat, e < B.NEQ → ∀ d : Int, 0 ≤ d → d < B.NDIM →
            (bound_nonslipwall_dsoln B m exd nbnd facn).dsoln
                (icl B exd ifc * B.NEQ * B.NDIM + e * B.NDIM + d)
              = exd.dsoln (icl B exd ifc * B.NEQ * B.NDIM + e * B.NDIM + d))) := by
  have hbody : mirroredGrad B exd (dsoln_body B m exd ifc).dsoln ifc :=
    dsoln_face_mirror B m exd ifc h3 hneq hfr
  refine ⟨hbody, ?_⟩
  intro hmem hsep
  have hN : B.NDIM = 2 := by simp [Build.NDIM, h3]
  have hint : ∀ e : Nat, e < B.NEQ → ∀ d : Int, 0 ≤ d → d < B.NDIM →
      (bound_nonslipwall_dsoln B m exd nbnd facn).dsoln
          (icl B exd ifc * B.NEQ * B.NDIM + e * B.NDIM + d)
        = exd.dsoln (icl B exd ifc * B.NEQ * B.NDIM + e * B.NDIM + d) := by
    intro e he d hd0 hd1
    rw [bound_nonslipwall_dsoln_eq]
    apply foldl_frame (dsoln_face B m exd)
      (fun f i => ∃ e : Nat, e < B.NEQ ∧ ∃ d : Int, 0 ≤ d ∧ d < B.NDIM
        ∧ i = jcl B exd f * B.NEQ * B.NDIM + e * B.NDIM + d)
      (fun s f i h => dsoln_face_frame B m exd s f i h)
    intro f hf ⟨q, hq, c, hc0, hc1, hi⟩
    exact (hsep f hf).1 (grad_block_sep B _ _ e q d c he hq hd0 hd1 hc0 hc1 hi).1.symm
  have hgh : ∀ i : Int,
      (∃ e : Nat, e < B.NEQ ∧ ∃ d : Int, 0 ≤ d ∧ d < B.NDIM
        ∧ i = jcl B exd ifc * B.NEQ * B.NDIM + e * B.NDIM + d) →
      (bound_nonslipwall_dsoln B m exd nbnd facn).dsoln i
        = dsoln_face B m exd exd.dsoln ifc i := by
    rw [bound_nonslipwall_dsoln_eq]
    apply foldl_faces (dsoln_face B m exd)
      (fun f i => ∃ e : Nat, e < B.NEQ ∧ ∃ d : Int, 0 ≤ d ∧ d < B.NDIM
        ∧ i = jcl B exd f * B.NEQ * B.NDIM + e * B.NDIM + d)
      (fun i => ∃ e : Nat, e < B.NEQ ∧ ∃ d : Int, 0 ≤ d ∧ d < B.NDIM
        ∧ i = icl B exd ifc * B.NEQ * B.NDIM + e * B.NDIM + d)
      (fun i => ∃ e : Nat, e < B.NEQ ∧ ∃ d : Int, 0 ≤ d ∧ d < B.NDIM
        ∧ i = jcl B exd ifc * B.NEQ * B.NDIM + e * B.NDIM + d)
      exd.dsoln (dsoln_face B m exd exd.dsoln ifc) ifc
      (fun s f i h => dsoln_face_frame B m exd s f i h)
    · intro s hs i ⟨e, he, d, hd0, hd1, hi⟩
      subst hi
      exact dsoln_face_congr B m exd s exd.dsoln ifc
        (fun q hq c hc0 hc1 => hs _ ⟨q, hq, c, hc0, hc1, rfl⟩) e he d hd0 hd1
    · intro f hf i ⟨e, he, d, hd0, hd1, hi⟩ ⟨q, hq, c, hc0, hc1, hj⟩
      exact (hsep f hf).1
        (grad_block_sep B _ _ e q d c he hq hd0 hd1 hc0 hc1 (hi.symm.trans hj)).1.symm
    · intro f hf hne i ⟨e, he, d, hd0, hd1, hi⟩ ⟨q, hq, c, hc0, hc1, hj⟩
      exact hne ((hsep f hf).2
        (grad_block_sep B _ _ e q d c he hq hd0 hd1 hc0 hc1 (hi.symm.trans hj)).1.symm)
    · intro i _
      rfl
    · exact Or.inl hmem
  have hin : ∀ e : Int, 0 ≤ e → e < B.NEQ → ∀ d : Int, 0 ≤ d → d < B.NDIM →
      (bound_nonslipwall_dsoln B m exd nbnd facn).dsoln
          (jcl B exd ifc * B.NEQ * B.NDIM + e * B.NDIM + d)
        = dsoln_face B m exd exd.dsoln ifc
          (jcl B exd ifc * B.NEQ * B.NDIM + e * B.NDIM + d) := fun e he0 he1 d hd0 hd1 =>
    hgh _ ⟨e.toNat, by omega, d, hd0, hd1, by rw [Int.toNat_of_nonneg he0]⟩
  refine ⟨?_, hint⟩
  intro d hd0 hd1
  obtain ⟨b0, b1, b2⟩ := hbody d hd0 hd1
  refine ⟨?_, ?_, ?_⟩
  · rw [hin 0 le_rfl (by omega) d hd0 hd1]; exact b0
  · intro e e0 e1
    rw [hin e (by omega) (by omega) d hd0 hd1]; exact b1 e e0 e1
  · rw [hin (1 + B.NDIM) (by omega) (by omega) d hd0 hd1]; exact b2

/-! ### The wall reflection applied twice -/

theorem negAt_mul (v : Int → Int → K) (i d j c : Int) :
    negAt v i d j c = (if j = i ∧ c = d then -1 else 1) * v j c := by
  unfold negAt store2
  split_ifs with h
  · obtain ⟨rfl, rfl⟩ := h
    ring
  · ring

theorem ite_sign_sq (c : Prop) [Decidable c] :
    (if c then (-1 : K) else 1) * (if c then (-1 : K) else 1) = 1 := by
  split_ifs <;> norm_num

theorem sign_mul_sq (x y : K) (hx : x * x = 1) (hy : y * y = 1) : x * y * (x * y) = 1 := by
  linear_combination (y * y) * hx + hy

theorem vecWall_sign (B : Build) (e : Int) :
    ∃ σ : Int → K, (∀ k, σ k * σ k = 1) ∧ ∀ (v : Int → Int → K) (k : Int),
      vecWall B v e k = σ k * v e k := by
  cases h3 : B.dim3
  · refine ⟨fun k => (if e = 1 + 2 ∧ k = 0 then -1 else 1)
        * ((if e = 2 ∧ k = 1 then -1 else 1)
          * ((if e = 1 ∧ k = 1 then -1 else 1) * (if e = 0 ∧ k = 0 then -1 else 1))),
      fun k => sign_mul_sq _ _ (ite_sign_sq _)
        (sign_mul_sq _ _ (ite_sign_sq _) (sign_mul_sq _ _ (ite_sign_sq _) (ite_sign_sq _))),
      fun v k => ?_⟩
    have hN : B.NDIM = 2 := by simp [Build.NDIM, h3]
    simp only [vecWall, h3, hN, negAt_mul, Bool.false_eq_true, ↓reduceIte]
    ring
  · refine ⟨fun k => (if e = 1 + 3 ∧ k = 0 then -1 else 1)
        * ((if e = 3 ∧ k = 2 then -1 else 1)
          * ((if e = 3 ∧ k = 1 then -1 else 1)
            * ((if e = 2 ∧ k = 2 then -1 else 1)
              * ((if e = 2 ∧ k = 1 then -1 else 1)
                * ((if e = 1 ∧ k = 2 then -1 else 1)
                  * ((if e = 1 ∧ k = 1 then -1 else 1)
                    * (if e = 0 ∧ k = 0 then -1 else 1))))))),
      fun k => sign_mul_sq _ _ (ite_sign_sq _)
        (sign_mul_sq _ _ (ite_sign_sq _) (sign_mul_sq _ _ (ite_sign_sq _)
          (sign_mul_sq _ _ (ite_sign_sq _) (sign_mul_sq _ _ (ite_sign_sq _)
            (sign_mul_sq _ _ (ite_sign_sq _)
              (sign_mul_sq _ _ (ite_sign_sq _) (ite_sign_sq _))))))),
      fun v k => ?_⟩
    have hN : B.NDIM = 3 := by simp [Build.NDIM, h3]
    simp only [vecWall, h3, hN, negAt_mul, ↓reduceIte]
    ring

theorem frame_three (n0 n1 n2 t0 t1 t2 : K) (hn : n0 * n0 + n1 * n1 + n2 * n2 = 1)
    (ht : t0 * t0 + t1 * t1 + t2 * t2 = 1) (hd : n0 * t0 + n1 * t1 + n2 * t2 = 0) :
    (n0 * (n1 * t2 - n2 * t1) + n1 * (n2 * t0 - n0 * t2) + n2 * (n0 * t1 - n1 * t0) = 0
      ∧ t0 * (n1 * t2 - n2 * t1) + t1 * (n2 * t0 - n0 * t2) + t2 * (n0 * t1 - n1 * t0) = 0
      ∧ (n1 * t2 - n2 * t1) * (n1 * t2 - n2 * t1) + (n2 * t0 - n0 * t2) * (n2 * t0 - n0 * t2)
          + (n0 * t1 - n1 * t0) * (n0 * t1 - n1 * t0) = 1)
    ∧ (n0 * n0 + t0 * t0 + (n1 * t2 - n2 * t1) * (n1 * t2 - n2 * t1) = 1
      ∧ n1 * n1 + t1 * t1 + (n2 * t0 - n0 * t2) * (n2 * t0 - n0 * t2) = 1
      ∧ n2 * n2 + t2 * t2 + (n0 * t1 - n1 * t0) * (n0 * t1 - n1 * t0) = 1
      ∧ n0 * n1 + t0 * t1 + (n1 * t2 - n2 * t1) * (n2 * t0 - n0 * t2) = 0
      ∧ n0 * n2 + t0 * t2 + (n1 * t2 - n2 * t1) * (n0 * t1 - n1 * t0) = 0
      ∧ n1 * n2 + t1 * t2 + (n2 * t0 - n0 * t2) * (n0 * t1 - n1 * t0) = 0) := by
  refine ⟨⟨by ring, by ring, ?_⟩, ?_, ?_, ?_, ?_, ?_, ?_⟩
  · linear_combination (t0 * t0 + t1 * t1 + t2 * t2) * hn + ht
      - (n0 * t0 + n1 * t1 + n2 * t2) * hd
  · linear_combination (t1 * t1 + t2 * t2) * hn + (1 - n0 * n0) * ht
      - (n1 * t1 + n2 * t2 - n0 * t0) * hd
  · linear_combination (t0 * t0 + t2 * t2) * hn + (1 - n1 * n1) * ht
      - (n0 * t0 + n2 * t2 - n1 * t1) * hd
  · linear_combination (t0 * t0 + t1 * t1) * hn + (1 - n2 * n2) * ht
      - (n0 * t0 + n1 * t1 - n2 * t2) * hd
  · linear_combination (-(t0 * t1)) * hn + (-(n0 * n1)) * ht + (n0 * t1 + t0 * n1) * hd
  · linear_combination (-(t0 * t2)) * hn + (-(n0 * n2)) * ht + (n0 * t2 + t0 * n2) * hd
  · linear_combination (-(t1 * t2)) * hn + (-(n1 * n2)) * ht + (n1 * t2 + t1 * n2) * hd

theorem twice_two (a b c d s0 s1 g0 g1 G0 G1 : K) (raa : a * a + b * b = 1)
    (rac : a * c + b * d = 0) (rcc : c * c + d * d = 1) (c00 : a * a + c * c = 1)
    (c01 : a * b + c * d = 0) (c11 : b * b + d * d = 1) (h0 : s0 * s0 = 1)
    (h1 : s1 * s1 = 1)
    (hG0 : G0 = a * (s0 * (a * g0 + b * g1)) + c * (s1 * (c * g0 + d * g1)))
    (hG1 : G1 = b * (s0 * (a * g0 + b * g1)) + d * (s1 * (c * g0 + d * g1))) :
    a * (s0 * (a * G0 + b * G1)) + c * (s1 * (c * G0 + d * G1)) = g0
    ∧ b * (s0 * (a * G0 + b * G1)) + d * (s1 * (c * G0 + d * G1)) = g1 := by
  have e0 : a * G0 + b * G1 = s0 * (a * g0 + b * g1) := by
    linear_combination a * hG0 + b * hG1 + (s0 * (a * g0 + b * g1)) * raa
      + (s1 * (c * g0 + d * g1)) * rac
  have e1 : c * G0 + d * G1 = s1 * (c * g0 + d * g1) := by
    linear_combination c * hG0 + d * hG1 + (s0 * (a * g0 + b * g1)) * rac
      + (s1 * (c * g0 + d * g1)) * rcc
  rw [e0, e1]
  constructor
  · linear_combination (a * (a * g0 + b * g1)) * h0 + (c * (c * g0 + d * g1)) * h1
      + g0 * c00 + g1 * c01
  · linear_combination (b * (a * g0 + b * g1)) * h0 + (d * (c * g0 + d * g1)) * h1
      + g0 * c01 + g1 * c11

theorem twice_three (x0 x1 x2 y0 y1 y2 z0 z1 z2 s0 s1 s2 g0 g1 g2 G0 G1 G2 : K)
    (rxx : x0 * x0 + x1 * x1 + x2 * x2 = 1) (ryy : y0 * y0 + y1 * y1 + y2 * y2 = 1)
    (rzz : z0 * z0 + z1 * z1 + z2 * z2 = 1) (rxy : x0 * y0 + x1 * y1 + x2 * y2 = 0)
    (rxz : x0 * z0 + x1 * z1 + x2 * z2 = 0) (ryz : y0 * z0 + y1 * z1 + y2 * z2 = 0)
    (c00 : x0 * x0 + y0 * y0 + z0 * z0 = 1) (c11 : x1 * x1 + y1 * y1 + z1 * z1 = 1)
    (c22 : x2 * x2 + y2 * y2 + z2 * z2 = 1) (c01 : x0 * x1 + y0 * y1 + z0 * z1 = 0)
    (c02 : x0 * x2 + y0 * y2 + z0 * z2 = 0) (c12 : x1 * x2 + y1 * y2 + z1 * z2 = 0)
    (h0 : s0 * s0 = 1) (h1 : s1 * s1 = 1) (h2 : s2 * s2 = 1)
    (hG0 : G0 = x0 * (s0 * (x0 * g0 + x1 * g1 + x2 * g2))
      + y0 * (s1 * (y0 * g0 + y1 * g1 + y2 * g2)) + z0 * (s2 * (z0 * g0 + z1 * g1 + z2 * g2)))
    (hG1 : G1 = x1 * (s0 * (x0 * g0 + x1 * g1 + x2 * g2))
      + y1 * (s1 * (y0 * g0 + y1 * g1 + y2 * g2)) + z1 * (s2 * (z0 * g0 + z1 * g1 + z2 * g2)))
    (hG2 : G2 = x2 * (s0 * (x0 * g0 + x1 * g1 + x2 * g2))
      + y2 * (s1 * (y0 * g0 + y1 * g1 + y2 * g2))
      + z2 * (s2 * (z0 * g0 + z1 * g1 + z2 * g2))) :
    x0 * (s0 * (x0 * G0 + x1 * G1 + x2 * G2)) + y0 * (s1 * (y0 * G0 + y1 * G1 + y2 * G2))
        + z0 * (s2 * (z0 * G0 + z1 * G1 + z2 * G2)) = g0
    ∧ x1 * (s0 * (x0 * G0 + x1 * G1 + x2 * G2)) + y1 * (s1 * (y0 * G0 + y1 * G1 + y2 * G2))
        + z1 * (s2 * (z0 * G0 + z1 * G1 + z2 * G2)) = g1
    ∧ x2 * (s0 * (x0 * G0 + x1 * G1 + x2 * G2)) + y2 * (s1 * (y0 * G0 + y1 * G1 + y2 * G2))
        + z2 * (s2 * (z0 * G0 + z1 * G1 + z2 * G2)) = g2 := by
  have ex : x0 * G0 + x1 * G1 + x2 * G2 = s0 * (x0 * g0 + x1 * g1 + x2 * g2) := by
    linear_combination x0 * hG0 + x1 * hG1 + x2 * hG2
      + (s0 * (x0 * g0 + x1 * g1 + x2 * g2)) * rxx
      + (s1 * (y0 * g0 + y1 * g1 + y2 * g2)) * rxy
      + (s2 * (z0 * g0 + z1 * g1 + z2 * g2)) * rxz
  have ey : y0 * G0 + y1 * G1 + y2 * G2 = s1 * (y0 * g0 + y1 * g1 + y2 * g2) := by
    linear_combination y0 * hG0 + y1 * hG1 + y2 * hG2
      + (s0 * (x0 * g0 + x1 * g1 + x2 * g2)) * rxy
      + (s1 * (y0 * g0 + y1 * g1 + y2 * g2)) * ryy
      + (s2 * (z0 * g0 + z1 * g1 + z2 * g2)) * ryz
  have ez : z0 * G0 + z1 * G1 + z2 * G2 = s2 * (z0 * g0 + z1 * g1 + z2 * g2) := by
    linear_combination z0 * hG0 + z1 * hG1 + z2 * hG2
      + (s0 * (x0 * g0 + x1 * g1 + x2 * g2)) * rxz
      + (s1 * (y0 * g0 + y1 * g1 + y2 * g2)) * ryz
      + (s2 * (z0 * g0 + z1 * g1 + z2 * g2)) * rzz
  rw [ex, ey, ez]
  refine ⟨?_, ?_, ?_⟩
  · linear_combination (x0 * (x0 * g0 + x1 * g1 + x2 * g2)) * h0
      + (y0 * (y0 * g0 + y1 * g1 + y2 * g2)) * h1
      + (z0 * (z0 * g0 + z1 * g1 + z2 * g2)) * h2 + g0 * c00 + g1 * c01 + g2 * c02
  · linear_combination (x1 * (x0 * g0 + x1 * g1 + x2 * g2)) * h0
      + (y1 * (y0 * g0 + y1 * g1 + y2 * g2)) * h1
      + (z1 * (z0 * g0 + z1 * g1 + z2 * g2)) * h2 + g0 * c01 + g1 * c11 + g2 * c12
  · linear_combination (x2 * (x0 * g0 + x1 * g1 + x2 * g2)) * h0
      + (y2 * (y0 * g0 + y1 * g1 + y2 * g2)) * h1
      + (z2 * (z0 * g0 + z1 * g1 + z2 * g2)) * h2 + g0 * c02 + g1 * c12 + g2 * c22

theorem mat_three (B : Build) (m : Libm K) (exd : exedata K) (ifc : Int)
    (h3 : B.dim3 = true) :
    (mat B m exd ifc 0 0 = nml B exd ifc 0 ∧ mat B m exd ifc 0 1 = nml B exd ifc 1
      ∧ mat B m exd ifc 0 2 = nml B exd ifc 2)
    ∧ (mat B m exd ifc 1 0 = tvec B exd ifc 0 / len B m exd ifc
      ∧ mat B m exd ifc 1 1 = tvec B exd ifc 1 / len B m exd ifc
      ∧ mat B m exd ifc 1 2 = tvec B exd ifc 2 / len B m exd ifc)
    ∧ (mat B m exd ifc 2 0
        = nml B exd ifc 1 * (tvec B exd ifc 2 / len B m exd ifc)
          - nml B exd ifc 2 * (tvec B exd ifc 1 / len B m exd ifc)
      ∧ mat B m exd ifc 2 1
        = nml B exd ifc 2 * (tvec B exd ifc 0 / len B m exd ifc)
          - nml B exd ifc 0 * (tvec B exd ifc 2 / len B m exd ifc)
      ∧ mat B m exd ifc 2 2
        = nml B exd ifc 0 * (tvec B exd ifc 1 / len B m exd ifc)
          - nml B exd ifc 1 * (tvec B exd ifc 0 / len B m exd ifc)) := by
  refine ⟨⟨?_, ?_, ?_⟩, ⟨?_, ?_, ?_⟩, ⟨?_, ?_, ?_⟩⟩ <;>
    simp only [mat, h3, ↓reduceIte, one_ne_zero, OfNat.ofNat_ne_zero, OfNat.ofNat_ne_one]

theorem dsoln_face_value (B : Build) (m : Libm K) (exd : exedata K) (s : Int → K)
    (ifc : Int) (e : Nat) (he : e < B.NEQ) (d : Int) (hd0 : 0 ≤ d) (hd1 : d < B.NDIM) :
    dsoln_face B m exd s ifc (jcl B exd ifc * B.NEQ * B.NDIM + e * B.NDIM + d)
      = if B.dim3 then
          mat B m exd ifc 0 d * vecWall B (vecRot B m exd s ifc) e 0
            + mat B m exd ifc 1 d * vecWall B (vecRot B m exd s ifc) e 1
            + mat B m exd ifc 2 d * vecWall B (vecRot B m exd s ifc) e 2
        else
          mat B m exd ifc 0 d * vecWall B (vecRot B m exd s ifc) e 0
            + mat B m exd ifc 1 d * vecWall B (vecRot B m exd s ifc) e 1 := by
  unfold dsoln_face
  rw [ghostLoop_value B _ _ _ _ _ e he d hd0 hd1]
  simp only [matinv]

theorem vecRot_value (B : Build) (m : Libm K) (exd : exedata K) (s : Int → K) (ifc : Int)
    (e : Nat) (he : e < B.NEQ) (k : Int) (hk0 : 0 ≤ k) (hk1 : k < B.NDIM) :
    vecRot B m exd s ifc e k
      = if B.dim3 then
          mat B m exd ifc k 0 * s (icl B exd ifc * B.NEQ * B.NDIM + e * B.NDIM + 0)
            + mat B m exd ifc k 1 * s (icl B exd ifc * B.NEQ * B.NDIM + e * B.NDIM + 1)
            + mat B m exd ifc k 2 * s (icl B exd ifc * B.NEQ * B.NDIM + e * B.NDIM + 2)
        else
          mat B m exd ifc k 0 * s (icl B exd ifc * B.NEQ * B.NDIM + e * B.NDIM + 0)
            + mat B m exd ifc k 1 * s (icl B exd ifc * B.NEQ * B.NDIM + e * B.NDIM + 1) := by
  have hc : 0 ≤ (e : Int) ∧ (e : Int) < B.NEQ ∧ 0 ≤ k ∧ k < B.NDIM :=
    ⟨by omega, by omega, hk0, hk1⟩
  simp only [vecRot, if_pos hc]

theorem dsolnMap_value (B : Build) (m : Libm K) (exd : exedata K) (ifc : Int) (e : Nat)
    (he : e < B.NEQ) :
    ∃ σ : Int → K, (∀ k, σ k * σ k = 1) ∧ ∀ (g : Int → K) (d : Int), 0 ≤ d → d < B.NDIM →
      dsolnMap B m exd ifc g (e * B.NDIM + d)
        = if B.dim3 then
            mat B m exd ifc 0 d * (σ 0 * (mat B m exd ifc 0 0 * g (e * B.NDIM + 0)
                + mat B m exd ifc 0 1 * g (e * B.NDIM + 1)
                + mat B m exd ifc 0 2 * g (e * B.NDIM + 2)))
              + mat B m exd ifc 1 d * (σ 1 * (mat B m exd ifc 1 0 * g (e * B.NDIM + 0)
                + mat B m exd ifc 1 1 * g (e * B.NDIM + 1)
                + mat B m exd ifc 1 2 * g (e * B.NDIM + 2)))
              + mat B m exd ifc 2 d * (σ 2 * (mat B m exd ifc 2 0 * g (e * B.NDIM + 0)
                + mat B m exd ifc 2 1 * g (e * B.NDIM + 1)
                + mat B m exd ifc 2 2 * g (e * B.NDIM + 2)))
          else
            mat B m exd ifc 0 d * (σ 0 * (mat B m exd ifc 0 0 * g (e * B.NDIM + 0)
                + mat B m exd ifc 0 1 * g (e * B.NDIM + 1)))
              + mat B m exd ifc 1 d * (σ 1 * (mat B m exd ifc 1 0 * g (e * B.NDIM + 0)
                + mat B m exd ifc 1 1 * g (e * B.NDIM + 1))) := by
  obtain ⟨σ, hσ, hw⟩ := vecWall_sign (K := K) B (e : Int)
  refine ⟨σ, hσ, fun g d hd0 hd1 => ?_⟩
  have hidx : ∀ x : Int, icl B exd ifc * B.NEQ * B.NDIM + e * B.NDIM + x
      - icl B exd ifc * B.NEQ * B.NDIM = e * B.NDIM + x := fun x => by ring
  have hD : 2 ≤ B.NDIM := by unfold Build.NDIM; split <;> decide
  unfold dsolnMap
  rw [← add_assoc, dsoln_face_value B m exd _ ifc e he d hd0 hd1]
  cases h3 : B.dim3
  · simp only [Bool.false_eq_true, ↓reduceIte, hw,
      vecRot_value B m exd _ ifc e he 0 le_rfl (by omega),
      vecRot_value B m exd _ ifc e he 1 (by decide) (by omega), h3, hidx]
  · have hN : B.NDIM = 3 := by simp [Build.NDIM, h3]
    simp only [↓reduceIte, hw,
      vecRot_value B m exd _ ifc e he 0 le_rfl (by omega),
      vecRot_value B m exd _ ifc e he 1 (by decide) (by omega),
      vecRot_value B m exd _ ifc e he 2 (by decide) (by omega), h3, hidx]

theorem dsolnMap_twice (B : Build) (m : Libm K) (exd : exedata K) (ifc : Int)
    (hsq : ∀ x : K, 0 ≤ x → m.sqrt x * m.sqrt x = x) (hfr : orthonormal B exd ifc)
    (g : Int → K) (e : Nat) (he : e < B.NEQ) (d : Int) (hd0 : 0 ≤ d) (hd1 : d < B.NDIM) :
    dsolnMap B m exd ifc (dsolnMap B m exd ifc g) (e * B.NDIM + d) = g (e * B.NDIM + d) := by
  obtain ⟨σ, hσ, hv⟩ := dsolnMap_value B m exd ifc e he
  have hD : 2 ≤ B.NDIM := by unfold Build.NDIM; split <;> decide
  cases h3 : B.dim3
  · have hN : B.NDIM = 2 := by simp [Build.NDIM, h3]
    simp only [orthonormal, h3, Bool.false_eq_true, ↓reduceIte] at hfr
    obtain ⟨m00, m01, m10, m11⟩ := mat_two B m exd ifc h3
    have hv2 : ∀ (g : Int → K) (d : Int), 0 ≤ d → d < B.NDIM →
        dsolnMap B m exd ifc g (e * B.NDIM + d)
          = mat B m exd ifc 0 d * (σ 0 * (mat B m exd ifc 0 0 * g (e * B.NDIM + 0)
                + mat B m exd ifc 0 1 * g (e * B.NDIM + 1)))
              + mat B m exd ifc 1 d * (σ 1 * (mat B m exd ifc 1 0 * g (e * B.NDIM + 0)
                + mat B m exd ifc 1 1 * g (e * B.NDIM + 1))) := fun g d a b => by
      rw [hv g d a b, h3]
      rfl
    obtain ⟨t0, t1⟩ := twice_two (mat B m exd ifc 0 0) (mat B m exd ifc 0 1)
      (mat B m exd ifc 1 0) (mat B m exd ifc 1 1) (σ 0) (σ 1) (g (e * B.NDIM + 0))
      (g (e * B.NDIM + 1)) (dsolnMap B m exd ifc g (e * B.NDIM + 0))
      (dsolnMap B m exd ifc g (e * B.NDIM + 1))
      (by rw [m00, m01]; exact hfr) (by rw [m00, m01, m10, m11]; ring)
      (by rw [m10, m11]; linear_combination hfr) (by rw [m00, m10]; exact hfr)
      (by rw [m00, m01, m10, m11]; ring) (by rw [m01, m11]; linear_combination hfr)
      (hσ 0) (hσ 1) (hv2 g 0 le_rfl (by omega)) (hv2 g 1 (by decide) (by omega))
    rw [hv2 _ d hd0 hd1]
    have hd : d = 0 ∨ d = 1 := by omega
    rcases hd with rfl | rfl
    · exact t0
    · exact t1
  · have hN : B.NDIM = 3 := by simp [Build.NDIM, h3]
    simp only [orthonormal, h3, ↓reduceIte] at hfr
    obtain ⟨hn, ht, hdt⟩ := hfr
    obtain ⟨hl, hu⟩ := unit_tangent B m exd ifc hsq ht
    have hd2 : nml B exd ifc 0 * (tvec B exd ifc 0 / len B m exd ifc)
        + nml B exd ifc 1 * (tvec B exd ifc 1 / len B m exd ifc)
        + nml B exd ifc 2 * (tvec B exd ifc 2 / len B m exd ifc) = 0 := by
      field_simp
      linear_combination hdt
    obtain ⟨⟨x0, x1, x2⟩, ⟨y0, y1, y2⟩, ⟨z0, z1, z2⟩⟩ := mat_three B m exd ifc h3
    obtain ⟨⟨rxz, ryz, rzz⟩, c00, c11, c22, c01, c02, c12⟩ := frame_three _ _ _ _ _ _ hn hu hd2
    have hv3 : ∀ (g : Int → K) (d : Int), 0 ≤ d → d < B.NDIM →
        dsolnMap B m exd ifc g (e * B.NDIM + d)
          = mat B m exd ifc 0 d * (σ 0 * (mat B m exd ifc 0 0 * g (e * B.NDIM + 0)
                + mat B m exd ifc 0 1 * g (e * B.NDIM + 1)
                + mat B m exd ifc 0 2 * g (e * B.NDIM + 2)))
              + mat B m exd ifc 1 d * (σ 1 * (mat B m exd ifc 1 0 * g (e * B.NDIM + 0)
                + mat B m exd ifc 1 1 * g (e * B.NDIM + 1)
                + mat B m exd ifc 1 2 * g (e * B.NDIM + 2)))
              + mat B m exd ifc 2 d * (σ 2 * (mat B m exd ifc 2 0 * g (e * B.NDIM + 0)
                + mat B m exd ifc 2 1 * g (e * B.NDIM + 1)
                + mat B m exd ifc 2 2 * g (e * B.NDIM + 2))) := fun g d a b => by
      rw [hv g d a b, h3]
      rfl
    obtain ⟨t0, t1, t2⟩ := twice_three (mat B m exd ifc 0 0) (mat B m exd ifc 0 1)
      (mat B m exd ifc 0 2) (mat B m exd ifc 1 0) (mat B m exd ifc 1 1)
      (mat B m exd ifc 1 2) (mat B m exd ifc 2 0) (mat B m exd ifc 2 1)
      (mat B m exd ifc 2 2) (σ 0) (σ 1) (σ 2) (g (e * B.NDIM + 0)) (g (e * B.NDIM + 1))
      (g (e * B.NDIM + 2)) (dsolnMap B m exd ifc g (e * B.NDIM + 0))
      (dsolnMap B m exd ifc g (e * B.NDIM + 1)) (dsolnMap B m exd ifc g (e * B.NDIM + 2))
      (by rw [x0, x1, x2]; exact hn) (by rw [y0, y1, y2]; exact hu)
      (by rw [z0, z1, z2]; exact rzz) (by rw [x0, x1, x2, y0, y1, y2]; exact hd2)
      (by rw [x0, x1, x2, z0, z1, z2]; exact rxz) (by rw [y0, y1, y2, z0, z1, z2]; exact ryz)
      (by rw [x0, y0, z0]; exact c00) (by rw [x1, y1, z1]; exact c11)
      (by rw [x2, y2, z2]; exact c22) (by rw [x0, x1, y0, y1, z0, z1]; exact c01)
      (by rw [x0, x2, y0, y2, z0, z2]; exact c02)
      (by rw [x1, x2, y1, y2, z1, z2]; exact c12)
      (hσ 0) (hσ 1) (hσ 2) (hv3 g 0 le_rfl (by omega)) (hv3 g 1 (by decide) (by omega))
      (hv3 g 2 (by decide) (by omega))
    rw [hv3 _ d hd0 hd1]
    have hd : d = 0 ∨ d = 1 ∨ d = 2 := by omega
    rcases hd with rfl | rfl | rfl
    · exact t0
    · exact t1
    · exact t2

theorem solnMap_value (B : Build) (m : Libm K) (exd : exedata K) (ifc : Int)
    (hneq : B.NDIM + 2 ≤ B.NEQ) (hsq : ∀ x : K, 0 ≤ x → m.sqrt x * m.sqrt x = x)
    (hfr : orthonormal B exd ifc) (u : Int → K) :
    solnMap B m exd ifc u 0 = u 0
    ∧ (∀ k : Int, 1 ≤ k → k ≤ B.NDIM → solnMap B m exd ifc u k = -u k)
    ∧ solnMap B m exd ifc u (1 + B.NDIM) = u (1 + B.NDIM) := by
  obtain ⟨a0, a1, a2⟩ := soln_face_mirror B m exd
    (fun i => u (i - icl B exd ifc * B.NEQ)) ifc hneq hsq hfr
  simp only [add_sub_cancel_left] at a0 a1 a2
  exact ⟨a0, a1, a2⟩

/-- C23: the wall reflection is an involution.  Let `NDIM + 2 <= NEQ`, let `sqrt` satisfy
`sqrt(x)*sqrt(x) = x` for `x >= 0`, and let the local frame of face `ifc` be orthonormal.
The ghost values written by one iteration of `bound_nonslipwall_soln` and of
`bound_nonslipwall_dsoln` depend only on the interior cell (they are `solnMap` and
`dsolnMap` of its contents), and each map applied twice returns the original values:
every entry `0..NDIM+1` of `soln`, and every component of the gradient of every
equation. -/
theorem wall_reflection_involution (B : Build) (m : Libm K) (exd : exedata K) (ifc : Int)
    (hneq : B.NDIM + 2 ≤ B.NEQ) (hsq : ∀ x : K, 0 ≤ x → m.sqrt x * m.sqrt x = x)
    (hfr : orthonormal B exd ifc) :
    (∀ (s : Int → K) (r : Int), 0 ≤ r → r ≤ B.NDIM + 1 →
        soln_face B m exd s ifc (jcl B exd ifc * B.NEQ + r)
          = solnMap B m exd ifc (fun q => s (icl B exd ifc * B.NEQ + q)) r)
    ∧ (∀ (u : Int → K) (r : Int), 0 ≤ r → r ≤ B.NDIM + 1 →
        solnMap B m exd ifc (solnMap B m exd ifc u) r = u r)
    ∧ (∀ (s : Int → K) (e : Nat), e < B.NEQ → ∀ d : Int, 0 ≤ d → d < B.NDIM →
        dsoln_face B m exd s ifc (jcl B exd ifc * B.NEQ * B.NDIM + e * B.NDIM + d)
          = dsolnMap B m exd ifc (fun q => s (icl B exd ifc * B.NEQ * B.NDIM + q))
              (e * B.NDIM + d))
    ∧ (∀ (g : Int → K) (e : Nat), e < B.NEQ → ∀ d : Int, 0 ≤ d → d < B.NDIM →
        dsolnMap B m exd ifc (dsolnMap B m exd ifc g) (e * B.NDIM + d)
          = g (e * B.NDIM + d)) := by
  have hD : 2 ≤ B.NDIM := by unfold Build.NDIM; split <;> decide
  refine ⟨?_, ?_, ?_, ?_⟩
  · intro s r r0 r1
    obtain ⟨a0, a1, a2⟩ := soln_face_mirror B m exd s ifc hneq hsq hfr
    obtain ⟨b0, b1, b2⟩ := solnMap_value B m exd ifc hneq hsq hfr
      (fun q => s (icl B exd ifc * B.NEQ + q))
    have hc : r = 0 ∨ (1 ≤ r ∧ r ≤ B.NDIM) ∨ r = 1 + B.NDIM := by omega
    rcases hc with rfl | ⟨c0, c1⟩ | rfl
    · rw [a0, b0]
    · rw [a1 r c0 c1, b1 r c0 c1]
    · rw [a2, b2]
  · intro u r r0 r1
    obtain ⟨a0, a1, a2⟩ := solnMap_value B m exd ifc hneq hsq hfr u
    obtain ⟨b0, b1, b2⟩ := solnMap_value B m exd ifc hneq hsq hfr (solnMap B m exd ifc u)
    have hc : r = 0 ∨ (1 ≤ r ∧ r ≤ B.NDIM) ∨ r = 1 + B.NDIM := by omega
    rcases hc with rfl | ⟨c0, c1⟩ | rfl
    · rw [b0, a0]
    · rw [b1 r c0 c1, a1 r c0 c1, neg_neg]
    · rw [b2, a2]
  · intro s e he d hd0 hd1
    unfold dsolnMap
    rw [← add_assoc]
    exact dsoln_face_congr B m exd s _ ifc
      (fun q hq c hc0 hc1 => by simp only [add_sub_cancel_left, add_assoc]) e he d hd0 hd1
  · intro g e he d hd0 hd1
    exact dsolnMap_twice B m exd ifc hsq hfr g e he d hd0 hd1

end BoundaryLemmas

/-! ### The boundary faces `exW` and `exW3` -/

theorem exW_orthonormal : orthonormal exBW (exW ℝ) 0 := by
  norm_num [orthonormal, nml, exW, exBW, Build.NDIM]

theorem exW3_orthonormal : orthonormal exBW3 (exW3 ℝ) 0 := by
  norm_num [orthonormal, nml, tvec, exW3, exBW3, Build.NDIM]

theorem exW_separated (B : Build) (exd : exedata ℝ) (hcl : jcl B exd 0 ≠ icl B exd 0) :
    0 ∈ faces B 1 (fun _ => 0) ∧ separated B exd 1 (fun _ => 0) 0 := by
  have hf : faces B 1 (fun _ => 0) = [0] := rfl
  refine ⟨by rw [hf]; exact List.mem_singleton_self _, ?_⟩
  intro f hmem
  rw [hf] at hmem
  rw [List.mem_singleton.mp hmem]
  exact ⟨hcl, fun _ => rfl⟩

theorem exW_sep : 0 ∈ faces exBW 1 (fun _ => 0) ∧ separated exBW (exW ℝ) 1 (fun _ => 0) 0 :=
  exW_separated exBW (exW ℝ) (by simp [jcl, icl, exW, exBW])

theorem exW3_sep :
    0 ∈ faces exBW3 1 (fun _ => 0) ∧ separated exBW3 (exW3 ℝ) 1 (fun _ => 0) 0 :=
  exW_separated exBW3 (exW3 ℝ) (by simp [jcl, icl, exW3, exBW3])

theorem noslip_ghost_state_witness :
    ((bound_nonslipwall_soln exBW realLibm (exW ℝ) 1 (fun _ => 0)).soln (-4) = 1
      ∧ (bound_nonslipwall_soln exBW realLibm (exW ℝ) 1 (fun _ => 0)).soln (-3) = -2
      ∧ (bound_nonslipwall_soln exBW realLibm (exW ℝ) 1 (fun _ => 0)).soln (-2) = -3
      ∧ (bound_nonslipwall_soln exBW realLibm (exW ℝ) 1 (fun _ => 0)).soln (-1) = 4)
    ∧ mirrored exBW3 (exW3 ℝ)
        (bound_nonslipwall_soln exBW3 realLibm (exW3 ℝ) 1 (fun _ => 0)).soln 0 := by
  have hsq : ∀ x : ℝ, 0 ≤ x → realLibm.sqrt x * realLibm.sqrt x = x :=
    fun x hx => Real.mul_self_sqrt hx
  have h2 := ((noslip_ghost_state exBW realLibm (exW ℝ) 1 (fun _ => 0) 0 (by decide) hsq
    exW_orthonormal).2.2 exW_sep.1 exW_sep.2).1
  have h3 := ((noslip_ghost_state exBW3 realLibm (exW3 ℝ) 1 (fun _ => 0) 0 (by decide) hsq
    exW3_orthonormal).2.2 exW3_sep.1 exW3_sep.2).1
  refine ⟨?_, h3⟩
  obtain ⟨a0, a1, a2⟩ := h2
  have b1 := a1 1 (by decide) (by decide)
  have b2 := a1 2 (by decide) (by decide)
  have hj : jcl exBW (exW ℝ) 0 = -1 := rfl
  have hi : icl exBW (exW ℝ) 0 = 0 := rfl
  have hq : ((exBW.NEQ : Nat) : Int) = 4 := rfl
  have hd : exBW.NDIM = 2 := rfl
  rw [hj, hi, hq] at a0 b1 b2 a2
  rw [hd] at a2
  norm_num [exW] at a0 b1 b2 a2
  exact ⟨a0, b1, b2, a2⟩

theorem noslip_ghost_gradient_witness :
    (bound_nonslipwall_dsoln exBW realLibm (exW ℝ) 1 (fun _ => 0)).dsoln (-8) = 7 / 25
    ∧ (bound_nonslipwall_dsoln exBW realLibm (exW ℝ) 1 (fun _ => 0)).dsoln (-7) = -(24 / 25)
    ∧ (bound_nonslipwall_dsoln exBW realLibm (exW ℝ) 1 (fun _ => 0)).dsoln (-6) = 24 / 25
    ∧ (bound_nonslipwall_dsoln exBW realLibm (exW ℝ) 1 (fun _ => 0)).dsoln (-5) = 7 / 25 := by
  have h2 := ((noslip_ghost_gradient exBW realLibm (exW ℝ) 1 (fun _ => 0) 0 rfl (by decide)
    exW_orthonormal).2 exW_sep.1 exW_sep.2).1
  have hj : jcl exBW (exW ℝ) 0 = -1 := rfl
  have hq : ((exBW.NEQ : Nat) : Int) = 4 := rfl
  have hd : exBW.NDIM = 2 := rfl
  obtain ⟨a0, a1, _⟩ := h2 0 le_rfl (by decide)
  obtain ⟨b0, b1, _⟩ := h2 1 (by decide) (by decide)
  have c0 := a1 1 (by decide) (by decide)
  have c1 := b1 1 (by decide) (by decide)
  rw [hj, hq, hd] at a0 b0 c0 c1
  norm_num [mirror2, gradAt, nml, icl, exW, exBW, Build.NDIM] at a0 b0 c0 c1
  exact ⟨a0, b0, c0, c1⟩

theorem wall_reflection_involution_witness :
    (∀ u : Int → ℝ, solnMap exBW realLibm (exW ℝ) 0 (solnMap exBW realLibm (exW ℝ) 0 u) 1
        = u 1)
    ∧ (∀ g : Int → ℝ,
        dsolnMap exBW3 realLibm (exW3 ℝ) 0 (dsolnMap exBW3 realLibm (exW3 ℝ) 0 g) 5 = g 5) := by
  have hsq : ∀ x : ℝ, 0 ≤ x → realLibm.sqrt x * realLibm.sqrt x = x :=
    fun x hx => Real.mul_self_sqrt hx
  have h2 := (wall_reflection_involution exBW realLibm (exW ℝ) 0 (by decide) hsq
    exW_orthonormal).2.1
  have h3 := (wall_reflection_involution exBW3 realLibm (exW3 ℝ) 0 (by decide) hsq
    exW3_orthonormal).2.2.2
  refine ⟨fun u => h2 u 1 (by decide) (by decide), fun g => ?_⟩
  have h := h3 g 1 (by decide) 2 (by decide) (by decide)
  have e : ((1 : Nat) : Int) * exBW3.NDIM + 2 = 5 := rfl
  rw [e] at h
  exact h

end eulerb

end Solvcon
